import Mathlib

/-!
# Ray intersection core of jaredtao/Core (`geometry/Ray.cpp`, `scene/RayCaster.cpp`)

A shallow embedding of the ray-intersection primitives (`Ray::intersectPlane`,
`Ray::intersectTriangle`, `Ray::intersectBox`, `Ray::intersectMesh`) and of the
registry query (`RayCaster::addObject`, `RayCaster::castRay`).

Modelling conventions.

* `Real` of the source (a machine float) is an arbitrary linearly ordered field `K`: all
  statements are about exact arithmetic.  Every definition is executable for `K = ℚ`.
* The square root used by `magnitude` / `normalize` and the matrix inversion used by
  `castRay` belong to library code that is not part of the translated sources; they are
  parameters (`sqrt`, `invert`) of the functions that reach them.
* `std::vector` is `List`; an out-parameter `Hit&` / `std::vector<Hit>&` is threaded through
  as an argument and returned next to the `Bool` result.
* Sizes and loop counters (`UInt32` in the source) are `Nat`.  The mesh loop advances by
  three while `i < tCount`; since `2^32 - 1` is a multiple of three the counter never wraps
  for a count that fits in 32 bits, so no reduction modulo `2^32` is needed there.  The id
  returned by `addObject` is the size of the object list stored in a `UInt32`, and is
  reduced modulo `2^32`.
* A read outside the vertex or index array and a call of `std::sort` with a comparator that
  is not a strict weak ordering on its input (both undefined behaviour in C++), and the
  exception thrown by `castRay`, are results of type `Except Fault`.
-/

set_option linter.unusedSectionVars false

namespace Core

/-! ## Vectors, points, matrices -/

/-- Three-component vector (`Vector3r`); points (`Point3r`) share the representation. -/
@[ext] structure Vector3 (K : Type) where
  x : K
  y : K
  z : K

/-- Points (`Point3r`) are stored like vectors; the homogeneous coordinate (`1` for a point,
`0` for a direction) is supplied where a four-component operation needs it. -/
abbrev Point3 (K : Type) := Vector3 K

/-- Four-component vector (`Vector4r`), used for plane equations `(a, b, c, d)`. -/
@[ext] structure Vector4 (K : Type) where
  x : K
  y : K
  z : K
  w : K

/-- Four by four matrix (`Matrix4x4`). -/
abbrev Matrix4x4 (K : Type) := Matrix (Fin 4) (Fin 4) K

section Algebra

variable {K : Type} [LinearOrderedField K]

/-- Modelled from the spec: component-wise sum (`operator+` of the vector header, which is
not among the translated sources). -/
def Vector3.add (a b : Vector3 K) : Vector3 K := ⟨a.x + b.x, a.y + b.y, a.z + b.z⟩

/-- Modelled from the spec: component-wise difference (`operator-`). -/
def Vector3.sub (a b : Vector3 K) : Vector3 K := ⟨a.x - b.x, a.y - b.y, a.z - b.z⟩

/-- Modelled from the spec: multiplication by a scalar (`operator*`). -/
def Vector3.scale (a : Vector3 K) (t : K) : Vector3 K := ⟨a.x * t, a.y * t, a.z * t⟩

/-- Modelled from the spec: `Vector3r::dot`. -/
def Vector3.dot (a b : Vector3 K) : K := a.x * b.x + a.y * b.y + a.z * b.z

/-- Modelled from the spec: `Vector3r::cross(a, b, result)`, the right-handed cross
product `a × b`. -/
def Vector3.cross (a b : Vector3 K) : Vector3 K :=
  ⟨a.y * b.z - a.z * b.y, a.z * b.x - a.x * b.z, a.x * b.y - a.y * b.x⟩

/-- Modelled from the spec: `magnitude()`, the Euclidean length, with the square root
supplied by the caller. -/
def Vector3.magnitude (sqrt : K → K) (a : Vector3 K) : K := sqrt (Vector3.dot a a)

/-- Modelled from the spec: `normalize()`, division of every component by the magnitude.
(For the zero vector the field convention `x / 0 = 0` leaves the zero vector.) -/
def Vector3.normalize (sqrt : K → K) (a : Vector3 K) : Vector3 K :=
  ⟨a.x / Vector3.magnitude sqrt a, a.y / Vector3.magnitude sqrt a,
    a.z / Vector3.magnitude sqrt a⟩

/-- Modelled from the spec: `Vector4r::dot`. -/
def Vector4.dot (a b : Vector4 K) : K := a.x * b.x + a.y * b.y + a.z * b.z + a.w * b.w

/-- Modelled from the spec: `Matrix4x4::transform` on a point (homogeneous coordinate 1). -/
def Matrix4x4.transformPoint (m : Matrix4x4 K) (p : Point3 K) : Point3 K :=
  ⟨m 0 0 * p.x + m 0 1 * p.y + m 0 2 * p.z + m 0 3,
   m 1 0 * p.x + m 1 1 * p.y + m 1 2 * p.z + m 1 3,
   m 2 0 * p.x + m 2 1 * p.y + m 2 2 * p.z + m 2 3⟩

/-- Modelled from the spec: `Matrix4x4::transform` on a direction (homogeneous
coordinate 0). -/
def Matrix4x4.transformVector (m : Matrix4x4 K) (v : Vector3 K) : Vector3 K :=
  ⟨m 0 0 * v.x + m 0 1 * v.y + m 0 2 * v.z,
   m 1 0 * v.x + m 1 1 * v.y + m 1 2 * v.z,
   m 2 0 * v.x + m 2 1 * v.y + m 2 2 * v.z⟩

/-- Modelled from the spec: `Matrix4x4::transpose`. -/
def Matrix4x4.transpose (m : Matrix4x4 K) : Matrix4x4 K := Matrix.transpose m

end Algebra

/-! ## Data model -/

/-- Axis-aligned box (`Box3`) with its two extreme corners. -/
structure Box3 (K : Type) where
  min : Vector3 K
  max : Vector3 K

/-- The part of `Mesh` the ray code reads: vertex positions, the indexed flag, the index
buffer (read only when indexed) and the bounding box. -/
structure Mesh (K : Type) where
  vertices : List (Point3 K)
  indexed : Bool
  indices : List Nat
  boundingBox : Box3 K

/-- Result record of an intersection test (`Hit`).  `Object` is the non-owning reference to
the mesh that was hit, represented by the mesh it refers to. -/
structure Hit (K : Type) where
  Origin : Point3 K
  Normal : Vector3 K
  Distance : K
  ID : Nat
  Object : Option (Mesh K)

/-- A directed line (`Ray`). -/
structure Ray (K : Type) where
  Origin : Point3 K
  Direction : Vector3 K

/-- The part of `Object3D` that `castRay` reads: the activity flag and the world matrix
obtained by `updateWorldMatrix` on a copy of its transform. -/
structure Object3D (K : Type) where
  active : Bool
  worldMatrix : Matrix4x4 K

/-- The registry of `RayCaster`: two parallel lists. -/
structure RayCaster (K : Type) where
  objects : List (Object3D K)
  meshes : List (Mesh K)

/-- The ways a call can fail to return a value: the exception thrown by `castRay`, a read
outside an array, and a call of `std::sort` with a comparator that is not a strict weak
ordering on the elements handed to it (undefined behaviour in C++). -/
inductive Fault where
  | sizeMismatch
  | outOfBounds
  | invalidComparator
  deriving DecidableEq, Repr

section Code

variable {K : Type} [LinearOrderedField K]

/-- Modelled from the spec: a default-constructed `Hit` (the header is not among the
translated sources); every field is zero and no object is referenced. -/
def Hit.fresh : Hit K := ⟨⟨0, 0, 0⟩, ⟨0, 0, 0⟩, 0, 0, none⟩

/-! ## `Ray.cpp` -/

/-- `Ray::intersectPlane` (Ray.cpp 151-162). -/
def Ray.intersectPlane (ray : Ray K) (plane : Vector4 K) (hit : Hit K) : Bool × Hit K :=
  let rayOrigin : Vector4 K := ⟨ray.Origin.x, ray.Origin.y, ray.Origin.z, 1⟩
  let rayDir : Vector4 K := ⟨ray.Direction.x, ray.Direction.y, ray.Direction.z, 0⟩
  let planeRayDot := Vector4.dot plane rayDir
  if planeRayDot = 0 then (false, hit)
  else
    let t := -(Vector4.dot plane rayOrigin / planeRayDot)
    let intersection := Vector3.add ray.Origin (Vector3.scale ray.Direction t)
    (true, { hit with Origin := intersection, Normal := ⟨plane.x, plane.y, plane.z⟩ })

/-- The three weights computed by `Ray::intersectTriangle` (Ray.cpp 127-139) for the plane
point `x`, in the order `(w0, w1, w2)`. -/
def Ray.triangleWeights (p0 p1 p2 x : Point3 K) : K × K × K :=
  let q1 := Vector3.sub p2 p0
  let q2 := Vector3.sub p1 p0
  let r := Vector3.sub x p0
  let rDotQ1 := Vector3.dot r q1
  let rDotQ2 := Vector3.dot r q2
  let q1Sq := Vector3.dot q1 q1
  let q2Sq := Vector3.dot q2 q2
  let q1Dotq2 := Vector3.dot q1 q2
  let qF := -q1Dotq2 / q2Sq
  let w1 := (qF * rDotQ2 + rDotQ1) / (qF * q1Dotq2 + q1Sq)
  let w2 := (rDotQ2 - (w1 * q1Dotq2)) / q2Sq
  let w0 := 1 - w2 - w1
  (w0, w1, w2)

/-- `Ray::intersectTriangle` (Ray.cpp 104-149); `normal = none` is the null pointer. -/
def Ray.intersectTriangle (sqrt : K → K) (ray : Ray K) (p0 p1 p2 : Point3 K) (hit : Hit K)
    (normal : Option (Vector3 K)) : Bool × Hit K :=
  let q1 := Vector3.sub p2 p0
  let q2 := Vector3.sub p1 p0
  let _normal : Vector3 K :=
    match normal with
    | some n => ⟨n.x, n.y, n.z⟩
    | none => Vector3.normalize sqrt (Vector3.cross q1 q2)
  if Vector3.dot _normal ray.Direction ≥ 0 then (false, hit)
  else
    let d := -Vector3.dot p0 _normal
    let planeEq : Vector4 K := ⟨_normal.x, _normal.y, _normal.z, d⟩
    let planeRes := ray.intersectPlane planeEq Hit.fresh
    let intersectsPlane := planeRes.1
    let planeHit := planeRes.2
    if !intersectsPlane then (false, hit)
    else
      let w := Ray.triangleWeights p0 p1 p2 planeHit.Origin
      let w0 := w.1
      let w1 := w.2.1
      let w2 := w.2.2
      if w0 < 0 ∨ w1 < 0 ∨ w2 < 0 ∨ w0 > 1 ∨ w1 > 1 ∨ w2 > 1 then (false, hit)
      else (true, { hit with Origin := planeHit.Origin, Normal := _normal })

/-- The selector `i == 0 ? a : i == 1 ? b : c` used throughout `Ray::intersectBox`. -/
def Ray.sel {α : Type} (i : Nat) (a b c : α) : α := if i = 0 then a else if i = 1 then b else c

/-- The tolerance `epsilon = 0.0001f` of `Ray::intersectBox`. -/
def Ray.epsilon : K := 1 / 10000

/-- One iteration of the axis loop of `Ray::intersectBox` (Ray.cpp 51-93): `some h` when the
iteration executes `return true` with the hit set to `h`, `none` when it falls through to
the next iteration. -/
def Ray.intersectBoxAxis (ray : Ray K) (box : Box3 K) (hit : Hit K) (i : Nat) :
    Option (Hit K) :=
  let max := box.max
  let min := box.min
  let origin := Ray.sel i ray.Origin.x ray.Origin.y ray.Origin.z
  let originA := Ray.sel i ray.Origin.y ray.Origin.z ray.Origin.x
  let originB := Ray.sel i ray.Origin.z ray.Origin.x ray.Origin.y
  let dir := Ray.sel i ray.Direction.x ray.Direction.y ray.Direction.z
  let dirA := Ray.sel i ray.Direction.y ray.Direction.z ray.Direction.x
  let dirB := Ray.sel i ray.Direction.z ray.Direction.x ray.Direction.y
  let hitNormal : Vector3 K := Ray.sel i ⟨1, 0, 0⟩ ⟨0, 1, 0⟩ ⟨0, 0, 1⟩
  -- (extreme, aAtExtreme, bAtExtreme, potentialIntersect, hitNormal) after lines 59-79
  let st : K × K × K × Bool × Vector3 K :=
    if dir > 0 then
      let extreme := Ray.sel i min.x min.y min.z
      let toMin := extreme - origin
      if toMin > 0 then
        (extreme, dirA / dir * toMin + originA, dirB / dir * toMin + originB, true,
          Vector3.scale hitNormal (-1))
      else (extreme, 0, 0, false, hitNormal)
    else if dir < 0 then
      let extreme := Ray.sel i max.x max.y max.z
      let toMax := extreme - origin
      if toMax < 0 then
        (extreme, dirA / dir * toMax + originA, dirB / dir * toMax + originB, true, hitNormal)
      else (extreme, 0, 0, false, hitNormal)
    else (0, 0, 0, false, hitNormal)
  let extreme := st.1
  let aAtExtreme := st.2.1
  let bAtExtreme := st.2.2.1
  let potentialIntersect := st.2.2.2.1
  let hitNormal := st.2.2.2.2
  if potentialIntersect then
    let x := Ray.sel i extreme bAtExtreme aAtExtreme
    let y := Ray.sel i aAtExtreme extreme bAtExtreme
    let z := Ray.sel i bAtExtreme aAtExtreme extreme
    let epsilon : K := Ray.epsilon
    if x ≥ min.x - epsilon ∧ x ≤ max.x + epsilon ∧
       y ≥ min.y - epsilon ∧ y ≤ max.y + epsilon ∧
       z ≥ min.z - epsilon ∧ z ≤ max.z + epsilon then
      some { hit with Origin := ⟨x, y, z⟩, Normal := hitNormal }
    else none
  else none

/-- `Ray::intersectBox` (Ray.cpp 45-97): the axis loop for `i = 0, 1, 2` with its early
return, then `return false`. -/
def Ray.intersectBox (ray : Ray K) (box : Box3 K) (hit : Hit K) : Bool × Hit K :=
  match ray.intersectBoxAxis box hit 0 with
  | some h => (true, h)
  | none =>
    match ray.intersectBoxAxis box hit 1 with
    | some h => (true, h)
    | none =>
      match ray.intersectBoxAxis box hit 2 with
      | some h => (true, h)
      | none => (false, hit)

/-- The vertex read of the mesh loop (Ray.cpp 25-34): `vertices[indices[i]]` for an indexed
mesh, `vertices[i]` otherwise; `none` when the read leaves one of the arrays. -/
def Mesh.vertexAt (mesh : Mesh K) (i : Nat) : Option (Point3 K) :=
  if mesh.indexed then
    match mesh.indices[i]? with
    | some j => mesh.vertices[j]?
    | none => none
  else mesh.vertices[i]?

/-- The loop bound `tCount` of `Ray::intersectMesh` (Ray.cpp 14-19). -/
def Mesh.tCount (mesh : Mesh K) : Nat :=
  if mesh.indexed then mesh.indices.length else mesh.vertices.length

/-- The three vertex reads `a, b, c` of iteration `i = 3 * k` of the mesh loop
(Ray.cpp 24-34); `none` when one of them leaves the arrays. -/
def Mesh.triangleAt (mesh : Mesh K) (k : Nat) : Option (Point3 K × Point3 K × Point3 K) :=
  match mesh.vertexAt (3 * k), mesh.vertexAt (3 * k + 1), mesh.vertexAt (3 * k + 2) with
  | some a, some b, some c => some (a, b, c)
  | _, _, _ => none

/-- The body of the loop of `Ray::intersectMesh` (Ray.cpp 22-40), run for the triangle
numbers `ks` in turn (the counter is `i = 3 * k`).  The local `hit` declared before the
loop and the output collection are threaded through. -/
def Ray.intersectMeshLoop (sqrt : K → K) (ray : Ray K) (mesh : Mesh K) :
    List Nat → Hit K → List (Hit K) → Except Fault (List (Hit K))
  | [], _, hits => Except.ok hits
  | k :: ks, hit, hits =>
    match mesh.triangleAt k with
    | some (a, b, c) =>
      let res := ray.intersectTriangle sqrt a b c hit none
      if res.1 then
        let hit1 : Hit K := { res.2 with Object := some mesh }
        Ray.intersectMeshLoop sqrt ray mesh ks hit1 (hits ++ [hit1])
      else Ray.intersectMeshLoop sqrt ray mesh ks res.2 hits
    | none => Except.error Fault.outOfBounds

/-- `Ray::intersectMesh` (Ray.cpp 10-43).  The counter takes the values `0, 3, 6, ...`
below `tCount`, that is `3 * k` for `k < ⌈tCount / 3⌉`. -/
def Ray.intersectMesh (sqrt : K → K) (ray : Ray K) (mesh : Mesh K) (hits : List (Hit K)) :
    Except Fault (Bool × List (Hit K)) :=
  match Ray.intersectMeshLoop sqrt ray mesh (List.range ((mesh.tCount + 2) / 3)) Hit.fresh
      hits with
  | Except.ok out => Except.ok (decide (out.length > 0), out)
  | Except.error e => Except.error e

/-! ## `RayCaster.cpp` -/

/-- The comparator handed to `std::sort` (RayCaster.cpp 33-35). -/
def RayCaster.hitOrder (a b : Hit K) : Prop := a.Distance ≤ b.Distance

instance RayCaster.hitOrderDecidable : DecidableRel (RayCaster.hitOrder : Hit K → Hit K → Prop) :=
  fun a b => inferInstanceAs (Decidable (a.Distance ≤ b.Distance))

/-- The arrangement a defined call of the sort produces: a comparison sort (insertion sort)
that places an element before the first one the comparator ranks it before. -/
def RayCaster.orderHits (hits : List (Hit K)) : List (Hit K) :=
  List.insertionSort RayCaster.hitOrder hits

/-- Modelled from the spec: `std::sort` belongs to the C++ library, which is not among the
translated sources; this is its call `std::sort(hits.begin(), hits.end(), comparator)` at
RayCaster.cpp 33-35.  The library requires the comparator to be a strict weak ordering.
The comparator `a.Distance <= b.Distance` answers true both ways for two elements at the
same distance, so it is one only on a collection in which no two elements tie; there it
ranks distinct elements as `<` does and the call sorts.  On a collection with a tie the
behaviour of the call is undefined, which is the fault `invalidComparator`. -/
def RayCaster.sortHits (hits : List (Hit K)) : Except Fault (List (Hit K)) :=
  if hits.Pairwise (fun a b => a.Distance ≠ b.Distance) then
    Except.ok (RayCaster.orderHits hits)
  else Except.error Fault.invalidComparator

/-- The world-space fill-in applied to each new hit (RayCaster.cpp 58-63). -/
def RayCaster.toWorld (sqrt : K → K) (ray : Ray K) (transform inverseTranspose : Matrix4x4 K)
    (hitID : Nat) (hit : Hit K) : Hit K :=
  let origin := Matrix4x4.transformPoint transform hit.Origin
  let normal := Matrix4x4.transformVector inverseTranspose hit.Normal
  let distanceVec := Vector3.sub origin ray.Origin
  { hit with Origin := origin, Normal := normal,
             Distance := Vector3.magnitude sqrt distanceVec, ID := hitID }

/-- The per-object overload of `RayCaster::castRay` (RayCaster.cpp 40-67). -/
def RayCaster.castRayObject (sqrt : K → K) (invert : Matrix4x4 K → Matrix4x4 K) (ray : Ray K)
    (mesh : Mesh K) (transform : Matrix4x4 K) (hits : List (Hit K)) (hitID : Nat) :
    Except Fault (Bool × List (Hit K)) :=
  let inverse := invert transform
  let inverseTranspose := Matrix4x4.transpose inverse
  let localRay : Ray K :=
    ⟨Matrix4x4.transformPoint inverse ray.Origin,
     Matrix4x4.transformVector inverse ray.Direction⟩
  let bbIntersect := (localRay.intersectBox mesh.boundingBox Hit.fresh).1
  let startIndex := hits.length
  let afterMesh : Except Fault (List (Hit K)) :=
    if bbIntersect then
      match localRay.intersectMesh sqrt mesh hits with
      | Except.ok r => Except.ok r.2
      | Except.error e => Except.error e
    else Except.ok hits
  match afterMesh with
  | Except.ok hits1 =>
    let hits2 := hits1.take startIndex ++
      (hits1.drop startIndex).map (RayCaster.toWorld sqrt ray transform inverseTranspose hitID)
    Except.ok (decide (hits2.length > 0), hits2)
  | Except.error e => Except.error e

/-- The loop of `RayCaster::castRay` (RayCaster.cpp 21-31) over the registry entries from
index `i` on; `hitFound` and the output collection are threaded through. -/
def RayCaster.castRayLoop (sqrt : K → K) (invert : Matrix4x4 K → Matrix4x4 K) (ray : Ray K) :
    List (Object3D K × Mesh K) → Nat → Bool → List (Hit K) →
      Except Fault (Bool × List (Hit K))
  | [], _, hitFound, hits => Except.ok (hitFound, hits)
  | (object, mesh) :: rest, i, hitFound, hits =>
    if object.active then
      match RayCaster.castRayObject sqrt invert ray mesh object.worldMatrix hits i with
      | Except.ok r =>
        RayCaster.castRayLoop sqrt invert ray rest (i + 1) (r.1 || hitFound) r.2
      | Except.error e => Except.error e
    else RayCaster.castRayLoop sqrt invert ray rest (i + 1) hitFound hits

/-- `RayCaster::castRay` (RayCaster.cpp 16-38).  With both lists of the same length,
`objects[i]` and `meshes[i]` for `i = 0, 1, ...` are the entries of their zip. -/
def RayCaster.castRay (sqrt : K → K) (invert : Matrix4x4 K → Matrix4x4 K) (rc : RayCaster K)
    (ray : Ray K) (hits : List (Hit K)) : Except Fault (Bool × List (Hit K)) :=
  if rc.objects.length ≠ rc.meshes.length then Except.error Fault.sizeMismatch
  else
    match RayCaster.castRayLoop sqrt invert ray (rc.objects.zip rc.meshes) 0 false hits with
    | Except.ok r =>
      match RayCaster.sortHits r.2 with
      | Except.ok sorted => Except.ok (r.1, sorted)
      | Except.error e => Except.error e
    | Except.error e => Except.error e

/-- `RayCaster::addObject` (RayCaster.cpp 9-14): the id returned and the registry after the
call.  The id is declared `UInt32`, so the size of the object list is reduced modulo
`2^32` when it is stored in it. -/
def RayCaster.addObject (rc : RayCaster K) (sceneObject : Object3D K) (mesh : Mesh K) :
    Nat × RayCaster K :=
  let id := rc.objects.length % 2 ^ 32
  (id, ⟨rc.objects ++ [sceneObject], rc.meshes ++ [mesh]⟩)

end Code

/-! ## Specification-side vocabulary -/

section Vocabulary

variable {K : Type} [LinearOrderedField K]

/-- The vertex triples read for the triangle numbers `ks`, in order; `none` when one of the
reads leaves the arrays. -/
def Mesh.trianglesAt (mesh : Mesh K) : List Nat → Option (List (Point3 K × Point3 K × Point3 K))
  | [] => some []
  | k :: ks =>
    match mesh.triangleAt k, Mesh.trianglesAt mesh ks with
    | some t, some ts => some (t :: ts)
    | _, _ => none

/-- The triangles of a mesh in iteration order. -/
def Mesh.triangles (mesh : Mesh K) : Option (List (Point3 K × Point3 K × Point3 K)) :=
  mesh.trianglesAt (List.range ((mesh.tCount + 2) / 3))

/-- A mesh whose reads stay inside its arrays: the count is a multiple of three and, for an
indexed mesh, every index is a position of the vertex array. -/
def Mesh.WellFormed (mesh : Mesh K) : Prop :=
  mesh.tCount % 3 = 0 ∧ (mesh.indexed = true → ∀ j ∈ mesh.indices, j < mesh.vertices.length)

/-- The triangle `t` is hit by the ray: `intersectTriangle` without a precomputed normal
succeeds on it. -/
def Ray.hitsTriangle (sqrt : K → K) (ray : Ray K) (t : Point3 K × Point3 K × Point3 K) : Bool :=
  (ray.intersectTriangle sqrt t.1 t.2.1 t.2.2 Hit.fresh none).1

/-- The hit recorded for a triangle that is hit: position and normal as produced by
`intersectTriangle`, the object reference set to `mesh`, the other fields as in a
default-constructed hit. -/
def Ray.triangleHit (sqrt : K → K) (ray : Ray K) (mesh : Mesh K)
    (t : Point3 K × Point3 K × Point3 K) : Hit K :=
  { (ray.intersectTriangle sqrt t.1 t.2.1 t.2.2 Hit.fresh none).2 with Object := some mesh }

/-- The hits of the triangles of `ts` that are hit, in the order of `ts`. -/
def Ray.meshHits (sqrt : K → K) (ray : Ray K) (mesh : Mesh K)
    (ts : List (Point3 K × Point3 K × Point3 K)) : List (Hit K) :=
  (ts.filter (fun t => ray.hitsTriangle sqrt t)).map (ray.triangleHit sqrt mesh)

/-- The normal `intersectTriangle` computes when no precomputed normal is supplied:
`normalize(cross(p2 - p0, p1 - p0))`. -/
def Ray.triangleNormal (sqrt : K → K) (p0 p1 p2 : Point3 K) : Vector3 K :=
  Vector3.normalize sqrt (Vector3.cross (Vector3.sub p2 p0) (Vector3.sub p1 p0))

/-- The combination `w0 * p0 + w2 * p1 + w1 * p2` of the vertices of a triangle. -/
def Ray.combination (p0 p1 p2 : Point3 K) (w0 w1 w2 : K) : Point3 K :=
  Vector3.add (Vector3.add (Vector3.scale p0 w0) (Vector3.scale p1 w2)) (Vector3.scale p2 w1)

/-- The point of parameter `t` on the line of the ray: `Origin + t * Direction`. -/
def Ray.pointAt (ray : Ray K) (t : K) : Point3 K :=
  Vector3.add ray.Origin (Vector3.scale ray.Direction t)

/-- The `i`-th coordinate of a vector (`0, 1, 2` for `x, y, z`). -/
def Vector3.comp (v : Vector3 K) (i : Nat) : K := Ray.sel i v.x v.y v.z

/-- The unit vector of axis `i`. -/
def Vector3.axis (i : Nat) : Vector3 K := Ray.sel i ⟨1, 0, 0⟩ ⟨0, 1, 0⟩ ⟨0, 0, 1⟩

/-- The point lies in the box. -/
def Box3.contains (box : Box3 K) (p : Point3 K) : Prop :=
  box.min.x ≤ p.x ∧ p.x ≤ box.max.x ∧ box.min.y ≤ p.y ∧ p.y ≤ box.max.y ∧
  box.min.z ≤ p.z ∧ p.z ≤ box.max.z

/-- The point lies in the box enlarged by the tolerance `0.0001` on every side. -/
def Box3.nearly (box : Box3 K) (p : Point3 K) : Prop :=
  box.min.x - Ray.epsilon ≤ p.x ∧ p.x ≤ box.max.x + Ray.epsilon ∧
  box.min.y - Ray.epsilon ≤ p.y ∧ p.y ≤ box.max.y + Ray.epsilon ∧
  box.min.z - Ray.epsilon ≤ p.z ∧ p.z ≤ box.max.z + Ray.epsilon

/-- The ray faces the slab of axis `i` from outside: it moves up and starts below the
minimum plane, or moves down and starts above the maximum plane. -/
def Ray.axisFront (ray : Ray K) (box : Box3 K) (i : Nat) : Prop :=
  (0 < ray.Direction.comp i ∧ ray.Origin.comp i < box.min.comp i) ∨
  (ray.Direction.comp i < 0 ∧ box.max.comp i < ray.Origin.comp i)

/-- The extreme of axis `i` the loop uses: the minimum when the ray moves up along the
axis, the maximum otherwise. -/
def Ray.axisExtreme (ray : Ray K) (box : Box3 K) (i : Nat) : K :=
  if 0 < ray.Direction.comp i then box.min.comp i else box.max.comp i

/-- The parameter at which the line of the ray meets the plane of that extreme. -/
def Ray.axisParam (ray : Ray K) (box : Box3 K) (i : Nat) : K :=
  (ray.axisExtreme box i - ray.Origin.comp i) / ray.Direction.comp i

/-- The normal the loop reports for axis `i`: the unit vector of the axis, negated when
the minimum extreme is used. -/
def Ray.axisNormal (ray : Ray K) (i : Nat) : Vector3 K :=
  if 0 < ray.Direction.comp i then Vector3.scale (Vector3.axis i) (-1) else Vector3.axis i

/-- The local-space ray of an object with world matrix `transform`
(RayCaster.cpp 41-48). -/
def RayCaster.localRay (invert : Matrix4x4 K → Matrix4x4 K) (ray : Ray K)
    (transform : Matrix4x4 K) : Ray K :=
  ⟨Matrix4x4.transformPoint (invert transform) ray.Origin,
   Matrix4x4.transformVector (invert transform) ray.Direction⟩

/-- The world-space hits one object contributes: none when the local ray misses the
bounding box, otherwise the local-space hits of its mesh after the world-space fill-in. -/
def RayCaster.objectHits (sqrt : K → K) (invert : Matrix4x4 K → Matrix4x4 K) (ray : Ray K)
    (mesh : Mesh K) (transform : Matrix4x4 K) (hitID : Nat) : Except Fault (List (Hit K)) :=
  if ((RayCaster.localRay invert ray transform).intersectBox mesh.boundingBox Hit.fresh).1 then
    match (RayCaster.localRay invert ray transform).intersectMesh sqrt mesh [] with
    | Except.ok r =>
      Except.ok (r.2.map (RayCaster.toWorld sqrt ray transform
        (Matrix4x4.transpose (invert transform)) hitID))
    | Except.error e => Except.error e
  else Except.ok []

/-- The hits contributed by the active entries of a registry, in registration order, the
first entry having index `i`. -/
def RayCaster.sceneHits (sqrt : K → K) (invert : Matrix4x4 K → Matrix4x4 K) (ray : Ray K) :
    List (Object3D K × Mesh K) → Nat → Except Fault (List (Hit K))
  | [], _ => Except.ok []
  | (object, mesh) :: rest, i =>
    if object.active then
      match RayCaster.objectHits sqrt invert ray mesh object.worldMatrix i with
      | Except.ok new =>
        match RayCaster.sceneHits sqrt invert ray rest (i + 1) with
        | Except.ok more => Except.ok (new ++ more)
        | Except.error e => Except.error e
      | Except.error e => Except.error e
    else RayCaster.sceneHits sqrt invert ray rest (i + 1)

/-- The box is not inverted: `min ≤ max` on every axis. -/
def Box3.WellFormed (box : Box3 K) : Prop :=
  box.min.x ≤ box.max.x ∧ box.min.y ≤ box.max.y ∧ box.min.z ≤ box.max.z

/-- The point lies within the tolerance `0.0001` of the box on the two axes other than
`k`. -/
def Box3.nearlyOff (box : Box3 K) (p : Point3 K) (k : Nat) : Prop :=
  ∀ j < 3, j ≠ k →
    box.min.comp j - Ray.epsilon ≤ p.comp j ∧ p.comp j ≤ box.max.comp j + Ray.epsilon

/-- Every triangle of the mesh is non-degenerate and has its three vertices inside the
bounding box of the mesh. -/
def Mesh.Enclosed (mesh : Mesh K) : Prop :=
  ∀ ts, mesh.triangles = some ts → ∀ t ∈ ts,
    Vector3.cross (Vector3.sub t.2.2 t.1) (Vector3.sub t.2.1 t.1) ≠ ⟨0, 0, 0⟩ ∧
    mesh.boundingBox.contains t.1 ∧ mesh.boundingBox.contains t.2.1 ∧
    mesh.boundingBox.contains t.2.2

/-- A `RayCaster` on which `addObject` has not been called yet. -/
def RayCaster.empty : RayCaster K := ⟨[], []⟩

/-- A sequence of `addObject` calls, one for each pair of the list in turn: the ids
returned, in call order, and the registry after the last call. -/
def RayCaster.addAll (rc : RayCaster K) : List (Object3D K × Mesh K) → List Nat × RayCaster K
  | [] => ([], rc)
  | (object, mesh) :: rest =>
    (((rc.addObject object mesh).1 :: (RayCaster.addAll (rc.addObject object mesh).2 rest).1),
      (RayCaster.addAll (rc.addObject object mesh).2 rest).2)

/-- The comparator of the sort is total over exact arithmetic. -/
instance RayCaster.hitOrder_total : IsTotal (Hit K) RayCaster.hitOrder :=
  ⟨fun a b => le_total a.Distance b.Distance⟩

/-- The comparator of the sort is transitive. -/
instance RayCaster.hitOrder_trans : IsTrans (Hit K) RayCaster.hitOrder :=
  ⟨fun _ _ _ hab hbc => le_trans hab hbc⟩

end Vocabulary

/-! ## Concrete scenes -/

section Scenes

variable {K : Type} [LinearOrderedField K]

/-- The cube with corners `(-1,-1,-1)` and `(1,1,1)`. -/
def Scenes.cube : Box3 K := ⟨⟨-1, -1, -1⟩, ⟨1, 1, 1⟩⟩

/-- A non-indexed mesh with the single triangle `(0,0,0), (0,1,0), (1,0,0)`, whose
cross-product normal is `(0,0,1)`. -/
def Scenes.flatMesh : Mesh K := ⟨[⟨0, 0, 0⟩, ⟨0, 1, 0⟩, ⟨1, 0, 0⟩], false, [], Scenes.cube⟩

/-- An indexed mesh over four vertices with two triangles. -/
def Scenes.indexedMesh : Mesh K :=
  ⟨[⟨0, 0, 0⟩, ⟨1, 0, 0⟩, ⟨0, 1, 0⟩, ⟨1, 1, 0⟩], true, [0, 2, 1, 1, 2, 3], Scenes.cube⟩

/-- A mesh without vertices. -/
def Scenes.emptyMesh : Mesh K := ⟨[], false, [], Scenes.cube⟩

/-- A non-indexed mesh with one triangle far from the origin, with its bounding box. -/
def Scenes.farMesh : Mesh K :=
  ⟨[⟨10, 10, 0⟩, ⟨10, 11, 0⟩, ⟨11, 10, 0⟩], false, [], ⟨⟨9, 9, -1⟩, ⟨12, 12, 1⟩⟩⟩

/-- A hit record that carries only a distance. -/
def Scenes.hitAt (d : K) : Hit K := ⟨⟨0, 0, 0⟩, ⟨0, 0, 0⟩, d, 0, none⟩

/-- The world-space hit of the down ray on `flatMesh` placed with the identity matrix,
tagged with the id `i`. -/
def Scenes.flatHit (i : Nat) : Hit K :=
  ⟨⟨1 / 5, 1 / 5, 0⟩, ⟨0, 0, 1⟩, 5, i, some Scenes.flatMesh⟩

/-- A ray that passes the face `x = -1` of the cube just below the edge `y = -1`, inside
the tolerance, and enters the cube later through the face `y = -1`. -/
def Scenes.grazingRay : Ray K := ⟨⟨-2, -10001 / 10000, 0⟩, ⟨1, 1 / 20000, 0⟩⟩

/-- A ray that starts at the centre of the cube and runs along `x`. -/
def Scenes.insideRay : Ray K := ⟨⟨0, 0, 0⟩, ⟨1, 0, 0⟩⟩

/-- A ray that starts below the cube and points straight up. -/
def Scenes.upRay : Ray K := ⟨⟨0, 0, -5⟩, ⟨0, 0, 1⟩⟩

/-- A ray that starts above the cube and points straight down. -/
def Scenes.downRay : Ray K := ⟨⟨1 / 5, 1 / 5, 5⟩, ⟨0, 0, -1⟩⟩

end Scenes

/-! ## Properties of `Ray::intersectPlane` -/

section PlaneProofs

variable {K : Type} [LinearOrderedField K]

/-- C8: `intersectPlane` returns false exactly when `a*Dx + b*Dy + c*Dz = 0`, and then the
hit is unchanged; otherwise it returns true (whatever the sign of `t`) with
`hit.Origin = Origin + t * Direction` for
`t = -(a*Ox + b*Oy + c*Oz + d) / (a*Dx + b*Dy + c*Dz)`, this point satisfies
`a*x + b*y + c*z + d = 0`, `hit.Normal = (a, b, c)` unnormalized, and the other fields of
the hit are untouched. -/
theorem intersectPlane_spec (ray : Ray K) (plane : Vector4 K) (hit : Hit K) :
    ((ray.intersectPlane plane hit).1 = false ↔
      plane.x * ray.Direction.x + plane.y * ray.Direction.y + plane.z * ray.Direction.z = 0) ∧
    ((ray.intersectPlane plane hit).1 = false → (ray.intersectPlane plane hit).2 = hit) ∧
    ((ray.intersectPlane plane hit).1 = true →
      (ray.intersectPlane plane hit).2.Origin =
        Vector3.add ray.Origin (Vector3.scale ray.Direction
          (-(plane.x * ray.Origin.x + plane.y * ray.Origin.y + plane.z * ray.Origin.z + plane.w)
            / (plane.x * ray.Direction.x + plane.y * ray.Direction.y
                + plane.z * ray.Direction.z))) ∧
      plane.x * (ray.intersectPlane plane hit).2.Origin.x
        + plane.y * (ray.intersectPlane plane hit).2.Origin.y
        + plane.z * (ray.intersectPlane plane hit).2.Origin.z + plane.w = 0 ∧
      (ray.intersectPlane plane hit).2.Normal = ⟨plane.x, plane.y, plane.z⟩ ∧
      (ray.intersectPlane plane hit).2.Distance = hit.Distance ∧
      (ray.intersectPlane plane hit).2.ID = hit.ID ∧
      (ray.intersectPlane plane hit).2.Object = hit.Object) := by
  by_cases h : plane.x * ray.Direction.x + plane.y * ray.Direction.y
      + plane.z * ray.Direction.z = 0
  · have h0 : Vector4.dot plane ⟨ray.Direction.x, ray.Direction.y, ray.Direction.z, 0⟩ = 0 := by
      simp only [Vector4.dot]; linear_combination h
    simp [Ray.intersectPlane, h0, h]
  · have h0 : Vector4.dot plane ⟨ray.Direction.x, ray.Direction.y, ray.Direction.z, 0⟩ ≠ 0 := by
      intro hc; apply h; simp only [Vector4.dot] at hc; linear_combination hc
    have hd : Vector4.dot plane ⟨ray.Direction.x, ray.Direction.y, ray.Direction.z, 0⟩
        = plane.x * ray.Direction.x + plane.y * ray.Direction.y + plane.z * ray.Direction.z := by
      simp only [Vector4.dot]; ring
    have ho : Vector4.dot plane ⟨ray.Origin.x, ray.Origin.y, ray.Origin.z, 1⟩
        = plane.x * ray.Origin.x + plane.y * ray.Origin.y + plane.z * ray.Origin.z
          + plane.w := by
      simp only [Vector4.dot]; ring
    have hres : ray.intersectPlane plane hit =
        (true, { hit with
          Origin := Vector3.add ray.Origin (Vector3.scale ray.Direction
            (-(plane.x * ray.Origin.x + plane.y * ray.Origin.y + plane.z * ray.Origin.z
                + plane.w)
              / (plane.x * ray.Direction.x + plane.y * ray.Direction.y
                  + plane.z * ray.Direction.z))),
          Normal := ⟨plane.x, plane.y, plane.z⟩ }) := by
      simp only [Ray.intersectPlane, hd, ho, neg_div, if_neg h]
    rw [hres]
    refine ⟨by simp [h], by simp, fun _ => ⟨rfl, ?_, rfl, rfl, rfl, rfl⟩⟩
    simp only [Vector3.add, Vector3.scale]
    field_simp
    ring

/-- C8 at a concrete input: the plane `z = 0` and a ray that starts below it and points
away from it; the line meets the plane at `t = -2 < 0` and the call still returns true. -/
theorem intersectPlane_spec_witness :
    ((⟨⟨1, 2, -2⟩, ⟨0, 0, -1⟩⟩ : Ray ℚ).intersectPlane ⟨0, 0, 1, 0⟩ Hit.fresh).1 = true ∧
    ((⟨⟨1, 2, -2⟩, ⟨0, 0, -1⟩⟩ : Ray ℚ).intersectPlane ⟨0, 0, 1, 0⟩ Hit.fresh).2.Origin
      = Vector3.add (⟨1, 2, -2⟩ : Vector3 ℚ) (Vector3.scale ⟨0, 0, -1⟩ (-2)) := by
  have h := intersectPlane_spec (⟨⟨1, 2, -2⟩, ⟨0, 0, -1⟩⟩ : Ray ℚ) ⟨0, 0, 1, 0⟩ Hit.fresh
  have ht : ((⟨⟨1, 2, -2⟩, ⟨0, 0, -1⟩⟩ : Ray ℚ).intersectPlane ⟨0, 0, 1, 0⟩ Hit.fresh).1
      = true := by
    by_contra hc
    have := h.1.mp (by simpa using hc)
    norm_num at this
  refine ⟨ht, ?_⟩
  rw [(h.2.2 ht).1]
  norm_num

end PlaneProofs

/-! ## Properties of `Ray::intersectMesh` -/

section MeshProofs

variable {K : Type} [LinearOrderedField K]

/-- The outcome of `intersectTriangle` does not depend on the hit passed in: the verdict,
position and normal are those obtained from a fresh hit, the other fields are kept. -/
theorem intersectTriangle_eq (sqrt : K → K) (ray : Ray K) (p0 p1 p2 : Point3 K) (hit : Hit K)
    (normal : Option (Vector3 K)) :
    ray.intersectTriangle sqrt p0 p1 p2 hit normal =
      if (ray.intersectTriangle sqrt p0 p1 p2 Hit.fresh normal).1 then
        (true, { hit with
          Origin := (ray.intersectTriangle sqrt p0 p1 p2 Hit.fresh normal).2.Origin,
          Normal := (ray.intersectTriangle sqrt p0 p1 p2 Hit.fresh normal).2.Normal })
      else (false, hit) := by
  unfold Ray.intersectTriangle
  simp only []
  split_ifs <;> simp_all

/-- The fields `Distance`, `ID` and `Object` of the hit are never written by
`intersectTriangle`. -/
theorem intersectTriangle_fields (sqrt : K → K) (ray : Ray K) (p0 p1 p2 : Point3 K)
    (hit : Hit K) (normal : Option (Vector3 K)) :
    (ray.intersectTriangle sqrt p0 p1 p2 hit normal).2.Distance = hit.Distance ∧
    (ray.intersectTriangle sqrt p0 p1 p2 hit normal).2.ID = hit.ID ∧
    (ray.intersectTriangle sqrt p0 p1 p2 hit normal).2.Object = hit.Object := by
  rw [intersectTriangle_eq]
  split_ifs <;> simp

/-- The mesh loop only appends: its output on `hits` is `hits` followed by its output on
the empty collection. -/
theorem intersectMeshLoop_append (sqrt : K → K) (ray : Ray K) (mesh : Mesh K) (ks : List Nat) :
    ∀ (hit : Hit K) (hits : List (Hit K)),
      Ray.intersectMeshLoop sqrt ray mesh ks hit hits =
        match Ray.intersectMeshLoop sqrt ray mesh ks hit [] with
        | Except.ok out => Except.ok (hits ++ out)
        | Except.error e => Except.error e := by
  induction ks with
  | nil => intro hit hits; simp [Ray.intersectMeshLoop]
  | cons k ks ih =>
    intro hit hits
    simp only [Ray.intersectMeshLoop]
    cases hk : mesh.triangleAt k with
    | none => simp
    | some t =>
      obtain ⟨a, b, c⟩ := t
      simp only []
      split_ifs with hres
      · rw [ih _ (hits ++ _), ih _ ([] ++ _)]
        cases Ray.intersectMeshLoop sqrt ray mesh ks
          { (ray.intersectTriangle sqrt a b c hit none).2 with Object := some mesh } [] <;> simp
      · exact ih _ hits

/-- The mesh loop in closed form: when every read stays inside the arrays the output is the
input followed by the hits of the triangles that are hit, in order. -/
theorem intersectMeshLoop_eq (sqrt : K → K) (ray : Ray K) (mesh : Mesh K) (ks : List Nat) :
    ∀ (hit : Hit K) (hits : List (Hit K)),
      hit.Distance = (Hit.fresh : Hit K).Distance → hit.ID = (Hit.fresh : Hit K).ID →
      Ray.intersectMeshLoop sqrt ray mesh ks hit hits =
        match mesh.trianglesAt ks with
        | some ts => Except.ok (hits ++ ray.meshHits sqrt mesh ts)
        | none => Except.error Fault.outOfBounds := by
  induction ks with
  | nil => intro hit hits _ _; simp [Ray.intersectMeshLoop, Mesh.trianglesAt, Ray.meshHits]
  | cons k ks ih =>
    intro hit hits hD hI
    simp only [Ray.intersectMeshLoop, Mesh.trianglesAt]
    cases hk : mesh.triangleAt k with
    | none => simp
    | some t =>
      obtain ⟨a, b, c⟩ := t
      simp only []
      rw [intersectTriangle_eq sqrt ray a b c hit none]
      by_cases hres : (ray.intersectTriangle sqrt a b c Hit.fresh none).1 = true
      · simp only [hres, if_true]
        rw [ih _ _ (show ({ hit with
              Origin := (ray.intersectTriangle sqrt a b c Hit.fresh none).2.Origin,
              Normal := (ray.intersectTriangle sqrt a b c Hit.fresh none).2.Normal,
              Object := some mesh } : Hit K).Distance = _ from hD)
            (show ({ hit with
              Origin := (ray.intersectTriangle sqrt a b c Hit.fresh none).2.Origin,
              Normal := (ray.intersectTriangle sqrt a b c Hit.fresh none).2.Normal,
              Object := some mesh } : Hit K).ID = _ from hI)]
        cases hts : mesh.trianglesAt ks with
        | none => simp
        | some ts =>
          have hh : ray.hitsTriangle sqrt (a, b, c) = true := hres
          have hrec : ({ hit with
              Origin := (ray.intersectTriangle sqrt a b c Hit.fresh none).2.Origin,
              Normal := (ray.intersectTriangle sqrt a b c Hit.fresh none).2.Normal,
              Object := some mesh } : Hit K) = ray.triangleHit sqrt mesh (a, b, c) := by
            have hf := intersectTriangle_fields sqrt ray a b c Hit.fresh none
            simp only [Ray.triangleHit, Hit.mk.injEq, true_and, and_true]
            exact ⟨hD.trans hf.1.symm, hI.trans hf.2.1.symm⟩
          simp [Ray.meshHits, List.filter_cons, hh, hrec]
      · simp only [hres, if_false, Bool.false_eq_true]
        rw [ih _ _ hD hI]
        cases hts : mesh.trianglesAt ks with
        | none => simp
        | some ts =>
          have hh : ray.hitsTriangle sqrt (a, b, c) = false := by
            simpa [Ray.hitsTriangle] using hres
          simp [Ray.meshHits, List.filter_cons, hh]

/-- The list read by `trianglesAt` is the list of the single reads. -/
theorem trianglesAt_eq_some_iff (mesh : Mesh K) (ks : List Nat) :
    ∀ ts, mesh.trianglesAt ks = some ts ↔ ks.map mesh.triangleAt = ts.map some := by
  induction ks with
  | nil => intro ts; cases ts <;> simp [Mesh.trianglesAt]
  | cons k ks ih =>
    intro ts
    simp only [Mesh.trianglesAt, List.map_cons]
    cases hk : mesh.triangleAt k with
    | none => cases ts <;> simp
    | some t =>
      cases hts : mesh.trianglesAt ks with
      | none =>
        cases ts with
        | nil => simp
        | cons u us =>
          simp only [List.map_cons, List.cons.injEq, Option.some.injEq]
          constructor
          · intro hc; simp at hc
          · rintro ⟨_, hc⟩
            have := (ih us).mpr hc
            simp [hts] at this
      | some ts0 =>
        cases ts with
        | nil => simp
        | cons u us =>
          simp only [Option.some.injEq, List.cons.injEq, List.map_cons]
          constructor
          · rintro ⟨rfl, rfl⟩; exact ⟨rfl, (ih _).mp hts⟩
          · rintro ⟨rfl, hc⟩
            have := (ih us).mpr hc
            rw [hts] at this
            exact ⟨rfl, Option.some.inj this⟩

/-- When every single read succeeds, so does the read of the whole list. -/
theorem trianglesAt_isSome (mesh : Mesh K) (ks : List Nat)
    (h : ∀ k ∈ ks, ∃ t, mesh.triangleAt k = some t) : ∃ ts, mesh.trianglesAt ks = some ts := by
  induction ks with
  | nil => exact ⟨[], rfl⟩
  | cons k ks ih =>
    obtain ⟨t, ht⟩ := h k (List.mem_cons_self _ _)
    obtain ⟨ts, hts⟩ := ih (fun j hj => h j (List.mem_cons_of_mem _ hj))
    exact ⟨t :: ts, by simp [Mesh.trianglesAt, ht, hts]⟩

/-- In a well-formed mesh every position below the count can be read. -/
theorem vertexAt_isSome (mesh : Mesh K) (hwf : mesh.WellFormed) (i : Nat) (hi : i < mesh.tCount) :
    ∃ p, mesh.vertexAt i = some p := by
  unfold Mesh.vertexAt
  unfold Mesh.tCount at hi
  cases hidx : mesh.indexed with
  | false =>
    simp only [hidx, Bool.false_eq_true, if_false] at hi ⊢
    exact ⟨mesh.vertices[i], List.getElem?_eq_getElem hi⟩
  | true =>
    simp only [hidx, if_true] at hi ⊢
    have hj : mesh.indices[i] < mesh.vertices.length :=
      hwf.2 hidx _ (List.getElem_mem hi)
    exact ⟨mesh.vertices[mesh.indices[i]], by
      rw [List.getElem?_eq_getElem hi]; exact List.getElem?_eq_getElem hj⟩

/-- A well-formed mesh has its triangles: `tCount / 3` of them, the `k`-th made of the
reads at `3k`, `3k + 1`, `3k + 2`. -/
theorem triangles_of_wellFormed (mesh : Mesh K) (hwf : mesh.WellFormed) :
    ∃ ts, mesh.triangles = some ts ∧
      (List.range (mesh.tCount / 3)).map mesh.triangleAt = ts.map some := by
  have hr : (mesh.tCount + 2) / 3 = mesh.tCount / 3 := by have := hwf.1; omega
  have hall : ∀ k ∈ List.range (mesh.tCount / 3), ∃ t, mesh.triangleAt k = some t := by
    intro k hk
    have hk3 : 3 * k + 2 < mesh.tCount := by
      have := List.mem_range.mp hk
      have := hwf.1
      omega
    obtain ⟨a, ha⟩ := vertexAt_isSome mesh hwf (3 * k) (by omega)
    obtain ⟨b, hb⟩ := vertexAt_isSome mesh hwf (3 * k + 1) (by omega)
    obtain ⟨c, hc⟩ := vertexAt_isSome mesh hwf (3 * k + 2) hk3
    exact ⟨(a, b, c), by simp [Mesh.triangleAt, ha, hb, hc]⟩
  obtain ⟨ts, hts⟩ := trianglesAt_isSome mesh _ hall
  refine ⟨ts, ?_, (trianglesAt_eq_some_iff mesh _ ts).mp hts⟩
  unfold Mesh.triangles
  rw [hr]
  exact hts

/-- `intersectMesh` in closed form. -/
theorem intersectMesh_eq (sqrt : K → K) (ray : Ray K) (mesh : Mesh K) (hits : List (Hit K)) :
    ray.intersectMesh sqrt mesh hits =
      match mesh.triangles with
      | some ts =>
        Except.ok (decide ((hits ++ ray.meshHits sqrt mesh ts).length > 0),
          hits ++ ray.meshHits sqrt mesh ts)
      | none => Except.error Fault.outOfBounds := by
  unfold Ray.intersectMesh Mesh.triangles
  rw [intersectMeshLoop_eq sqrt ray mesh _ Hit.fresh hits rfl rfl]
  cases mesh.trianglesAt (List.range ((mesh.tCount + 2) / 3)) <;> rfl

/-- Every hit recorded for a mesh refers to that mesh. -/
theorem meshHits_object (sqrt : K → K) (ray : Ray K) (mesh : Mesh K)
    (ts : List (Point3 K × Point3 K × Point3 K)) :
    ∀ h ∈ ray.meshHits sqrt mesh ts, h.Object = some mesh := by
  intro h hh
  simp only [Ray.meshHits, List.mem_map] at hh
  obtain ⟨t, _, rfl⟩ := hh
  rfl

/-- C9 (amended): on a well-formed mesh `intersectMesh` returns; it returns true if and
only if the output collection is non-empty on return, that is if and only if the collection
was non-empty on entry or at least one triangle of the mesh was hit; and the hits it
appends are exactly those of the triangles that were hit, in triangle iteration order, each
with `Object` set to the mesh. -/
theorem intersectMesh_spec (sqrt : K → K) (ray : Ray K) (mesh : Mesh K) (hits : List (Hit K))
    (hwf : mesh.WellFormed) :
    ∃ ts b, mesh.triangles = some ts ∧
      (List.range (mesh.tCount / 3)).map mesh.triangleAt = ts.map some ∧
      ray.intersectMesh sqrt mesh hits
        = Except.ok (b, hits ++ (ts.filter (fun t => ray.hitsTriangle sqrt t)).map
            (ray.triangleHit sqrt mesh)) ∧
      (b = true ↔ (hits ≠ [] ∨ ∃ t ∈ ts, ray.hitsTriangle sqrt t = true)) ∧
      (∀ t, (ray.triangleHit sqrt mesh t).Object = some mesh) := by
  obtain ⟨ts, hts, hmap⟩ := triangles_of_wellFormed mesh hwf
  refine ⟨ts, decide ((hits ++ ray.meshHits sqrt mesh ts).length > 0), hts, hmap, ?_, ?_,
    fun _ => rfl⟩
  · rw [intersectMesh_eq, hts]
    rfl
  · simp only [gt_iff_lt, decide_eq_true_eq, List.length_pos, ne_eq, List.append_eq_nil,
      not_and_or, Ray.meshHits, List.map_eq_nil_iff, List.filter_eq_nil_iff]
    constructor
    · rintro (h | h)
      · exact Or.inl h
      · right; push_neg at h; obtain ⟨t, ht, hh⟩ := h; exact ⟨t, ht, by simpa using hh⟩
    · rintro (h | ⟨t, ht, hh⟩)
      · exact Or.inl h
      · right; push_neg; exact ⟨t, ht, by simpa using hh⟩

/-- C9 (amended) at a concrete input: the indexed two-triangle mesh. -/
theorem intersectMesh_spec_witness :
    (Scenes.indexedMesh : Mesh ℝ).WellFormed ∧
    ∃ ts b, (Scenes.indexedMesh : Mesh ℝ).triangles = some ts ∧
      (List.range ((Scenes.indexedMesh : Mesh ℝ).tCount / 3)).map
        (Scenes.indexedMesh : Mesh ℝ).triangleAt = ts.map some ∧
      (Scenes.downRay : Ray ℝ).intersectMesh Real.sqrt Scenes.indexedMesh []
        = Except.ok (b, [] ++ (ts.filter
            (fun t => (Scenes.downRay : Ray ℝ).hitsTriangle Real.sqrt t)).map
            ((Scenes.downRay : Ray ℝ).triangleHit Real.sqrt Scenes.indexedMesh)) ∧
      (b = true ↔ (([] : List (Hit ℝ)) ≠ [] ∨
        ∃ t ∈ ts, (Scenes.downRay : Ray ℝ).hitsTriangle Real.sqrt t = true)) ∧
      (∀ t, ((Scenes.downRay : Ray ℝ).triangleHit Real.sqrt Scenes.indexedMesh t).Object
        = some Scenes.indexedMesh) :=
  have hwf : (Scenes.indexedMesh : Mesh ℝ).WellFormed := by
    refine ⟨by simp [Mesh.tCount, Scenes.indexedMesh], fun _ j hj => ?_⟩
    simp only [Scenes.indexedMesh, List.mem_cons, List.mem_singleton, List.not_mem_nil,
      or_false] at hj
    rcases hj with h | h | h | h | h | h <;> simp [h, Scenes.indexedMesh]
  ⟨hwf, intersectMesh_spec Real.sqrt Scenes.downRay Scenes.indexedMesh [] hwf⟩

/-- C9 as stated fails: on a mesh without any triangle and an output collection that
already holds a hit, `intersectMesh` returns true although no triangle was hit. -/
theorem intersectMesh_counterexample :
    (Scenes.emptyMesh : Mesh ℝ).triangles = some [] ∧
    (Scenes.downRay : Ray ℝ).intersectMesh Real.sqrt Scenes.emptyMesh [Hit.fresh]
      = Except.ok (true, [Hit.fresh]) := by
  constructor
  · simp [Mesh.triangles, Mesh.tCount, Scenes.emptyMesh, Mesh.trianglesAt]
  · simp [Ray.intersectMesh, Mesh.tCount, Scenes.emptyMesh, Ray.intersectMeshLoop]

/-- Position and normal of a recorded hit do not depend on the mesh it is attributed to. -/
theorem meshHits_geometry (sqrt : K → K) (ray : Ray K) (mesh mesh1 : Mesh K)
    (ts : List (Point3 K × Point3 K × Point3 K)) :
    (ray.meshHits sqrt mesh ts).map (fun h => (h.Origin, h.Normal)) =
      (ray.meshHits sqrt mesh1 ts).map (fun h => (h.Origin, h.Normal)) := by
  simp [Ray.meshHits, Ray.triangleHit, Function.comp_def]

/-- C10: for a vertex array `V` and an index sequence `I` whose length is a multiple of 3
and whose entries are valid positions of `V`, `intersectMesh` on the indexed mesh `(V, I)`
and on the non-indexed mesh with vertex array `V[I[0]], V[I[1]], ...` both return, with the
same verdict, and append hits with the same positions and normals in the same order. -/
theorem intersectMesh_indexed_flat (sqrt : K → K) (ray : Ray K) (V : List (Point3 K))
    (I I1 : List Nat) (box box1 : Box3 K) (hits : List (Hit K))
    (hlen : I.length % 3 = 0) (hval : ∀ j ∈ I, j < V.length) :
    ∃ b out out1,
      ray.intersectMesh sqrt ⟨V, true, I, box⟩ hits = Except.ok (b, hits ++ out) ∧
      ray.intersectMesh sqrt ⟨I.map (fun j => V.getD j ⟨0, 0, 0⟩), false, I1, box1⟩ hits
        = Except.ok (b, hits ++ out1) ∧
      out.map (fun h => (h.Origin, h.Normal)) = out1.map (fun h => (h.Origin, h.Normal)) := by
  have hwf : (⟨V, true, I, box⟩ : Mesh K).WellFormed :=
    ⟨by simpa [Mesh.tCount] using hlen, fun _ => hval⟩
  have hv : ∀ i, (⟨V, true, I, box⟩ : Mesh K).vertexAt i =
      (⟨I.map (fun j => V.getD j ⟨0, 0, 0⟩), false, I1, box1⟩ : Mesh K).vertexAt i := by
    intro i
    simp only [Mesh.vertexAt, if_true, Bool.false_eq_true, if_false, List.getElem?_map]
    cases hi : I[i]? with
    | none => simp
    | some j =>
      have hj : j < V.length := hval j (List.getElem?_mem hi)
      simp [List.getD_eq_getElem?_getD, List.getElem?_eq_getElem hj]
  have ht : (⟨V, true, I, box⟩ : Mesh K).triangleAt =
      (⟨I.map (fun j => V.getD j ⟨0, 0, 0⟩), false, I1, box1⟩ : Mesh K).triangleAt := by
    funext k
    simp only [Mesh.triangleAt, hv]
  have hts : ∀ ks, (⟨V, true, I, box⟩ : Mesh K).trianglesAt ks =
      (⟨I.map (fun j => V.getD j ⟨0, 0, 0⟩), false, I1, box1⟩ : Mesh K).trianglesAt ks := by
    intro ks
    induction ks with
    | nil => rfl
    | cons k ks ih => simp only [Mesh.trianglesAt, ht, ih]
  have htri : (⟨I.map (fun j => V.getD j ⟨0, 0, 0⟩), false, I1, box1⟩ : Mesh K).triangles =
      (⟨V, true, I, box⟩ : Mesh K).triangles := by
    simp only [Mesh.triangles, hts, Mesh.tCount, if_true, Bool.false_eq_true, if_false,
      List.length_map]
  obtain ⟨ts, hsome, _⟩ := triangles_of_wellFormed _ hwf
  refine ⟨decide ((hits ++ ray.meshHits sqrt ⟨V, true, I, box⟩ ts).length > 0),
    ray.meshHits sqrt ⟨V, true, I, box⟩ ts,
    ray.meshHits sqrt ⟨I.map (fun j => V.getD j ⟨0, 0, 0⟩), false, I1, box1⟩ ts, ?_, ?_,
    meshHits_geometry sqrt ray _ _ ts⟩
  · rw [intersectMesh_eq, hsome]
  · rw [intersectMesh_eq, htri, hsome]
    have hl : (ray.meshHits sqrt ⟨I.map (fun j => V.getD j ⟨0, 0, 0⟩), false, I1, box1⟩ ts).length
        = (ray.meshHits sqrt ⟨V, true, I, box⟩ ts).length := by
      simp [Ray.meshHits]
    simp only [List.length_append, hl]

/-- C10 at a concrete input: the indexed two-triangle mesh and its flattening. -/
theorem intersectMesh_indexed_flat_witness :
    ∃ b out out1,
      (Scenes.downRay : Ray ℝ).intersectMesh Real.sqrt
          ⟨[⟨0, 0, 0⟩, ⟨1, 0, 0⟩, ⟨0, 1, 0⟩, ⟨1, 1, 0⟩], true, [0, 2, 1, 1, 2, 3], Scenes.cube⟩ []
        = Except.ok (b, [] ++ out) ∧
      (Scenes.downRay : Ray ℝ).intersectMesh Real.sqrt
          ⟨[0, 2, 1, 1, 2, 3].map
              (fun j => ([⟨0, 0, 0⟩, ⟨1, 0, 0⟩, ⟨0, 1, 0⟩, ⟨1, 1, 0⟩] : List (Point3 ℝ)).getD j
                ⟨0, 0, 0⟩),
            false, [], Scenes.cube⟩ []
        = Except.ok (b, [] ++ out1) ∧
      out.map (fun h => (h.Origin, h.Normal)) = out1.map (fun h => (h.Origin, h.Normal)) :=
  intersectMesh_indexed_flat Real.sqrt Scenes.downRay _ _ [] Scenes.cube Scenes.cube []
    (by decide) (by decide)

end MeshProofs

/-! ## Properties of `RayCaster::castRay` -/

section CasterProofs

variable {K : Type} [LinearOrderedField K]

/-- On the empty collection `intersectMesh` yields what it appends to any collection. -/
theorem intersectMesh_append (sqrt : K → K) (ray : Ray K) (mesh : Mesh K)
    (hits : List (Hit K)) :
    ray.intersectMesh sqrt mesh hits =
      match ray.intersectMesh sqrt mesh [] with
      | Except.ok r => Except.ok (decide ((hits ++ r.2).length > 0), hits ++ r.2)
      | Except.error e => Except.error e := by
  rw [intersectMesh_eq, intersectMesh_eq]
  cases mesh.triangles <;> simp

/-- The per-object overload in closed form: the collection passed in, followed by the hits
the object contributes; the verdict is whether the resulting collection is non-empty. -/
theorem castRayObject_eq (sqrt : K → K) (invert : Matrix4x4 K → Matrix4x4 K) (ray : Ray K)
    (mesh : Mesh K) (transform : Matrix4x4 K) (hits : List (Hit K)) (hitID : Nat) :
    RayCaster.castRayObject sqrt invert ray mesh transform hits hitID =
      match RayCaster.objectHits sqrt invert ray mesh transform hitID with
      | Except.ok new => Except.ok (decide ((hits ++ new).length > 0), hits ++ new)
      | Except.error e => Except.error e := by
  unfold RayCaster.castRayObject RayCaster.objectHits RayCaster.localRay
  simp only []
  split_ifs with hbb
  · rw [intersectMesh_append]
    cases Ray.intersectMesh sqrt ⟨Matrix4x4.transformPoint (invert transform) ray.Origin,
        Matrix4x4.transformVector (invert transform) ray.Direction⟩ mesh [] with
    | error e => rfl
    | ok r => simp
  · simp

/-- A registry without an active entry contributes no hit. -/
theorem sceneHits_inactive (sqrt : K → K) (invert : Matrix4x4 K → Matrix4x4 K) (ray : Ray K)
    (es : List (Object3D K × Mesh K)) :
    ∀ (i : Nat), es.any (fun e => e.1.active) = false →
      RayCaster.sceneHits sqrt invert ray es i = Except.ok [] := by
  induction es with
  | nil => intro i _; rfl
  | cons e es ih =>
    intro i h
    obtain ⟨object, mesh⟩ := e
    simp only [List.any_cons, Bool.or_eq_false_iff] at h
    simp only [RayCaster.sceneHits, h.1, Bool.false_eq_true, if_false]
    exact ih _ h.2

/-- The registry loop in closed form. -/
theorem castRayLoop_eq (sqrt : K → K) (invert : Matrix4x4 K → Matrix4x4 K) (ray : Ray K)
    (es : List (Object3D K × Mesh K)) :
    ∀ (i : Nat) (hitFound : Bool) (hits : List (Hit K)),
      RayCaster.castRayLoop sqrt invert ray es i hitFound hits =
        match RayCaster.sceneHits sqrt invert ray es i with
        | Except.ok new =>
          Except.ok (hitFound || (es.any (fun e => e.1.active)
            && decide ((hits ++ new).length > 0)), hits ++ new)
        | Except.error e => Except.error e := by
  induction es with
  | nil => intro i hf hits; simp [RayCaster.castRayLoop, RayCaster.sceneHits]
  | cons e es ih =>
    intro i hf hits
    obtain ⟨object, mesh⟩ := e
    simp only [RayCaster.castRayLoop, RayCaster.sceneHits, List.any_cons]
    cases hact : object.active with
    | false => simp only [Bool.false_eq_true, if_false, Bool.false_or]; exact ih _ _ _
    | true =>
      simp only [if_true, Bool.true_or, Bool.true_and]
      rw [castRayObject_eq]
      cases hobj : RayCaster.objectHits sqrt invert ray mesh object.worldMatrix i with
      | error e => rfl
      | ok new =>
        simp only []
        rw [ih]
        cases hany : es.any (fun e => e.1.active) with
        | false =>
          rw [sceneHits_inactive sqrt invert ray es (i + 1) hany]
          simp only [List.append_nil, Bool.false_and, Bool.or_false, Except.ok.injEq,
            Prod.mk.injEq, and_true]
          exact Bool.or_comm _ _
        | true =>
          cases hrest : RayCaster.sceneHits sqrt invert ray es (i + 1) with
          | error e => rfl
          | ok more =>
            simp only [List.append_assoc, Except.ok.injEq, Prod.mk.injEq, and_true,
              Bool.true_and]
            by_cases h1 : hits ++ new = []
            · have h2 := List.append_eq_nil.mp h1
              cases hf <;> simp [h2.1, h2.2]
            · have h3 : 0 < (hits ++ new).length := List.length_pos.mpr h1
              have h4 : 0 < (hits ++ (new ++ more)).length := by
                rw [← List.append_assoc, List.length_append]; omega
              rw [decide_eq_true h3, decide_eq_true h4]
              simp

/-- `castRay` in closed form: the size check, then the collection passed in followed by
the contributions of the active entries, handed to the sort; the verdict is true when some
entry is active and the collection is non-empty. -/
theorem castRay_eq (sqrt : K → K) (invert : Matrix4x4 K → Matrix4x4 K) (rc : RayCaster K)
    (ray : Ray K) (hits : List (Hit K)) :
    RayCaster.castRay sqrt invert rc ray hits =
      if rc.objects.length ≠ rc.meshes.length then Except.error Fault.sizeMismatch
      else
        match RayCaster.sceneHits sqrt invert ray (rc.objects.zip rc.meshes) 0 with
        | Except.ok new =>
          match RayCaster.sortHits (hits ++ new) with
          | Except.ok sorted =>
            Except.ok ((rc.objects.zip rc.meshes).any (fun e => e.1.active)
              && decide ((hits ++ new).length > 0), sorted)
          | Except.error e => Except.error e
        | Except.error e => Except.error e := by
  unfold RayCaster.castRay
  split_ifs with hlen
  · rfl
  · rw [castRayLoop_eq]
    cases RayCaster.sceneHits sqrt invert ray (rc.objects.zip rc.meshes) 0 <;> simp

/-- What a returning call of `castRay` amounts to: the lists have the same length, the
contributions `new` of the registry are defined, no two hits of the collection passed in
followed by `new` lie at the same distance, and the output is that collection in sorted
arrangement. -/
theorem castRay_ok (sqrt : K → K) (invert : Matrix4x4 K → Matrix4x4 K) (rc : RayCaster K)
    (ray : Ray K) (hits : List (Hit K)) (b : Bool) (out : List (Hit K))
    (h : RayCaster.castRay sqrt invert rc ray hits = Except.ok (b, out)) :
    rc.objects.length = rc.meshes.length ∧
    ∃ new, RayCaster.sceneHits sqrt invert ray (rc.objects.zip rc.meshes) 0 = Except.ok new ∧
      ((rc.objects.zip rc.meshes).any (fun e => e.1.active)
        && decide ((hits ++ new).length > 0)) = b ∧
      (hits ++ new).Pairwise (fun a b => a.Distance ≠ b.Distance) ∧
      out = RayCaster.orderHits (hits ++ new) := by
  rw [castRay_eq] at h
  split_ifs at h with hlen
  refine ⟨not_not.mp hlen, ?_⟩
  cases hs : RayCaster.sceneHits sqrt invert ray (rc.objects.zip rc.meshes) 0 with
  | error e => simp [hs] at h
  | ok new =>
    simp only [hs, RayCaster.sortHits] at h
    split_ifs at h with htie
    simp only [Except.ok.injEq, Prod.mk.injEq] at h
    exact ⟨new, rfl, h.1, htie, h.2.symm⟩

/-- The converse: with lists of the same length, defined contributions and no tie among the
distances, `castRay` returns the sorted arrangement. -/
theorem castRay_of_sceneHits (sqrt : K → K) (invert : Matrix4x4 K → Matrix4x4 K)
    (rc : RayCaster K) (ray : Ray K) (hits new : List (Hit K))
    (hlen : rc.objects.length = rc.meshes.length)
    (hs : RayCaster.sceneHits sqrt invert ray (rc.objects.zip rc.meshes) 0 = Except.ok new)
    (htie : (hits ++ new).Pairwise (fun a b => a.Distance ≠ b.Distance)) :
    RayCaster.castRay sqrt invert rc ray hits =
      Except.ok ((rc.objects.zip rc.meshes).any (fun e => e.1.active)
        && decide ((hits ++ new).length > 0), RayCaster.orderHits (hits ++ new)) := by
  rw [castRay_eq, if_neg (not_not.mpr hlen), hs]
  simp only [RayCaster.sortHits, if_pos htie]

/-- Every contributed hit comes from an active entry `j` of the registry: it is the
world-space fill-in, with id `i + j`, of a local-space hit that `intersectMesh` reports for
the local ray of that entry, whose bounding box the local ray meets. -/
theorem sceneHits_mem (sqrt : K → K) (invert : Matrix4x4 K → Matrix4x4 K) (ray : Ray K)
    (es : List (Object3D K × Mesh K)) :
    ∀ (i : Nat) (new : List (Hit K)), RayCaster.sceneHits sqrt invert ray es i = Except.ok new →
      ∀ h ∈ new, ∃ j object mesh b locals l,
        es[j]? = some (object, mesh) ∧ object.active = true ∧
        ((RayCaster.localRay invert ray object.worldMatrix).intersectBox
          mesh.boundingBox Hit.fresh).1 = true ∧
        (RayCaster.localRay invert ray object.worldMatrix).intersectMesh sqrt mesh []
          = Except.ok (b, locals) ∧
        l ∈ locals ∧
        h = RayCaster.toWorld sqrt ray object.worldMatrix
              (Matrix4x4.transpose (invert object.worldMatrix)) (i + j) l := by
  induction es with
  | nil =>
    intro i new hnew h hh
    simp only [RayCaster.sceneHits, Except.ok.injEq] at hnew
    subst hnew
    simp at hh
  | cons e es ih =>
    intro i new hnew h hh
    obtain ⟨object, mesh⟩ := e
    simp only [RayCaster.sceneHits] at hnew
    have hshift : ∀ more, RayCaster.sceneHits sqrt invert ray es (i + 1) = Except.ok more →
        h ∈ more → ∃ j object1 mesh1 b locals l,
          ((object, mesh) :: es)[j]? = some (object1, mesh1) ∧ object1.active = true ∧
          ((RayCaster.localRay invert ray object1.worldMatrix).intersectBox
            mesh1.boundingBox Hit.fresh).1 = true ∧
          (RayCaster.localRay invert ray object1.worldMatrix).intersectMesh sqrt mesh1 []
            = Except.ok (b, locals) ∧
          l ∈ locals ∧
          h = RayCaster.toWorld sqrt ray object1.worldMatrix
                (Matrix4x4.transpose (invert object1.worldMatrix)) (i + j) l := by
      intro more hmore hmem
      obtain ⟨j, o1, m1, b, locals, l, hj, ha, hb, hm, hl, he⟩ := ih (i + 1) more hmore h hmem
      refine ⟨j + 1, o1, m1, b, locals, l, by simpa using hj, ha, hb, hm, hl, ?_⟩
      rw [he]; congr 1; omega
    cases hact : object.active with
    | false =>
      simp only [hact, Bool.false_eq_true, if_false] at hnew
      exact hshift new hnew hh
    | true =>
      simp only [hact, if_true] at hnew
      cases hobj : RayCaster.objectHits sqrt invert ray mesh object.worldMatrix i with
      | error e => simp [hobj] at hnew
      | ok first =>
        cases hrest : RayCaster.sceneHits sqrt invert ray es (i + 1) with
        | error e => simp [hobj, hrest] at hnew
        | ok more =>
          simp only [hobj, hrest, Except.ok.injEq] at hnew
          subst hnew
          rcases List.mem_append.mp hh with h1 | h2
          · unfold RayCaster.objectHits at hobj
            split_ifs at hobj with hbb
            · cases hmesh : (RayCaster.localRay invert ray object.worldMatrix).intersectMesh
                  sqrt mesh [] with
              | error e => simp [hmesh] at hobj
              | ok r =>
                simp only [hmesh, Except.ok.injEq] at hobj
                subst hobj
                obtain ⟨l, hl, rfl⟩ := List.mem_map.mp h1
                exact ⟨0, object, mesh, r.1, r.2, l, by simp, hact, hbb, hmesh, hl, rfl⟩
            · simp only [Except.ok.injEq] at hobj
              subst hobj
              simp at h1
          · exact hshift more hrest h2

/-- The contributions of a registry whose meshes are all well-formed are defined. -/
theorem sceneHits_returns (sqrt : K → K) (invert : Matrix4x4 K → Matrix4x4 K) (ray : Ray K)
    (es : List (Object3D K × Mesh K)) (hwf : ∀ e ∈ es, e.2.WellFormed) :
    ∀ (i : Nat), ∃ new, RayCaster.sceneHits sqrt invert ray es i = Except.ok new := by
  induction es with
  | nil => intro i; exact ⟨[], rfl⟩
  | cons e es ih =>
    intro i
    obtain ⟨object, mesh⟩ := e
    obtain ⟨more, hmore⟩ := ih (fun e he => hwf e (List.mem_cons_of_mem _ he)) (i + 1)
    have hmesh : mesh.WellFormed := hwf (object, mesh) (List.mem_cons_self _ _)
    obtain ⟨ts, hts, _⟩ := triangles_of_wellFormed mesh hmesh
    have hobj : ∃ first, RayCaster.objectHits sqrt invert ray mesh object.worldMatrix i
        = Except.ok first := by
      unfold RayCaster.objectHits
      split_ifs
      · rw [intersectMesh_eq, hts]; exact ⟨_, rfl⟩
      · exact ⟨[], rfl⟩
    obtain ⟨first, hfirst⟩ := hobj
    simp only [RayCaster.sceneHits]
    split_ifs
    · rw [hfirst, hmore]; exact ⟨_, rfl⟩
    · exact ⟨more, hmore⟩

/-- `castRay` returns a result on every registry whose two lists have the same length and
whose meshes are well-formed, unless two hits of the collection handed to the sort lie at
the same distance, in which case the call is undefined. -/
theorem castRay_returns (sqrt : K → K) (invert : Matrix4x4 K → Matrix4x4 K) (rc : RayCaster K)
    (ray : Ray K) (hits : List (Hit K)) (hlen : rc.objects.length = rc.meshes.length)
    (hwf : ∀ m ∈ rc.meshes, m.WellFormed) :
    (∃ b out, RayCaster.castRay sqrt invert rc ray hits = Except.ok (b, out)) ∨
    RayCaster.castRay sqrt invert rc ray hits = Except.error Fault.invalidComparator := by
  obtain ⟨new, hnew⟩ := sceneHits_returns sqrt invert ray (rc.objects.zip rc.meshes)
    (fun e he => hwf e.2 (List.of_mem_zip he).2) 0
  by_cases htie : (hits ++ new).Pairwise (fun a b => a.Distance ≠ b.Distance)
  · left
    exact ⟨_, _, castRay_of_sceneHits sqrt invert rc ray hits new hlen hnew htie⟩
  · right
    rw [castRay_eq, if_neg (not_not.mpr hlen), hnew]
    simp only [RayCaster.sortHits, if_neg htie]

/-- A defined sort orders the collection by ascending `Distance`. -/
theorem orderHits_sorted (hits : List (Hit K)) :
    List.Sorted RayCaster.hitOrder (RayCaster.orderHits hits) :=
  List.sorted_insertionSort RayCaster.hitOrder hits

/-- A defined sort rearranges the collection without adding or dropping a hit. -/
theorem orderHits_perm (hits : List (Hit K)) : List.Perm (RayCaster.orderHits hits) hits :=
  List.perm_insertionSort RayCaster.hitOrder hits

/-- Whenever the call of the sort is defined and `castRay` returns, the output collection
is sorted by ascending `Distance`. -/
theorem castRay_sorted_of_ok (sqrt : K → K) (invert : Matrix4x4 K → Matrix4x4 K)
    (rc : RayCaster K) (ray : Ray K) (hits : List (Hit K)) (b : Bool) (out : List (Hit K))
    (h : RayCaster.castRay sqrt invert rc ray hits = Except.ok (b, out)) :
    ∀ k (hk : k + 1 < out.length),
      (out.get ⟨k, Nat.lt_of_succ_lt hk⟩).Distance ≤ (out.get ⟨k + 1, hk⟩).Distance := by
  intro k hk
  obtain ⟨_, new, _, _, _, rfl⟩ := castRay_ok sqrt invert rc ray hits b out h
  exact (orderHits_sorted (hits ++ new)).rel_get_of_lt (Fin.mk_lt_mk.mpr (Nat.lt_succ_self k))

end CasterProofs

/-! ## Evaluation of the concrete scenes -/

section SceneProofs

open Scenes

/-- With the identity world matrix the local ray is the world ray. -/
theorem Scenes.localRay_one :
    RayCaster.localRay (fun m => m⁻¹) (downRay : Ray ℝ) 1 = downRay := by
  simp [RayCaster.localRay, Matrix4x4.transformPoint, Matrix4x4.transformVector, downRay]

/-- The down ray enters the cube. -/
theorem Scenes.intersectBox_cube :
    ((downRay : Ray ℝ).intersectBox (flatMesh : Mesh ℝ).boundingBox Hit.fresh).1 = true := by
  simp [Ray.intersectBox, Ray.intersectBoxAxis, Ray.sel, downRay, flatMesh, cube, Ray.epsilon,
    Vector3.scale]
  norm_num

/-- The down ray misses the bounding box of the far mesh. -/
theorem Scenes.intersectBox_far :
    ((downRay : Ray ℝ).intersectBox (farMesh : Mesh ℝ).boundingBox Hit.fresh).1 = false := by
  simp [Ray.intersectBox, Ray.intersectBoxAxis, Ray.sel, downRay, farMesh, Ray.epsilon,
    Vector3.scale]
  norm_num

/-- The down ray hits the triangle of `flatMesh` at `(1/5, 1/5, 0)`. -/
theorem Scenes.intersectMesh_flat :
    (downRay : Ray ℝ).intersectMesh Real.sqrt flatMesh []
      = Except.ok (true, [⟨⟨1 / 5, 1 / 5, 0⟩, ⟨0, 0, 1⟩, 0, 0, some flatMesh⟩]) := by
  have ht : (downRay : Ray ℝ).intersectTriangle Real.sqrt ⟨0, 0, 0⟩ ⟨0, 1, 0⟩ ⟨1, 0, 0⟩
      Hit.fresh none = (true, ⟨⟨1 / 5, 1 / 5, 0⟩, ⟨0, 0, 1⟩, 0, 0, none⟩) := by
    simp [Ray.intersectTriangle, Vector3.sub, Vector3.cross, Vector3.normalize,
      Vector3.magnitude, Vector3.dot, downRay, Ray.intersectPlane, Vector4.dot,
      Ray.triangleWeights, Vector3.add, Vector3.scale, Hit.fresh]
    norm_num
  simp [Ray.intersectMesh, Mesh.tCount, flatMesh, Ray.intersectMeshLoop, Mesh.triangleAt,
    Mesh.vertexAt, List.range_succ, ht]

/-- The hits contributed by `flatMesh` placed with the identity matrix. -/
theorem Scenes.objectHits_flat (i : Nat) :
    RayCaster.objectHits Real.sqrt (fun m => m⁻¹) (downRay : Ray ℝ) flatMesh 1 i
      = Except.ok [flatHit i] := by
  unfold RayCaster.objectHits
  rw [Scenes.localRay_one, Scenes.intersectBox_cube, Scenes.intersectMesh_flat]
  simp [RayCaster.toWorld, Matrix4x4.transformPoint, Matrix4x4.transformVector,
    Matrix4x4.transpose, Vector3.magnitude, Vector3.sub, Vector3.dot, downRay, flatHit]

/-- The far mesh placed with the identity matrix contributes nothing. -/
theorem Scenes.objectHits_far (i : Nat) :
    RayCaster.objectHits Real.sqrt (fun m => m⁻¹) (downRay : Ray ℝ) farMesh 1 i
      = Except.ok [] := by
  unfold RayCaster.objectHits
  rw [Scenes.localRay_one, Scenes.intersectBox_far]
  simp

/-- The scene with an inactive and an active copy of `flatMesh`: only the active one, at
index 1, contributes. -/
theorem Scenes.castRay_inactiveFirst :
    RayCaster.castRay Real.sqrt (fun m => m⁻¹)
        ⟨[⟨false, 1⟩, ⟨true, 1⟩], [flatMesh, flatMesh]⟩ (downRay : Ray ℝ) []
      = Except.ok (true, [flatHit 1]) := by
  rw [castRay_eq]
  simp [RayCaster.sceneHits, Scenes.objectHits_flat, RayCaster.sortHits, RayCaster.orderHits]

/-- The scene with the far mesh and `flatMesh`, both active, queried with a collection that
already holds two hits: the three hits come out in ascending distance. -/
theorem Scenes.castRay_prefilled :
    RayCaster.castRay Real.sqrt (fun m => m⁻¹)
        ⟨[⟨true, 1⟩, ⟨true, 1⟩], [farMesh, flatMesh]⟩ (downRay : Ray ℝ) [hitAt 7, hitAt 1]
      = Except.ok (true, [hitAt 1, flatHit 1, hitAt 7]) := by
  rw [castRay_eq]
  simp [RayCaster.sceneHits, Scenes.objectHits_flat, Scenes.objectHits_far,
    RayCaster.sortHits, RayCaster.orderHits, RayCaster.hitOrder, hitAt, flatHit]
  norm_num

/-- Seventeen active copies of `flatMesh`, all placed with the identity matrix: the
registry loop finds seventeen hits, one per copy, all at distance 5. -/
theorem Scenes.castRayLoop_copies :
    RayCaster.castRayLoop Real.sqrt (fun m => m⁻¹) (downRay : Ray ℝ)
        ((List.replicate 17 (⟨true, 1⟩ : Object3D ℝ)).zip (List.replicate 17 flatMesh))
        0 false []
      = Except.ok (true, (List.range 17).map flatHit) := by
  rw [castRayLoop_eq]
  simp [List.replicate, RayCaster.sceneHits, Scenes.objectHits_flat, List.range_succ]

end SceneProofs

/-! ## The claims about `RayCaster::castRay` -/

section CastRayClaims

variable {K : Type} [LinearOrderedField K]

open Scenes

/-- C1 (code bug): `castRay` hands the collection to `std::sort` with the comparator
`a.Distance <= b.Distance`, which is not a strict weak ordering as soon as two hits lie at
the same distance.  For the registry of seventeen active copies of `flatMesh` the loop
collects seventeen hits at distance 5, and the call of the sort on them is undefined: the
code does not return a sorted collection there. -/
theorem castRay_tied_distances :
    RayCaster.castRayLoop Real.sqrt (fun m => m⁻¹) (downRay : Ray ℝ)
        ((List.replicate 17 (⟨true, 1⟩ : Object3D ℝ)).zip (List.replicate 17 flatMesh))
        0 false []
      = Except.ok (true, (List.range 17).map flatHit) ∧
    (∀ h ∈ (List.range 17).map (flatHit : Nat → Hit ℝ), h.Distance = 5) ∧
    RayCaster.castRay Real.sqrt (fun m => m⁻¹)
        ⟨List.replicate 17 ⟨true, 1⟩, List.replicate 17 flatMesh⟩ (downRay : Ray ℝ) []
      = Except.error Fault.invalidComparator := by
  refine ⟨Scenes.castRayLoop_copies, ?_, ?_⟩
  · intro h hh
    obtain ⟨i, _, rfl⟩ := List.mem_map.mp hh
    rfl
  · simp only [RayCaster.castRay, List.length_replicate, ne_eq, not_true_eq_false, if_false,
      Scenes.castRayLoop_copies]
    simp [RayCaster.sortHits, List.range_succ, flatHit]

/-- With lists of equal length, an entry of the zipped registry is active exactly when an
object of the registry is. -/
theorem zip_any_active (objects : List (Object3D K)) (meshes : List (Mesh K))
    (hlen : objects.length = meshes.length) :
    (objects.zip meshes).any (fun e => e.1.active) = true ↔ ∃ o ∈ objects, o.active = true := by
  have hmap : (objects.zip meshes).map Prod.fst = objects :=
    List.map_fst_zip _ _ (le_of_eq hlen)
  constructor
  · intro h
    obtain ⟨⟨o, m⟩, he, ha⟩ := List.any_eq_true.mp h
    exact ⟨o, (List.of_mem_zip he).1, ha⟩
  · rintro ⟨o, ho, ha⟩
    rw [← hmap] at ho
    obtain ⟨e, he, rfl⟩ := List.mem_map.mp ho
    exact List.any_eq_true.mpr ⟨e, he, ha⟩

/-- C2 (amended): whenever `castRay` returns, it returns true if and only if the output
collection is non-empty and at least one registered object is active; hence, when the
collection passed in is empty or some registered object is active, it returns true if and
only if the output collection is non-empty. -/
theorem castRay_verdict (sqrt : K → K) (invert : Matrix4x4 K → Matrix4x4 K) (rc : RayCaster K)
    (ray : Ray K) (hits : List (Hit K)) (b : Bool) (out : List (Hit K))
    (h : RayCaster.castRay sqrt invert rc ray hits = Except.ok (b, out)) :
    (b = true ↔ out ≠ [] ∧ ∃ o ∈ rc.objects, o.active = true) ∧
    ((hits = [] ∨ ∃ o ∈ rc.objects, o.active = true) → (b = true ↔ out ≠ [])) := by
  obtain ⟨hlen1, new, hs, hb, _, rfl⟩ := castRay_ok sqrt invert rc ray hits b out h
  have hne : RayCaster.orderHits (hits ++ new) ≠ [] ↔ (hits ++ new).length > 0 := by
    rw [← List.length_pos, (orderHits_perm (hits ++ new)).length_eq]
  have hmain : b = true ↔
      RayCaster.orderHits (hits ++ new) ≠ [] ∧ ∃ o ∈ rc.objects, o.active = true := by
    rw [← hb, Bool.and_eq_true, zip_any_active _ _ hlen1, hne, decide_eq_true_eq]
    exact and_comm
  refine ⟨hmain, fun hpre => ?_⟩
  rw [hmain]
  refine ⟨fun hx => hx.1, fun hx => ⟨hx, ?_⟩⟩
  rcases hpre with hnil | hact
  · by_contra hno
    have hfalse : (rc.objects.zip rc.meshes).any (fun e => e.1.active) = false := by
      rw [Bool.eq_false_iff]
      exact fun hc => hno ((zip_any_active _ _ hlen1).mp hc)
    rw [sceneHits_inactive sqrt invert ray _ 0 hfalse] at hs
    simp only [Except.ok.injEq] at hs
    subst hs
    subst hnil
    exact hx (by simp [RayCaster.orderHits])
  · exact hact

/-- C2 (amended) at a concrete input: an inactive and an active object, empty collection
on entry. -/
theorem castRay_verdict_witness :
    RayCaster.castRay Real.sqrt (fun m => m⁻¹)
        ⟨[⟨false, 1⟩, ⟨true, 1⟩], [flatMesh, flatMesh]⟩ (downRay : Ray ℝ) []
      = Except.ok (true, [flatHit 1]) ∧
    ((true = true ↔ ([flatHit 1] : List (Hit ℝ)) ≠ [] ∧
        ∃ o ∈ ([⟨false, 1⟩, ⟨true, 1⟩] : List (Object3D ℝ)), o.active = true) ∧
     ((([] : List (Hit ℝ)) = [] ∨
        ∃ o ∈ ([⟨false, 1⟩, ⟨true, 1⟩] : List (Object3D ℝ)), o.active = true) →
      (true = true ↔ ([flatHit 1] : List (Hit ℝ)) ≠ []))) :=
  ⟨Scenes.castRay_inactiveFirst,
    castRay_verdict Real.sqrt (fun m => m⁻¹) _ _ _ _ _ Scenes.castRay_inactiveFirst⟩

/-- C2 as stated fails: on an empty registry and an output collection that already holds a
hit, `castRay` returns false although the output collection is non-empty on return. -/
theorem castRay_verdict_counterexample :
    RayCaster.castRay Real.sqrt (fun m => m⁻¹) ⟨[], []⟩ (downRay : Ray ℝ) [hitAt 1]
      = Except.ok (false, [hitAt 1]) := by
  simp [RayCaster.castRay, RayCaster.castRayLoop, RayCaster.sortHits, RayCaster.orderHits]

/-- C4: with the output collection empty on entry, whenever `castRay` returns, no hit of
the output carries the index of an inactive object as its ID, whatever the mesh, bounding
box and transform of that object. -/
theorem castRay_skips_inactive (sqrt : K → K) (invert : Matrix4x4 K → Matrix4x4 K)
    (rc : RayCaster K) (ray : Ray K) (b : Bool) (out : List (Hit K))
    (h : RayCaster.castRay sqrt invert rc ray [] = Except.ok (b, out)) :
    ∀ hit ∈ out, ∀ (j : Nat) (object : Object3D K),
      rc.objects[j]? = some object → object.active = false → hit.ID ≠ j := by
  intro hit hmem j object hj hinactive hid
  obtain ⟨_, new, hs, _, _, rfl⟩ := castRay_ok sqrt invert rc ray [] b out h
  have hin : hit ∈ new := by
    have := (orderHits_perm ([] ++ new)).mem_iff.mp hmem
    simpa using this
  obtain ⟨j1, o1, m1, _, _, l, hz, hact, _, _, _, he⟩ :=
    sceneHits_mem sqrt invert ray _ 0 new hs hit hin
  have ho1 : rc.objects[j1]? = some o1 := (List.getElem?_zip_eq_some.mp hz).1
  have hidj : hit.ID = j1 := by rw [he]; simp [RayCaster.toWorld]
  rw [hid] at hidj
  subst hidj
  rw [hj] at ho1
  cases ho1
  rw [hact] at hinactive
  exact Bool.noConfusion hinactive

/-- C4 at a concrete input: an inactive copy of `flatMesh` at index 0 that the ray would
hit, and an active copy at index 1. -/
theorem castRay_skips_inactive_witness :
    RayCaster.castRay Real.sqrt (fun m => m⁻¹)
        ⟨[⟨false, 1⟩, ⟨true, 1⟩], [flatMesh, flatMesh]⟩ (downRay : Ray ℝ) []
      = Except.ok (true, [flatHit 1]) ∧
    ∀ hit ∈ ([flatHit 1] : List (Hit ℝ)), ∀ (j : Nat) (object : Object3D ℝ),
      ([⟨false, 1⟩, ⟨true, 1⟩] : List (Object3D ℝ))[j]? = some object →
        object.active = false → hit.ID ≠ j :=
  ⟨Scenes.castRay_inactiveFirst,
    castRay_skips_inactive Real.sqrt (fun m => m⁻¹) _ _ _ _ Scenes.castRay_inactiveFirst⟩

/-- The Euclidean length is non-negative and squares to the squared norm, for a square
root that is one on the non-negative numbers. -/
theorem magnitude_spec (sqrt : K → K)
    (hsqrt : ∀ x, 0 ≤ x → 0 ≤ sqrt x ∧ sqrt x * sqrt x = x) (v : Vector3 K) :
    0 ≤ Vector3.magnitude sqrt v ∧
    Vector3.magnitude sqrt v * Vector3.magnitude sqrt v = Vector3.dot v v := by
  have h0 : 0 ≤ Vector3.dot v v := by
    simp only [Vector3.dot]
    nlinarith [mul_self_nonneg v.x, mul_self_nonneg v.y, mul_self_nonneg v.z]
  exact hsqrt _ h0

/-- C3: every hit that `castRay` appends comes from an active registry entry `i` and a
local-space hit `l` reported by `intersectMesh` for the local ray of that entry; its ID is
`i`, its Origin is the world matrix applied to `l.Origin`, its Normal is the transpose of
the inverse world matrix applied to `l.Normal`, and its Distance is the Euclidean length of
`Origin - ray.Origin` (non-negative, with square the squared norm).  In particular, with
two registered objects of which only the second yields a hit, `castRay` on an empty
collection returns true with exactly that one hit, whose ID is 1. -/
theorem castRay_hit_fields (sqrt : K → K) (invert : Matrix4x4 K → Matrix4x4 K) (ray : Ray K)
    (hsqrt : ∀ x, 0 ≤ x → 0 ≤ sqrt x ∧ sqrt x * sqrt x = x) :
    (∀ (rc : RayCaster K) (hits : List (Hit K)) (b : Bool) (out : List (Hit K)),
      RayCaster.castRay sqrt invert rc ray hits = Except.ok (b, out) →
      ∃ new, List.Perm out (hits ++ new) ∧
        ∀ h ∈ new, ∃ i object mesh bm locals l,
          rc.objects[i]? = some object ∧ rc.meshes[i]? = some mesh ∧ object.active = true ∧
          (RayCaster.localRay invert ray object.worldMatrix).intersectMesh sqrt mesh []
            = Except.ok (bm, locals) ∧
          l ∈ locals ∧
          h.ID = i ∧
          h.Origin = Matrix4x4.transformPoint object.worldMatrix l.Origin ∧
          h.Normal = Matrix4x4.transformVector
            (Matrix4x4.transpose (invert object.worldMatrix)) l.Normal ∧
          h.Distance = Vector3.magnitude sqrt (Vector3.sub h.Origin ray.Origin) ∧
          0 ≤ h.Distance ∧
          h.Distance * h.Distance
            = Vector3.dot (Vector3.sub h.Origin ray.Origin) (Vector3.sub h.Origin ray.Origin)) ∧
    (∀ (o0 o1 : Object3D K) (m0 m1 : Mesh K) (h : Hit K),
      (o0.active = false ∨
        RayCaster.castRayObject sqrt invert ray m0 o0.worldMatrix [] 0 = Except.ok (false, [])) →
      o1.active = true →
      RayCaster.castRayObject sqrt invert ray m1 o1.worldMatrix [] 1 = Except.ok (true, [h]) →
      RayCaster.castRay sqrt invert ⟨[o0, o1], [m0, m1]⟩ ray [] = Except.ok (true, [h]) ∧
        h.ID = 1) := by
  constructor
  · intro rc hits b out h
    obtain ⟨_, new, hs, _, _, rfl⟩ := castRay_ok sqrt invert rc ray hits b out h
    refine ⟨new, orderHits_perm _, fun h hh => ?_⟩
    obtain ⟨j, o, m, bm, locals, l, hz, hact, _, hm, hl, he⟩ :=
      sceneHits_mem sqrt invert ray _ 0 new hs h hh
    have hz1 := List.getElem?_zip_eq_some.mp hz
    have hmag := magnitude_spec sqrt hsqrt
      (Vector3.sub (Matrix4x4.transformPoint o.worldMatrix l.Origin) ray.Origin)
    refine ⟨j, o, m, bm, locals, l, hz1.1, hz1.2, hact, hm, hl, ?_⟩
    subst he
    simp only [RayCaster.toWorld, Nat.zero_add, true_and]
    exact ⟨hmag.1, hmag.2⟩
  · intro o0 o1 m0 m1 h h0 h1 hobj
    have hid : h.ID = 1 := by
      rw [castRayObject_eq] at hobj
      cases ho : RayCaster.objectHits sqrt invert ray m1 o1.worldMatrix 1 with
      | error e => simp [ho] at hobj
      | ok new =>
        simp only [ho, List.nil_append, Except.ok.injEq, Prod.mk.injEq] at hobj
        have hnew := hobj.2
        subst hnew
        unfold RayCaster.objectHits at ho
        split_ifs at ho with hbb
        · cases hmesh : (RayCaster.localRay invert ray o1.worldMatrix).intersectMesh
              sqrt m1 [] with
          | error e => simp [hmesh] at ho
          | ok r =>
            simp only [hmesh, Except.ok.injEq] at ho
            have hm : h ∈ r.2.map (RayCaster.toWorld sqrt ray o1.worldMatrix
                (Matrix4x4.transpose (invert o1.worldMatrix)) 1) := by
              rw [ho]; exact List.mem_singleton_self h
            obtain ⟨l, _, rfl⟩ := List.mem_map.mp hm
            rfl
        · simp at ho
    refine ⟨?_, hid⟩
    simp only [RayCaster.castRay, List.length_cons, List.length_nil, ne_eq, not_true_eq_false,
      if_false, List.zip_cons_cons, List.zip_nil_right, RayCaster.castRayLoop, h1, if_true,
      Nat.zero_add]
    rcases h0 with h0 | h0
    · simp [h0, hobj, RayCaster.sortHits, RayCaster.orderHits]
    · cases ha : o0.active <;> simp [h0, hobj, RayCaster.sortHits, RayCaster.orderHits]

/-- C3 at a concrete input: the far mesh and `flatMesh`, both active with the identity
world matrix; only the second is hit, at distance 5, and the hit carries ID 1. -/
theorem castRay_hit_fields_witness :
    RayCaster.castRay Real.sqrt (fun m => m⁻¹)
        ⟨[⟨true, 1⟩, ⟨true, 1⟩], [farMesh, flatMesh]⟩ (downRay : Ray ℝ) []
      = Except.ok (true, [flatHit 1]) ∧ (flatHit 1 : Hit ℝ).ID = 1 :=
  (castRay_hit_fields Real.sqrt (fun m => m⁻¹) (downRay : Ray ℝ)
      (fun x hx => ⟨Real.sqrt_nonneg x, Real.mul_self_sqrt hx⟩)).2
    ⟨true, 1⟩ ⟨true, 1⟩ farMesh flatMesh (flatHit 1)
    (Or.inr (by rw [castRayObject_eq, Scenes.objectHits_far]; simp))
    rfl
    (by rw [castRayObject_eq, Scenes.objectHits_flat]; simp)

end CastRayClaims

/-! ## Properties of `Ray::intersectTriangle` -/

section TriangleProofs

variable {K : Type} [LinearOrderedField K]

/-- The two-equation solve of `intersectTriangle`, as scalars. -/
theorem weights_solve (a b A B C : K) (hB : B ≠ 0) (hD : A * B - C * C ≠ 0) :
    (-C / B * b + a) / (-C / B * C + A) = (a * B - C * b) / (A * B - C * C) ∧
    (b - (-C / B * b + a) / (-C / B * C + A) * C) / B = (b * A - a * C) / (A * B - C * C) := by
  have h1 : -C / B * C + A ≠ 0 := by
    have : -C / B * C + A = (A * B - C * C) / B := by field_simp; ring
    rw [this]; exact div_ne_zero hD hB
  have e1 : (-C / B * b + a) / (-C / B * C + A) = (a * B - C * b) / (A * B - C * C) := by
    rw [div_eq_div_iff h1 hD]
    field_simp
    ring
  refine ⟨e1, ?_⟩
  rw [e1]
  field_simp
  ring

/-- Lagrange's identity. -/
theorem cross_dot_cross (u v : Vector3 K) :
    Vector3.dot (Vector3.cross u v) (Vector3.cross u v)
      = Vector3.dot u u * Vector3.dot v v - Vector3.dot u v * Vector3.dot u v := by
  simp only [Vector3.dot, Vector3.cross]; ring

/-- A squared norm is non-negative. -/
theorem dot_self_nonneg (v : Vector3 K) : 0 ≤ Vector3.dot v v := by
  simp only [Vector3.dot]
  nlinarith [mul_self_nonneg v.x, mul_self_nonneg v.y, mul_self_nonneg v.z]

/-- A non-zero vector has a positive squared norm. -/
theorem dot_self_pos (v : Vector3 K) (hv : v ≠ ⟨0, 0, 0⟩) : 0 < Vector3.dot v v := by
  rcases (dot_self_nonneg v).lt_or_eq with h | h
  · exact h
  · exfalso; apply hv
    simp only [Vector3.dot] at h
    have hx : v.x = 0 := by nlinarith [mul_self_nonneg v.x, mul_self_nonneg v.y, mul_self_nonneg v.z]
    have hy : v.y = 0 := by nlinarith [mul_self_nonneg v.x, mul_self_nonneg v.y, mul_self_nonneg v.z]
    have hz : v.z = 0 := by nlinarith [mul_self_nonneg v.x, mul_self_nonneg v.y, mul_self_nonneg v.z]
    ext <;> assumption

/-- For a non-degenerate triangle the two denominators of the weight computation are
non-zero. -/
theorem nondegenerate_dens (p0 p1 p2 : Point3 K)
    (hnd : Vector3.cross (Vector3.sub p2 p0) (Vector3.sub p1 p0) ≠ ⟨0, 0, 0⟩) :
    Vector3.dot (Vector3.sub p1 p0) (Vector3.sub p1 p0) ≠ 0 ∧
    Vector3.dot (Vector3.sub p2 p0) (Vector3.sub p2 p0)
        * Vector3.dot (Vector3.sub p1 p0) (Vector3.sub p1 p0)
      - Vector3.dot (Vector3.sub p2 p0) (Vector3.sub p1 p0)
        * Vector3.dot (Vector3.sub p2 p0) (Vector3.sub p1 p0) ≠ 0 := by
  have hpos := dot_self_pos _ hnd
  rw [cross_dot_cross] at hpos
  refine ⟨fun h0 => ?_, ne_of_gt hpos⟩
  rw [h0] at hpos
  nlinarith [mul_self_nonneg (Vector3.dot (Vector3.sub p2 p0) (Vector3.sub p1 p0))]

/-- The weights computed by the code, in closed form (Cramer's rule). -/
theorem triangleWeights_eq (p0 p1 p2 x : Point3 K)
    (hnd : Vector3.cross (Vector3.sub p2 p0) (Vector3.sub p1 p0) ≠ ⟨0, 0, 0⟩) :
    (Ray.triangleWeights p0 p1 p2 x).2.1 =
      (Vector3.dot (Vector3.sub x p0) (Vector3.sub p2 p0)
          * Vector3.dot (Vector3.sub p1 p0) (Vector3.sub p1 p0)
        - Vector3.dot (Vector3.sub p2 p0) (Vector3.sub p1 p0)
          * Vector3.dot (Vector3.sub x p0) (Vector3.sub p1 p0))
      / Vector3.dot (Vector3.cross (Vector3.sub p2 p0) (Vector3.sub p1 p0))
          (Vector3.cross (Vector3.sub p2 p0) (Vector3.sub p1 p0)) ∧
    (Ray.triangleWeights p0 p1 p2 x).2.2 =
      (Vector3.dot (Vector3.sub x p0) (Vector3.sub p1 p0)
          * Vector3.dot (Vector3.sub p2 p0) (Vector3.sub p2 p0)
        - Vector3.dot (Vector3.sub x p0) (Vector3.sub p2 p0)
          * Vector3.dot (Vector3.sub p2 p0) (Vector3.sub p1 p0))
      / Vector3.dot (Vector3.cross (Vector3.sub p2 p0) (Vector3.sub p1 p0))
          (Vector3.cross (Vector3.sub p2 p0) (Vector3.sub p1 p0)) ∧
    (Ray.triangleWeights p0 p1 p2 x).1 =
      1 - (Ray.triangleWeights p0 p1 p2 x).2.2 - (Ray.triangleWeights p0 p1 p2 x).2.1 := by
  obtain ⟨hB, hD⟩ := nondegenerate_dens p0 p1 p2 hnd
  have hs := weights_solve (Vector3.dot (Vector3.sub x p0) (Vector3.sub p2 p0))
    (Vector3.dot (Vector3.sub x p0) (Vector3.sub p1 p0))
    (Vector3.dot (Vector3.sub p2 p0) (Vector3.sub p2 p0))
    (Vector3.dot (Vector3.sub p1 p0) (Vector3.sub p1 p0))
    (Vector3.dot (Vector3.sub p2 p0) (Vector3.sub p1 p0)) hB hD
  rw [cross_dot_cross]
  exact ⟨hs.1, hs.2, rfl⟩

/-- A point of the plane of the triangle is the combination of the vertices with the weights
the code computes for it. -/
theorem triangleWeights_combination (p0 p1 p2 x : Point3 K)
    (hnd : Vector3.cross (Vector3.sub p2 p0) (Vector3.sub p1 p0) ≠ ⟨0, 0, 0⟩)
    (hplane : Vector3.dot (Vector3.cross (Vector3.sub p2 p0) (Vector3.sub p1 p0))
      (Vector3.sub x p0) = 0) :
    x = Vector3.add (Vector3.add (Vector3.scale p0 (Ray.triangleWeights p0 p1 p2 x).1)
          (Vector3.scale p1 (Ray.triangleWeights p0 p1 p2 x).2.2))
        (Vector3.scale p2 (Ray.triangleWeights p0 p1 p2 x).2.1) := by
  obtain ⟨h1, h2, h0⟩ := triangleWeights_eq p0 p1 p2 x hnd
  have hpos := dot_self_pos _ hnd
  have hne := ne_of_gt hpos
  generalize (Ray.triangleWeights p0 p1 p2 x).1 = w0 at *
  generalize (Ray.triangleWeights p0 p1 p2 x).2.1 = w1 at *
  generalize (Ray.triangleWeights p0 p1 p2 x).2.2 = w2 at *
  rw [eq_div_iff hne] at h1 h2
  subst h0
  obtain ⟨x0, y0, z0⟩ := p0
  obtain ⟨x1, y1, z1⟩ := p1
  obtain ⟨x2, y2, z2⟩ := p2
  obtain ⟨xx, xy, xz⟩ := x
  simp only [Vector3.dot, Vector3.cross, Vector3.sub, Vector3.add, Vector3.scale] at *
  ext
  · simp only
    apply mul_left_cancel₀ hne
    linear_combination ((y2 - y0) * (z1 - z0) - (z2 - z0) * (y1 - y0)) * hplane
      - (x2 - x0) * h1 - (x1 - x0) * h2
  · simp only
    apply mul_left_cancel₀ hne
    linear_combination ((z2 - z0) * (x1 - x0) - (x2 - x0) * (z1 - z0)) * hplane
      - (y2 - y0) * h1 - (y1 - y0) * h2
  · simp only
    apply mul_left_cancel₀ hne
    linear_combination ((x2 - x0) * (y1 - y0) - (y2 - y0) * (x1 - x0)) * hplane
      - (z2 - z0) * h1 - (z1 - z0) * h2

/-- The code recovers the weights of a combination whose weights sum to one. -/
theorem triangleWeights_unique (p0 p1 p2 : Point3 K) (w0 w1 w2 : K)
    (hnd : Vector3.cross (Vector3.sub p2 p0) (Vector3.sub p1 p0) ≠ ⟨0, 0, 0⟩)
    (hsum : w0 + w1 + w2 = 1) :
    Ray.triangleWeights p0 p1 p2
      (Vector3.add (Vector3.add (Vector3.scale p0 w0) (Vector3.scale p1 w2))
        (Vector3.scale p2 w1)) = (w0, w1, w2) := by
  obtain ⟨h1, h2, h0⟩ := triangleWeights_eq p0 p1 p2
    (Vector3.add (Vector3.add (Vector3.scale p0 w0) (Vector3.scale p1 w2))
        (Vector3.scale p2 w1)) hnd
  have hpos := dot_self_pos _ hnd
  have hne := ne_of_gt hpos
  have e1 : (Ray.triangleWeights p0 p1 p2
      (Vector3.add (Vector3.add (Vector3.scale p0 w0) (Vector3.scale p1 w2))
        (Vector3.scale p2 w1))).2.1 = w1 := by
    rw [h1, div_eq_iff hne]
    have hw0 : w0 = 1 - w1 - w2 := by linear_combination hsum
    subst hw0
    simp only [Vector3.dot, Vector3.cross, Vector3.sub, Vector3.add, Vector3.scale]
    ring
  have e2 : (Ray.triangleWeights p0 p1 p2
      (Vector3.add (Vector3.add (Vector3.scale p0 w0) (Vector3.scale p1 w2))
        (Vector3.scale p2 w1))).2.2 = w2 := by
    rw [h2, div_eq_iff hne]
    have hw0 : w0 = 1 - w1 - w2 := by linear_combination hsum
    subst hw0
    simp only [Vector3.dot, Vector3.cross, Vector3.sub, Vector3.add, Vector3.scale]
    ring
  have e0 : (Ray.triangleWeights p0 p1 p2
      (Vector3.add (Vector3.add (Vector3.scale p0 w0) (Vector3.scale p1 w2))
        (Vector3.scale p2 w1))).1 = w0 := by
    rw [h0, e1, e2]; linear_combination -hsum
  exact Prod.ext e0 (Prod.ext e1 e2)

/-- The dot product with a normalized vector. -/
theorem dot_normalize (sqrt : K → K) (c v : Vector3 K) :
    Vector3.dot (Vector3.normalize sqrt c) v = Vector3.dot c v / Vector3.magnitude sqrt c := by
  simp only [Vector3.dot, Vector3.normalize]
  ring

/-- The dot product is symmetric. -/
theorem dot_comm (u v : Vector3 K) : Vector3.dot u v = Vector3.dot v u := by
  simp only [Vector3.dot]; ring

/-- The plane point computed by intersectPlane lies on the plane. -/
theorem pointAt_plane (ray : Ray K) (n p0 : Vector3 K) (hn : Vector3.dot n ray.Direction ≠ 0) :
    Vector3.dot n (Vector3.sub
      (ray.pointAt (Vector3.dot n (Vector3.sub p0 ray.Origin) / Vector3.dot n ray.Direction))
      p0) = 0 := by
  simp only [Vector3.dot, Ray.pointAt, Vector3.add, Vector3.scale, Vector3.sub] at hn ⊢
  field_simp
  ring

/-- A point of the line that lies on the plane has the plane parameter. -/
theorem pointAt_param (ray : Ray K) (n p0 : Vector3 K) (t : K)
    (hn : Vector3.dot n ray.Direction ≠ 0)
    (h : Vector3.dot n (Vector3.sub (ray.pointAt t) p0) = 0) :
    t = Vector3.dot n (Vector3.sub p0 ray.Origin) / Vector3.dot n ray.Direction := by
  rw [eq_div_iff hn]
  simp only [Vector3.dot, Ray.pointAt, Vector3.add, Vector3.scale, Vector3.sub] at h ⊢
  linear_combination h

/-- Closed form of `intersectTriangle` without a precomputed normal. -/
theorem intersectTriangle_none (sqrt : K → K) (ray : Ray K) (p0 p1 p2 : Point3 K) (hit : Hit K) :
    ray.intersectTriangle sqrt p0 p1 p2 hit none =
      if Vector3.dot (Ray.triangleNormal sqrt p0 p1 p2) ray.Direction < 0 ∧
          0 ≤ (Ray.triangleWeights p0 p1 p2 (ray.pointAt
            (Vector3.dot (Ray.triangleNormal sqrt p0 p1 p2) (Vector3.sub p0 ray.Origin)
              / Vector3.dot (Ray.triangleNormal sqrt p0 p1 p2) ray.Direction))).1 ∧
          0 ≤ (Ray.triangleWeights p0 p1 p2 (ray.pointAt
            (Vector3.dot (Ray.triangleNormal sqrt p0 p1 p2) (Vector3.sub p0 ray.Origin)
              / Vector3.dot (Ray.triangleNormal sqrt p0 p1 p2) ray.Direction))).2.1 ∧
          0 ≤ (Ray.triangleWeights p0 p1 p2 (ray.pointAt
            (Vector3.dot (Ray.triangleNormal sqrt p0 p1 p2) (Vector3.sub p0 ray.Origin)
              / Vector3.dot (Ray.triangleNormal sqrt p0 p1 p2) ray.Direction))).2.2 ∧
          (Ray.triangleWeights p0 p1 p2 (ray.pointAt
            (Vector3.dot (Ray.triangleNormal sqrt p0 p1 p2) (Vector3.sub p0 ray.Origin)
              / Vector3.dot (Ray.triangleNormal sqrt p0 p1 p2) ray.Direction))).1 ≤ 1 ∧
          (Ray.triangleWeights p0 p1 p2 (ray.pointAt
            (Vector3.dot (Ray.triangleNormal sqrt p0 p1 p2) (Vector3.sub p0 ray.Origin)
              / Vector3.dot (Ray.triangleNormal sqrt p0 p1 p2) ray.Direction))).2.1 ≤ 1 ∧
          (Ray.triangleWeights p0 p1 p2 (ray.pointAt
            (Vector3.dot (Ray.triangleNormal sqrt p0 p1 p2) (Vector3.sub p0 ray.Origin)
              / Vector3.dot (Ray.triangleNormal sqrt p0 p1 p2) ray.Direction))).2.2 ≤ 1
      then (true, { hit with
        Origin := ray.pointAt
          (Vector3.dot (Ray.triangleNormal sqrt p0 p1 p2) (Vector3.sub p0 ray.Origin)
            / Vector3.dot (Ray.triangleNormal sqrt p0 p1 p2) ray.Direction),
        Normal := Ray.triangleNormal sqrt p0 p1 p2 })
      else (false, hit) := by
  have hn : (Vector3.normalize sqrt (Vector3.cross (Vector3.sub p2 p0) (Vector3.sub p1 p0)))
      = Ray.triangleNormal sqrt p0 p1 p2 := rfl
  unfold Ray.intersectTriangle
  simp only [hn]
  generalize Ray.triangleNormal sqrt p0 p1 p2 = n
  by_cases hd : Vector3.dot n ray.Direction < 0
  · have hd1 : ¬ (Vector3.dot n ray.Direction ≥ 0) := not_le.mpr hd
    have hdot : Vector4.dot ⟨n.x, n.y, n.z, -Vector3.dot p0 n⟩
        (⟨ray.Direction.x, ray.Direction.y, ray.Direction.z, 0⟩ : Vector4 K)
        = Vector3.dot n ray.Direction := by
      simp only [Vector4.dot, Vector3.dot]; ring
    have hplane : ray.intersectPlane ⟨n.x, n.y, n.z, -Vector3.dot p0 n⟩ Hit.fresh =
        (true, { (Hit.fresh : Hit K) with
          Origin := ray.pointAt (Vector3.dot n (Vector3.sub p0 ray.Origin)
            / Vector3.dot n ray.Direction),
          Normal := ⟨n.x, n.y, n.z⟩ }) := by
      have ht : -(Vector4.dot ⟨n.x, n.y, n.z, -Vector3.dot p0 n⟩
            (⟨ray.Origin.x, ray.Origin.y, ray.Origin.z, 1⟩ : Vector4 K)
          / Vector3.dot n ray.Direction)
          = Vector3.dot n (Vector3.sub p0 ray.Origin) / Vector3.dot n ray.Direction := by
        simp only [Vector4.dot, Vector3.dot, Vector3.sub]
        ring
      unfold Ray.intersectPlane
      simp only [hdot, if_neg (ne_of_lt hd), Ray.pointAt, ht]
    simp only [if_neg hd1, hplane, Bool.not_true, Bool.false_eq_true, if_false, hd, true_and]
    split_ifs with h1 h2 h2
    · exfalso
      obtain ⟨a1, a2, a3, a4, a5, a6⟩ := h2
      rcases h1 with h | h | h | h | h | h <;> linarith
    · rfl
    · rfl
    · exfalso
      apply h2
      simp only [not_or, not_lt] at h1
      exact ⟨h1.1, h1.2.1, h1.2.2.1, h1.2.2.2.1, h1.2.2.2.2.1, h1.2.2.2.2.2⟩
  · have hd1 : Vector3.dot n ray.Direction ≥ 0 := not_lt.mp hd
    simp only [if_pos hd1, hd, false_and, if_false]

/-- A combination of the vertices with weights summing to one lies in the plane of the
triangle. -/
theorem combination_plane (p0 p1 p2 : Point3 K) (w0 w1 w2 : K) (hsum : w0 + w1 + w2 = 1) :
    Vector3.dot (Vector3.cross (Vector3.sub p2 p0) (Vector3.sub p1 p0))
      (Vector3.sub (Ray.combination p0 p1 p2 w0 w1 w2) p0) = 0 := by
  have hw0 : w0 = 1 - w1 - w2 := by linear_combination hsum
  subst hw0
  simp only [Vector3.dot, Vector3.cross, Vector3.sub, Ray.combination, Vector3.add,
    Vector3.scale]
  ring

/-- C5: for a non-degenerate triangle and no precomputed normal, over exact arithmetic with
a true square root, `intersectTriangle` returns true if and only if `dot(n, Direction) < 0`
for `n = normalize(cross(p2 - p0, p1 - p0))` and a point of the ray's line can be written
`w0*p0 + w2*p1 + w1*p2` with `w0 + w1 + w2 = 1` and every weight in `[0,1]` (such a point
is the point where the line meets the plane of the triangle); on true, `hit.Origin` is that
point `X`: it lies on the line and on the plane, it equals `w0*p0 + w2*p1 + w1*p2` for the
weights the code computes, which sum to 1 and lie in `[0,1]`, and `hit.Normal = n`. -/
theorem intersectTriangle_spec (sqrt : K → K)
    (hsqrt : ∀ x, 0 ≤ x → 0 ≤ sqrt x ∧ sqrt x * sqrt x = x)
    (ray : Ray K) (p0 p1 p2 : Point3 K) (hit : Hit K)
    (hnd : Vector3.cross (Vector3.sub p2 p0) (Vector3.sub p1 p0) ≠ ⟨0, 0, 0⟩) :
    ((ray.intersectTriangle sqrt p0 p1 p2 hit none).1 = true ↔
      Vector3.dot (Ray.triangleNormal sqrt p0 p1 p2) ray.Direction < 0 ∧
      ∃ t w0 w1 w2, w0 + w1 + w2 = 1 ∧ 0 ≤ w0 ∧ w0 ≤ 1 ∧ 0 ≤ w1 ∧ w1 ≤ 1 ∧ 0 ≤ w2 ∧ w2 ≤ 1 ∧
        ray.pointAt t = Ray.combination p0 p1 p2 w0 w1 w2) ∧
    ((ray.intersectTriangle sqrt p0 p1 p2 hit none).1 = true →
      (∃ t, (ray.intersectTriangle sqrt p0 p1 p2 hit none).2.Origin = ray.pointAt t) ∧
      Vector3.dot (Ray.triangleNormal sqrt p0 p1 p2)
        (Vector3.sub (ray.intersectTriangle sqrt p0 p1 p2 hit none).2.Origin p0) = 0 ∧
      (ray.intersectTriangle sqrt p0 p1 p2 hit none).2.Origin =
        Ray.combination p0 p1 p2
          (Ray.triangleWeights p0 p1 p2
            (ray.intersectTriangle sqrt p0 p1 p2 hit none).2.Origin).1
          (Ray.triangleWeights p0 p1 p2
            (ray.intersectTriangle sqrt p0 p1 p2 hit none).2.Origin).2.1
          (Ray.triangleWeights p0 p1 p2
            (ray.intersectTriangle sqrt p0 p1 p2 hit none).2.Origin).2.2 ∧
      (Ray.triangleWeights p0 p1 p2
          (ray.intersectTriangle sqrt p0 p1 p2 hit none).2.Origin).1
        + (Ray.triangleWeights p0 p1 p2
          (ray.intersectTriangle sqrt p0 p1 p2 hit none).2.Origin).2.1
        + (Ray.triangleWeights p0 p1 p2
          (ray.intersectTriangle sqrt p0 p1 p2 hit none).2.Origin).2.2 = 1 ∧
      (0 ≤ (Ray.triangleWeights p0 p1 p2
          (ray.intersectTriangle sqrt p0 p1 p2 hit none).2.Origin).1 ∧
        (Ray.triangleWeights p0 p1 p2
          (ray.intersectTriangle sqrt p0 p1 p2 hit none).2.Origin).1 ≤ 1 ∧
        0 ≤ (Ray.triangleWeights p0 p1 p2
          (ray.intersectTriangle sqrt p0 p1 p2 hit none).2.Origin).2.1 ∧
        (Ray.triangleWeights p0 p1 p2
          (ray.intersectTriangle sqrt p0 p1 p2 hit none).2.Origin).2.1 ≤ 1 ∧
        0 ≤ (Ray.triangleWeights p0 p1 p2
          (ray.intersectTriangle sqrt p0 p1 p2 hit none).2.Origin).2.2 ∧
        (Ray.triangleWeights p0 p1 p2
          (ray.intersectTriangle sqrt p0 p1 p2 hit none).2.Origin).2.2 ≤ 1) ∧
      (ray.intersectTriangle sqrt p0 p1 p2 hit none).2.Normal
        = Ray.triangleNormal sqrt p0 p1 p2) := by
  -- the normal is the cross product divided by its positive length
  have hcc := dot_self_pos _ hnd
  have hm := hsqrt _ (le_of_lt hcc)
  have hmne : Vector3.magnitude sqrt
      (Vector3.cross (Vector3.sub p2 p0) (Vector3.sub p1 p0)) ≠ 0 := by
    intro h0
    unfold Vector3.magnitude at h0
    rw [h0] at hm
    have := hm.2
    simp only [mul_zero] at this
    exact (ne_of_gt hcc) this.symm
  have hnv : ∀ v, Vector3.dot (Ray.triangleNormal sqrt p0 p1 p2) v
      = Vector3.dot (Vector3.cross (Vector3.sub p2 p0) (Vector3.sub p1 p0)) v
        / Vector3.magnitude sqrt (Vector3.cross (Vector3.sub p2 p0) (Vector3.sub p1 p0)) :=
    fun v => dot_normalize sqrt _ v
  have hzero : ∀ v, Vector3.dot (Ray.triangleNormal sqrt p0 p1 p2) v = 0 ↔
      Vector3.dot (Vector3.cross (Vector3.sub p2 p0) (Vector3.sub p1 p0)) v = 0 := by
    intro v
    rw [hnv, div_eq_zero_iff]
    exact ⟨fun h => h.resolve_right hmne, Or.inl⟩
  rw [intersectTriangle_none]
  constructor
  · constructor
    · intro htrue
      split_ifs at htrue with hcond
      · obtain ⟨hd, a0, a1, a2, b0, b1, b2⟩ := hcond
        have hpl := (hzero _).mp (pointAt_plane ray (Ray.triangleNormal sqrt p0 p1 p2) p0
          (ne_of_lt hd))
        have hcomb := triangleWeights_combination p0 p1 p2 _ hnd hpl
        have hw := (triangleWeights_eq p0 p1 p2
          (ray.pointAt (Vector3.dot (Ray.triangleNormal sqrt p0 p1 p2)
              (Vector3.sub p0 ray.Origin)
            / Vector3.dot (Ray.triangleNormal sqrt p0 p1 p2) ray.Direction)) hnd).2.2
        exact ⟨hd, _, _, _, _, by rw [hw]; ring, a0, b0, a1, b1, a2, b2, hcomb⟩
    · rintro ⟨hd, t, w0, w1, w2, hsum, a0, b0, a1, b1, a2, b2, heq⟩
      have hpl : Vector3.dot (Ray.triangleNormal sqrt p0 p1 p2)
          (Vector3.sub (ray.pointAt t) p0) = 0 := by
        rw [hzero, heq]
        exact combination_plane p0 p1 p2 w0 w1 w2 hsum
      have ht := pointAt_param ray _ p0 t (ne_of_lt hd) hpl
      have hw : Ray.triangleWeights p0 p1 p2 (ray.pointAt t) = (w0, w1, w2) := by
        rw [heq]
        exact triangleWeights_unique p0 p1 p2 w0 w1 w2 hnd hsum
      rw [← ht, hw]
      rw [if_pos ⟨hd, a0, a1, a2, b0, b1, b2⟩]
  · intro htrue
    split_ifs at htrue with hcond
    · obtain ⟨hd, a0, a1, a2, b0, b1, b2⟩ := hcond
      have hpl0 := pointAt_plane ray (Ray.triangleNormal sqrt p0 p1 p2) p0 (ne_of_lt hd)
      have hpl := (hzero _).mp hpl0
      have hcomb := triangleWeights_combination p0 p1 p2 _ hnd hpl
      have hw := (triangleWeights_eq p0 p1 p2
        (ray.pointAt (Vector3.dot (Ray.triangleNormal sqrt p0 p1 p2)
            (Vector3.sub p0 ray.Origin)
          / Vector3.dot (Ray.triangleNormal sqrt p0 p1 p2) ray.Direction)) hnd).2.2
      rw [if_pos ⟨hd, a0, a1, a2, b0, b1, b2⟩]
      refine ⟨⟨_, rfl⟩, hpl0, hcomb, ?_, ⟨a0, b0, a1, b1, a2, b2⟩, rfl⟩
      simp only
      rw [hw]; ring

/-- C5 at a concrete input: the down ray and the triangle `(0,0,0), (0,1,0), (1,0,0)`; the
line meets the triangle at `t = 5` with weights `3/5, 1/5, 1/5`, so the call returns
true. -/
theorem intersectTriangle_spec_witness :
    Vector3.cross (Vector3.sub (⟨1, 0, 0⟩ : Point3 ℝ) ⟨0, 0, 0⟩)
      (Vector3.sub ⟨0, 1, 0⟩ ⟨0, 0, 0⟩) ≠ ⟨0, 0, 0⟩ ∧
    ((Scenes.downRay : Ray ℝ).intersectTriangle Real.sqrt ⟨0, 0, 0⟩ ⟨0, 1, 0⟩ ⟨1, 0, 0⟩
      Hit.fresh none).1 = true :=
  have hnd : Vector3.cross (Vector3.sub (⟨1, 0, 0⟩ : Point3 ℝ) ⟨0, 0, 0⟩)
      (Vector3.sub ⟨0, 1, 0⟩ ⟨0, 0, 0⟩) ≠ ⟨0, 0, 0⟩ := by
    simp [Vector3.cross, Vector3.sub]
  ⟨hnd, (intersectTriangle_spec Real.sqrt
      (fun x hx => ⟨Real.sqrt_nonneg x, Real.mul_self_sqrt hx⟩)
      Scenes.downRay ⟨0, 0, 0⟩ ⟨0, 1, 0⟩ ⟨1, 0, 0⟩ Hit.fresh hnd).1.mpr
    ⟨by simp [Ray.triangleNormal, Vector3.normalize, Vector3.magnitude, Vector3.cross,
          Vector3.sub, Vector3.dot, Scenes.downRay],
      5, 3 / 5, 1 / 5, 1 / 5, by norm_num, by norm_num, by norm_num, by norm_num, by norm_num,
      by norm_num, by norm_num, by
        simp [Ray.pointAt, Ray.combination, Vector3.add, Vector3.scale, Scenes.downRay]⟩⟩

/-- C6 as stated fails: for the triangle `(0,0,0), (1,0,0), (0,1,0)` and the ray from
`(0.2, 0.2, 1)` along `(0,0,-1)` the cross-product normal is `(0,0,-1)`, its dot product
with the direction is `1 ≥ 0`, and `intersectTriangle` returns false. -/
theorem intersectTriangle_scenario_counterexample :
    ((⟨⟨1 / 5, 1 / 5, 1⟩, ⟨0, 0, -1⟩⟩ : Ray ℝ).intersectTriangle Real.sqrt
      ⟨0, 0, 0⟩ ⟨1, 0, 0⟩ ⟨0, 1, 0⟩ Hit.fresh none).1 = false := by
  simp [Ray.intersectTriangle, Vector3.sub, Vector3.cross, Vector3.normalize,
    Vector3.magnitude, Vector3.dot]

/-- C6 (amended): for the triangle `(0,0,0), (1,0,0), (0,1,0)`, the ray from `(0.2, 0.2, 1)`
along `(0,0,-1)` is rejected by the back-face rule and the hit is left unchanged; the ray
from `(0.2, 0.2, -1)` along `(0,0,1)`, which approaches the face the cross-product normal
`(0,0,-1)` points out of, returns true with hit position `(0.2, 0.2, 0)`. -/
theorem intersectTriangle_scenario (hit : Hit ℝ) :
    (⟨⟨1 / 5, 1 / 5, 1⟩, ⟨0, 0, -1⟩⟩ : Ray ℝ).intersectTriangle Real.sqrt
        ⟨0, 0, 0⟩ ⟨1, 0, 0⟩ ⟨0, 1, 0⟩ hit none = (false, hit) ∧
    (⟨⟨1 / 5, 1 / 5, -1⟩, ⟨0, 0, 1⟩⟩ : Ray ℝ).intersectTriangle Real.sqrt
        ⟨0, 0, 0⟩ ⟨1, 0, 0⟩ ⟨0, 1, 0⟩ hit none
      = (true, { hit with Origin := ⟨1 / 5, 1 / 5, 0⟩, Normal := ⟨0, 0, -1⟩ }) := by
  constructor
  · simp [Ray.intersectTriangle, Vector3.sub, Vector3.cross, Vector3.normalize,
      Vector3.magnitude, Vector3.dot]
  · simp [Ray.intersectTriangle, Vector3.sub, Vector3.cross, Vector3.normalize,
      Vector3.magnitude, Vector3.dot, Ray.intersectPlane, Vector4.dot, Ray.triangleWeights,
      Vector3.add, Vector3.scale, Hit.fresh]
    norm_num

end TriangleProofs

/-! ## Properties of `Ray::intersectBox` -/

section BoxProofs

variable {K : Type} [LinearOrderedField K]

/-- The tolerance is positive. -/
theorem epsilon_pos : (0 : K) < Ray.epsilon := by
  unfold Ray.epsilon; positivity

/-- The selector at axis 0. -/
theorem sel_zero {α : Type} (a b c : α) : Ray.sel 0 a b c = a := rfl
/-- The selector at axis 1. -/
theorem sel_one {α : Type} (a b c : α) : Ray.sel 1 a b c = b := rfl
/-- The selector at axis 2. -/
theorem sel_two {α : Type} (a b c : α) : Ray.sel 2 a b c = c := rfl

/-- The line reaches the extreme at the crossing parameter. -/
theorem line_at_extreme (o d e : K) (hd : d ≠ 0) : o + d * ((e - o) / d) = e := by
  field_simp

/-- The interpolation of the code is the coordinate of the line at the crossing
parameter. -/
theorem line_at_other (oa da o d e : K) : da / d * (e - o) + oa = oa + da * ((e - o) / d) := by
  ring

/-- An axis the ray faces and whose candidate point lies within the tolerance of the box is
accepted: the iteration returns with the candidate and the axis normal. -/
theorem intersectBoxAxis_some (ray : Ray K) (box : Box3 K) (hit : Hit K) (i : Nat) (hi : i < 3)
    (hfront : ray.axisFront box i) (hnear : box.nearly (ray.pointAt (ray.axisParam box i))) :
    ray.intersectBoxAxis box hit i =
      some { hit with Origin := ray.pointAt (ray.axisParam box i),
                      Normal := ray.axisNormal i } := by
  interval_cases i <;>
  · simp only [Ray.axisFront, Vector3.comp, sel_zero, sel_one, sel_two] at hfront
    simp only [Box3.nearly, Ray.pointAt, Ray.axisParam, Ray.axisExtreme, Vector3.comp,
      sel_zero, sel_one, sel_two, Vector3.add, Vector3.scale] at hnear
    rcases hfront with ⟨hd, ho⟩ | ⟨hd, ho⟩
    · have hto := sub_pos.mpr ho
      simp only [if_pos hd] at hnear
      rw [line_at_extreme _ _ _ (ne_of_gt hd)] at hnear
      simp only [Ray.intersectBoxAxis, sel_zero, sel_one, sel_two, gt_iff_lt, if_pos hd,
        if_pos hto, ge_iff_le, if_true, line_at_other, if_pos hnear,
        Ray.pointAt, Ray.axisParam, Ray.axisExtreme, Ray.axisNormal, Vector3.comp,
        Vector3.add, Vector3.scale, Vector3.axis, line_at_extreme _ _ _ (ne_of_gt hd)]
    · have hto := sub_neg.mpr ho
      have hd1 := not_lt.mpr (le_of_lt hd)
      simp only [if_neg hd1] at hnear
      rw [line_at_extreme _ _ _ (ne_of_lt hd)] at hnear
      simp only [Ray.intersectBoxAxis, sel_zero, sel_one, sel_two, gt_iff_lt, if_neg hd1,
        if_pos hd, if_pos hto, ge_iff_le, if_true, line_at_other, if_pos hnear,
        Ray.pointAt, Ray.axisParam, Ray.axisExtreme, Ray.axisNormal, Vector3.comp,
        Vector3.add, Vector3.scale, Vector3.axis, line_at_extreme _ _ _ (ne_of_lt hd)]

/-- Every other axis is rejected: the iteration falls through. -/
theorem intersectBoxAxis_none (ray : Ray K) (box : Box3 K) (hit : Hit K) (i : Nat) (hi : i < 3)
    (h : ¬ (ray.axisFront box i ∧ box.nearly (ray.pointAt (ray.axisParam box i)))) :
    ray.intersectBoxAxis box hit i = none := by
  by_cases hfront : ray.axisFront box i
  · have hnear : ¬ box.nearly (ray.pointAt (ray.axisParam box i)) := fun hn => h ⟨hfront, hn⟩
    interval_cases i <;>
    · simp only [Ray.axisFront, Vector3.comp, sel_zero, sel_one, sel_two] at hfront
      simp only [Box3.nearly, Ray.pointAt, Ray.axisParam, Ray.axisExtreme, Vector3.comp,
        sel_zero, sel_one, sel_two, Vector3.add, Vector3.scale] at hnear
      rcases hfront with ⟨hd, ho⟩ | ⟨hd, ho⟩
      · have hto := sub_pos.mpr ho
        simp only [if_pos hd] at hnear
        rw [line_at_extreme _ _ _ (ne_of_gt hd)] at hnear
        simp only [Ray.intersectBoxAxis, sel_zero, sel_one, sel_two, gt_iff_lt, if_pos hd,
          if_pos hto, ge_iff_le, if_true, line_at_other, if_neg hnear]
      · have hto := sub_neg.mpr ho
        have hd1 := not_lt.mpr (le_of_lt hd)
        simp only [if_neg hd1] at hnear
        rw [line_at_extreme _ _ _ (ne_of_lt hd)] at hnear
        simp only [Ray.intersectBoxAxis, sel_zero, sel_one, sel_two, gt_iff_lt, if_neg hd1,
          if_pos hd, if_pos hto, ge_iff_le, if_true, line_at_other, if_neg hnear]
  · simp only [Ray.axisFront, not_or, not_and, not_lt] at hfront
    rcases lt_trichotomy (ray.Direction.comp i) 0 with hd | hd | hd
    · have hd1 := not_lt.mpr (le_of_lt hd)
      have hto := not_lt.mpr (sub_nonneg.mpr (hfront.2 hd))
      interval_cases i <;>
      · simp only [Vector3.comp, sel_zero, sel_one, sel_two] at hd hd1 hto
        simp only [Ray.intersectBoxAxis, sel_zero, sel_one, sel_two, gt_iff_lt, if_neg hd1,
          if_pos hd, if_neg hto, Bool.false_eq_true, if_false]
    · have hd1 : ¬ (0 < ray.Direction.comp i) := by rw [hd]; exact lt_irrefl 0
      have hd2 : ¬ (ray.Direction.comp i < 0) := by rw [hd]; exact lt_irrefl 0
      interval_cases i <;>
      · simp only [Vector3.comp, sel_zero, sel_one, sel_two] at hd1 hd2
        simp only [Ray.intersectBoxAxis, sel_zero, sel_one, sel_two, gt_iff_lt, if_neg hd1,
          if_neg hd2, Bool.false_eq_true, if_false]
    · have hto := not_lt.mpr (sub_nonpos.mpr (hfront.1 hd))
      interval_cases i <;>
      · simp only [Vector3.comp, sel_zero, sel_one, sel_two] at hd hto
        simp only [Ray.intersectBoxAxis, sel_zero, sel_one, sel_two, gt_iff_lt, if_pos hd,
          if_neg hto, Bool.false_eq_true, if_false]

/-- An accepted axis is one the ray faces, its candidate point lies within the tolerance of
the box, and the hit is set to the candidate and the axis normal. -/
theorem intersectBoxAxis_of_some (ray : Ray K) (box : Box3 K) (hit h : Hit K) (i : Nat)
    (hi : i < 3) (heq : ray.intersectBoxAxis box hit i = some h) :
    ray.axisFront box i ∧ box.nearly (ray.pointAt (ray.axisParam box i)) ∧
    h = { hit with Origin := ray.pointAt (ray.axisParam box i), Normal := ray.axisNormal i } := by
  by_cases hc : ray.axisFront box i ∧ box.nearly (ray.pointAt (ray.axisParam box i))
  · rw [intersectBoxAxis_some ray box hit i hi hc.1 hc.2] at heq
    exact ⟨hc.1, hc.2, (Option.some.inj heq).symm⟩
  · rw [intersectBoxAxis_none ray box hit i hi hc] at heq
    exact absurd heq (by simp)

/-- The slab argument: a line that starts outside a box and is inside it at parameter `t`
enters it at the largest of the parameters at which it crosses the planes it faces. -/
theorem slab_entry (n : Nat) (o d lo hi : Nat → K) (t : K) (ht : 0 ≤ t)
    (hin : ∀ j < n, lo j ≤ o j + d j * t ∧ o j + d j * t ≤ hi j)
    (hout : ∃ j < n, o j < lo j ∨ hi j < o j) :
    ∃ k < n, ((0 < d k ∧ o k < lo k) ∨ (d k < 0 ∧ hi k < o k)) ∧
      0 < ((if 0 < d k then lo k else hi k) - o k) / d k ∧
      ((if 0 < d k then lo k else hi k) - o k) / d k ≤ t ∧
      ∀ j < n, lo j ≤ o j + d j * (((if 0 < d k then lo k else hi k) - o k) / d k) ∧
        o j + d j * (((if 0 < d k then lo k else hi k) - o k) / d k) ≤ hi j := by
  classical
  -- facts about an axis the ray faces
  have hlow : ∀ j < n, o j < lo j → 0 < d j := by
    intro j hj hlt
    by_contra hd
    have h1 := (hin j hj).1
    have : d j * t ≤ 0 := mul_nonpos_of_nonpos_of_nonneg (not_lt.mp hd) ht
    linarith
  have hhigh : ∀ j < n, hi j < o j → d j < 0 := by
    intro j hj hlt
    by_contra hd
    have h1 := (hin j hj).2
    have : 0 ≤ d j * t := mul_nonneg (not_lt.mp hd) ht
    linarith
  have hfacts : ∀ j < n, ((0 < d j ∧ o j < lo j) ∨ (d j < 0 ∧ hi j < o j)) →
      0 < ((if 0 < d j then lo j else hi j) - o j) / d j ∧
      ((if 0 < d j then lo j else hi j) - o j) / d j ≤ t ∧
      o j + d j * (((if 0 < d j then lo j else hi j) - o j) / d j)
        = (if 0 < d j then lo j else hi j) := by
    intro j hj hf
    rcases hf with ⟨hd, ho⟩ | ⟨hd, ho⟩
    · rw [if_pos hd]
      refine ⟨div_pos (sub_pos.mpr ho) hd, ?_, line_at_extreme _ _ _ (ne_of_gt hd)⟩
      rw [div_le_iff₀ hd]
      have := (hin j hj).1
      linarith
    · rw [if_neg (not_lt.mpr (le_of_lt hd))]
      refine ⟨div_pos_of_neg_of_neg (sub_neg.mpr ho) hd, ?_, line_at_extreme _ _ _ (ne_of_lt hd)⟩
      rw [div_le_iff_of_neg hd]
      have := (hin j hj).2
      linarith
  -- the faced axis with the largest crossing parameter
  obtain ⟨j0, hj0, hj0out⟩ := hout
  have hfront0 : (0 < d j0 ∧ o j0 < lo j0) ∨ (d j0 < 0 ∧ hi j0 < o j0) := by
    rcases hj0out with h | h
    · exact Or.inl ⟨hlow j0 hj0 h, h⟩
    · exact Or.inr ⟨hhigh j0 hj0 h, h⟩
  have hne : ((Finset.range n).filter
      (fun j => (0 < d j ∧ o j < lo j) ∨ (d j < 0 ∧ hi j < o j))).Nonempty :=
    ⟨j0, Finset.mem_filter.mpr ⟨Finset.mem_range.mpr hj0, hfront0⟩⟩
  obtain ⟨k, hk, hmax⟩ := Finset.exists_max_image _
    (fun j => ((if 0 < d j then lo j else hi j) - o j) / d j) hne
  have hkn : k < n := Finset.mem_range.mp (Finset.mem_filter.mp hk).1
  have hkf := (Finset.mem_filter.mp hk).2
  obtain ⟨hs0, hst, _⟩ := hfacts k hkn hkf
  refine ⟨k, hkn, hkf, hs0, hst, fun j hj => ?_⟩
  generalize hs : ((if 0 < d k then lo k else hi k) - o k) / d k = s at *
  by_cases hjf : (0 < d j ∧ o j < lo j) ∨ (d j < 0 ∧ hi j < o j)
  · have hle := hmax j (Finset.mem_filter.mpr ⟨Finset.mem_range.mpr hj, hjf⟩)
    obtain ⟨_, _, hje⟩ := hfacts j hj hjf
    rcases hjf with ⟨hd, ho⟩ | ⟨hd, ho⟩
    · rw [if_pos hd] at hje hle
      have h1 : d j * (((lo j) - o j) / d j) ≤ d j * s :=
        mul_le_mul_of_nonneg_left hle (le_of_lt hd)
      have h2 : d j * s ≤ d j * t := mul_le_mul_of_nonneg_left hst (le_of_lt hd)
      have := (hin j hj).2
      constructor <;> linarith
    · rw [if_neg (not_lt.mpr (le_of_lt hd))] at hje hle
      have h1 : d j * s ≤ d j * (((hi j) - o j) / d j) :=
        mul_le_mul_of_nonpos_left hle (le_of_lt hd)
      have h2 : d j * t ≤ d j * s := mul_le_mul_of_nonpos_left hst (le_of_lt hd)
      have := (hin j hj).1
      constructor <;> linarith
  · have hlo : lo j ≤ o j := by
      by_contra hc
      exact hjf (Or.inl ⟨hlow j hj (not_le.mp hc), not_le.mp hc⟩)
    have hhi : o j ≤ hi j := by
      by_contra hc
      exact hjf (Or.inr ⟨hhigh j hj (not_le.mp hc), not_le.mp hc⟩)
    have hj1 := hin j hj
    rcases le_total 0 (d j) with hd | hd
    · have h1 : 0 ≤ d j * s := mul_nonneg hd (le_of_lt hs0)
      have h2 : d j * s ≤ d j * t := mul_le_mul_of_nonneg_left hst hd
      constructor <;> linarith
    · have h1 : d j * s ≤ 0 := mul_nonpos_of_nonpos_of_nonneg hd (le_of_lt hs0)
      have h2 : d j * t ≤ d j * s := mul_le_mul_of_nonpos_left hst hd
      constructor <;> linarith

/-- Coordinates of a point of the line. -/
theorem comp_pointAt (ray : Ray K) (t : K) (i : Nat) :
    (ray.pointAt t).comp i = ray.Origin.comp i + ray.Direction.comp i * t := by
  simp only [Vector3.comp, Ray.sel, Ray.pointAt, Vector3.add, Vector3.scale]
  split_ifs <;> rfl

/-- Membership in the box, coordinate by coordinate. -/
theorem contains_iff (box : Box3 K) (p : Point3 K) :
    box.contains p ↔ ∀ j < 3, box.min.comp j ≤ p.comp j ∧ p.comp j ≤ box.max.comp j := by
  constructor
  · intro h j hj
    obtain ⟨h1, h2, h3, h4, h5, h6⟩ := h
    interval_cases j
    · exact ⟨h1, h2⟩
    · exact ⟨h3, h4⟩
    · exact ⟨h5, h6⟩
  · intro h
    exact ⟨(h 0 (by norm_num)).1, (h 0 (by norm_num)).2, (h 1 (by norm_num)).1,
      (h 1 (by norm_num)).2, (h 2 (by norm_num)).1, (h 2 (by norm_num)).2⟩

/-- A point of the box lies within the tolerance of the box. -/
theorem nearly_of_contains (box : Box3 K) (p : Point3 K) (h : box.contains p) :
    box.nearly p := by
  have he : (0 : K) < Ray.epsilon := epsilon_pos
  obtain ⟨h1, h2, h3, h4, h5, h6⟩ := h
  refine ⟨?_, ?_, ?_, ?_, ?_, ?_⟩ <;> linarith

/-- `intersectBox` returns the hit of the first axis, in the order x, y, z, that the ray
faces and whose candidate point lies within the tolerance of the box, and false when there
is none. -/
theorem intersectBox_cases (ray : Ray K) (box : Box3 K) (hit : Hit K) :
    (∃ k < 3, ray.axisFront box k ∧ box.nearly (ray.pointAt (ray.axisParam box k)) ∧
      (∀ j < k, ¬ (ray.axisFront box j ∧ box.nearly (ray.pointAt (ray.axisParam box j)))) ∧
      ray.intersectBox box hit = (true, { hit with
        Origin := ray.pointAt (ray.axisParam box k), Normal := ray.axisNormal k })) ∨
    ((∀ k < 3, ¬ (ray.axisFront box k ∧ box.nearly (ray.pointAt (ray.axisParam box k)))) ∧
      ray.intersectBox box hit = (false, hit)) := by
  by_cases h0 : ray.axisFront box 0 ∧ box.nearly (ray.pointAt (ray.axisParam box 0))
  · left
    refine ⟨0, by norm_num, h0.1, h0.2, fun j hj => absurd hj (Nat.not_lt_zero j), ?_⟩
    simp only [Ray.intersectBox, intersectBoxAxis_some ray box hit 0 (by norm_num) h0.1 h0.2]
  · by_cases h1 : ray.axisFront box 1 ∧ box.nearly (ray.pointAt (ray.axisParam box 1))
    · left
      refine ⟨1, by norm_num, h1.1, h1.2, fun j hj => ?_, ?_⟩
      · interval_cases j; exact h0
      · simp only [Ray.intersectBox, intersectBoxAxis_none ray box hit 0 (by norm_num) h0,
          intersectBoxAxis_some ray box hit 1 (by norm_num) h1.1 h1.2]
    · by_cases h2 : ray.axisFront box 2 ∧ box.nearly (ray.pointAt (ray.axisParam box 2))
      · left
        refine ⟨2, by norm_num, h2.1, h2.2, fun j hj => ?_, ?_⟩
        · interval_cases j
          · exact h0
          · exact h1
        · simp only [Ray.intersectBox, intersectBoxAxis_none ray box hit 0 (by norm_num) h0,
            intersectBoxAxis_none ray box hit 1 (by norm_num) h1,
            intersectBoxAxis_some ray box hit 2 (by norm_num) h2.1 h2.2]
      · right
        refine ⟨fun k hk => ?_, ?_⟩
        · interval_cases k
          · exact h0
          · exact h1
          · exact h2
        · simp only [Ray.intersectBox, intersectBoxAxis_none ray box hit 0 (by norm_num) h0,
            intersectBoxAxis_none ray box hit 1 (by norm_num) h1,
            intersectBoxAxis_none ray box hit 2 (by norm_num) h2]

/-- A ray that starts outside the box and reaches it faces an axis whose candidate point
lies in the box. -/
theorem exists_entry_axis (ray : Ray K) (box : Box3 K) (t : K) (ht : 0 ≤ t)
    (hout : ¬ box.contains ray.Origin) (hin : box.contains (ray.pointAt t)) :
    ∃ k < 3, ray.axisFront box k ∧ box.contains (ray.pointAt (ray.axisParam box k)) := by
  have hin1 : ∀ j < 3, box.min.comp j ≤ ray.Origin.comp j + ray.Direction.comp j * t ∧
      ray.Origin.comp j + ray.Direction.comp j * t ≤ box.max.comp j := by
    intro j hj
    have := (contains_iff box _).mp hin j hj
    rwa [comp_pointAt] at this
  have hout1 : ∃ j < 3, ray.Origin.comp j < box.min.comp j ∨
      box.max.comp j < ray.Origin.comp j := by
    by_contra hc
    push_neg at hc
    exact hout ((contains_iff box _).mpr (fun j hj => hc j hj))
  obtain ⟨k, hk, hfront, _, _, hall⟩ := slab_entry 3 (fun j => ray.Origin.comp j)
    (fun j => ray.Direction.comp j) (fun j => box.min.comp j) (fun j => box.max.comp j)
    t ht hin1 hout1
  refine ⟨k, hk, hfront, (contains_iff box _).mpr (fun j hj => ?_)⟩
  rw [comp_pointAt]
  exact hall j hj

/-- An axis the ray faces is crossed at a positive parameter, at the extreme used, and
before every point of the ray that lies in the box. -/
theorem axisFront_param (ray : Ray K) (box : Box3 K) (k : Nat) (hk : k < 3)
    (hfront : ray.axisFront box k) :
    0 < ray.axisParam box k ∧
    ((0 < ray.Direction.comp k ∧
        (ray.pointAt (ray.axisParam box k)).comp k = box.min.comp k ∧
        ray.axisNormal k = Vector3.scale (Vector3.axis k) (-1)) ∨
     (ray.Direction.comp k < 0 ∧
        (ray.pointAt (ray.axisParam box k)).comp k = box.max.comp k ∧
        ray.axisNormal k = Vector3.axis k)) ∧
    ∀ u, box.contains (ray.pointAt u) → ray.axisParam box k ≤ u := by
  rcases hfront with ⟨hd, ho⟩ | ⟨hd, ho⟩
  · have hp : ray.axisParam box k = (box.min.comp k - ray.Origin.comp k) / ray.Direction.comp k := by
      simp only [Ray.axisParam, Ray.axisExtreme, if_pos hd]
    refine ⟨?_, Or.inl ⟨hd, ?_, ?_⟩, fun u hu => ?_⟩
    · rw [hp]; exact div_pos (sub_pos.mpr ho) hd
    · rw [comp_pointAt, hp]; exact line_at_extreme _ _ _ (ne_of_gt hd)
    · simp only [Ray.axisNormal, if_pos hd]
    · have h1 := ((contains_iff box _).mp hu k hk).1
      rw [comp_pointAt] at h1
      rw [hp, div_le_iff₀ hd]
      linarith
  · have hd1 := not_lt.mpr (le_of_lt hd)
    have hp : ray.axisParam box k = (box.max.comp k - ray.Origin.comp k) / ray.Direction.comp k := by
      simp only [Ray.axisParam, Ray.axisExtreme, if_neg hd1]
    refine ⟨?_, Or.inr ⟨hd, ?_, ?_⟩, fun u hu => ?_⟩
    · rw [hp]; exact div_pos_of_neg_of_neg (sub_neg.mpr ho) hd
    · rw [comp_pointAt, hp]; exact line_at_extreme _ _ _ (ne_of_lt hd)
    · simp only [Ray.axisNormal, if_neg hd1]
    · have h1 := ((contains_iff box _).mp hu k hk).2
      rw [comp_pointAt] at h1
      rw [hp, div_le_iff_of_neg hd]
      linarith

/-- C7 (amended): for every axis-aligned box and every ray whose origin lies outside the
box and which reaches the box (a point `Origin + t * Direction`, `t ≥ 0`, lies in it, so
the box is non-empty), `intersectBox` returns true with a point `P = Origin + s * Direction`,
`s > 0`, every coordinate of which lies within `0.0001` of the extent of the box; `P` lies
on the plane of a face of the box and the normal returned is the outward unit axis normal
of that face; no point of the ray in the box comes before `P`, so `P` is the true entry
point whenever it lies in the box.  For the box `(-1,-1,-1)`, `(1,1,1)` and the ray from
`(0,0,5)` along `(0,0,-1)` the result is Origin `(0,0,1)`, normal `(0,0,1)`. -/
theorem intersectBox_entry (hit : Hit K) :
    (∀ (ray : Ray K) (box : Box3 K) (t : K), 0 ≤ t → ¬ box.contains ray.Origin →
      box.contains (ray.pointAt t) →
      ∃ k s n, k < 3 ∧ 0 < s ∧
        ray.intersectBox box hit = (true, { hit with Origin := ray.pointAt s, Normal := n }) ∧
        box.nearly (ray.pointAt s) ∧
        ((0 < ray.Direction.comp k ∧ (ray.pointAt s).comp k = box.min.comp k ∧
            n = Vector3.scale (Vector3.axis k) (-1)) ∨
         (ray.Direction.comp k < 0 ∧ (ray.pointAt s).comp k = box.max.comp k ∧
            n = Vector3.axis k)) ∧
        (∀ u, box.contains (ray.pointAt u) → s ≤ u)) ∧
    (⟨⟨0, 0, 5⟩, ⟨0, 0, -1⟩⟩ : Ray K).intersectBox ⟨⟨-1, -1, -1⟩, ⟨1, 1, 1⟩⟩ hit
      = (true, { hit with Origin := ⟨0, 0, 1⟩, Normal := ⟨0, 0, 1⟩ }) := by
  constructor
  · intro ray box t ht hout hin
    obtain ⟨k1, hk1, hf1, hc1⟩ := exists_entry_axis ray box t ht hout hin
    rcases intersectBox_cases ray box hit with ⟨k, hk, hfront, hnear, _, heq⟩ | ⟨hnone, _⟩
    · obtain ⟨hs, hface, hfirst⟩ := axisFront_param ray box k hk hfront
      exact ⟨k, ray.axisParam box k, ray.axisNormal k, hk, hs, heq, hnear, hface, hfirst⟩
    · exact absurd ⟨hf1, nearly_of_contains _ _ hc1⟩ (hnone k1 hk1)
  · simp [Ray.intersectBox, Ray.intersectBoxAxis, Ray.sel, Ray.epsilon]
    norm_num

/-- C7 (amended) at a concrete input: the down ray and the cube; the ray is in the cube at
`t = 5` and enters it at `s = 4`. -/
theorem intersectBox_entry_witness :
    ∃ k s n, k < 3 ∧ (0 : ℚ) < s ∧
      (Scenes.downRay : Ray ℚ).intersectBox Scenes.cube Hit.fresh
        = (true, { (Hit.fresh : Hit ℚ) with
            Origin := (Scenes.downRay : Ray ℚ).pointAt s, Normal := n }) ∧
      (Scenes.cube : Box3 ℚ).nearly ((Scenes.downRay : Ray ℚ).pointAt s) ∧
      ((0 < (Scenes.downRay : Ray ℚ).Direction.comp k ∧
          ((Scenes.downRay : Ray ℚ).pointAt s).comp k = (Scenes.cube : Box3 ℚ).min.comp k ∧
          n = Vector3.scale (Vector3.axis k) (-1)) ∨
       ((Scenes.downRay : Ray ℚ).Direction.comp k < 0 ∧
          ((Scenes.downRay : Ray ℚ).pointAt s).comp k = (Scenes.cube : Box3 ℚ).max.comp k ∧
          n = Vector3.axis k)) ∧
      (∀ u, (Scenes.cube : Box3 ℚ).contains ((Scenes.downRay : Ray ℚ).pointAt u) → s ≤ u) :=
  (intersectBox_entry (Hit.fresh : Hit ℚ)).1 Scenes.downRay Scenes.cube 5 (by norm_num)
    (by simp [Box3.contains, Scenes.downRay, Scenes.cube])
    (by simp [Box3.contains, Ray.pointAt, Vector3.add, Vector3.scale, Scenes.downRay,
          Scenes.cube]; norm_num)

/-- C7 as stated fails: the grazing ray enters the cube at `(0, -1, 0)` through the face
`y = -1`, but `intersectBox` returns the point `(-1, -1.00005, 0)`, which lies outside the
cube at distance 1 along `x` from the entry point, with the normal `(-1, 0, 0)` of the face
`x = -1`. -/
theorem intersectBox_entry_counterexample :
    ¬ (Scenes.cube : Box3 ℚ).contains (Scenes.grazingRay : Ray ℚ).Origin ∧
    (Scenes.grazingRay : Ray ℚ).pointAt 2 = ⟨0, -1, 0⟩ ∧
    (Scenes.cube : Box3 ℚ).contains ((Scenes.grazingRay : Ray ℚ).pointAt 2) ∧
    (∀ u, (Scenes.cube : Box3 ℚ).contains ((Scenes.grazingRay : Ray ℚ).pointAt u) → 2 ≤ u) ∧
    (Scenes.grazingRay : Ray ℚ).intersectBox Scenes.cube Hit.fresh
      = (true, { (Hit.fresh : Hit ℚ) with
          Origin := ⟨-1, -20001 / 20000, 0⟩, Normal := ⟨-1, 0, 0⟩ }) ∧
    (Ray.epsilon : ℚ) <
      |((Scenes.grazingRay : Ray ℚ).intersectBox Scenes.cube Hit.fresh).2.Origin.x
        - ((Scenes.grazingRay : Ray ℚ).pointAt 2).x| ∧
    ¬ (Scenes.cube : Box3 ℚ).contains
        ((Scenes.grazingRay : Ray ℚ).intersectBox Scenes.cube Hit.fresh).2.Origin := by
  have hbox : (Scenes.grazingRay : Ray ℚ).intersectBox Scenes.cube Hit.fresh
      = (true, { (Hit.fresh : Hit ℚ) with
          Origin := ⟨-1, -20001 / 20000, 0⟩, Normal := ⟨-1, 0, 0⟩ }) := by
    simp [Ray.intersectBox, Ray.intersectBoxAxis, Ray.sel, Ray.epsilon, Scenes.grazingRay,
      Scenes.cube, Vector3.scale, Hit.fresh]
    norm_num
  have hpt : (Scenes.grazingRay : Ray ℚ).pointAt 2 = ⟨0, -1, 0⟩ := by
    simp [Ray.pointAt, Vector3.add, Vector3.scale, Scenes.grazingRay]
    norm_num
  refine ⟨?_, hpt, ?_, ?_, hbox, ?_, ?_⟩
  · simp [Box3.contains, Scenes.grazingRay, Scenes.cube]
  · rw [hpt]; simp [Box3.contains, Scenes.cube]
  · intro u hu
    simp only [Box3.contains, Ray.pointAt, Vector3.add, Vector3.scale, Scenes.grazingRay,
      Scenes.cube] at hu
    linarith [hu.2.2.1]
  · rw [hbox, hpt]
    simp [Ray.epsilon]
    norm_num
  · rw [hbox]
    simp [Box3.contains, Scenes.cube]
    norm_num

end BoxProofs

/-! ## The claims about the behaviour of `Ray::intersectBox` -/

section BoxClaims

variable {K : Type} [LinearOrderedField K]

/-- Membership in the enlarged box, coordinate by coordinate. -/
theorem nearly_iff (box : Box3 K) (p : Point3 K) :
    box.nearly p ↔ ∀ j < 3, box.min.comp j - Ray.epsilon ≤ p.comp j ∧
      p.comp j ≤ box.max.comp j + Ray.epsilon := by
  constructor
  · intro h j hj
    obtain ⟨h1, h2, h3, h4, h5, h6⟩ := h
    interval_cases j
    · exact ⟨h1, h2⟩
    · exact ⟨h3, h4⟩
    · exact ⟨h5, h6⟩
  · intro h
    exact ⟨(h 0 (by norm_num)).1, (h 0 (by norm_num)).2, (h 1 (by norm_num)).1,
      (h 1 (by norm_num)).2, (h 2 (by norm_num)).1, (h 2 (by norm_num)).2⟩

/-- A box that is not inverted, coordinate by coordinate. -/
theorem wellFormed_comp (box : Box3 K) (h : box.WellFormed) :
    ∀ j < 3, box.min.comp j ≤ box.max.comp j := by
  intro j hj
  obtain ⟨h1, h2, h3⟩ := h
  interval_cases j
  · exact h1
  · exact h2
  · exact h3

/-- For an axis the ray faces, on a box that is not inverted, the tolerance check of the
code on all three coordinates amounts to the check on the two other axes. -/
theorem nearly_iff_nearlyOff (ray : Ray K) (box : Box3 K) (k : Nat) (hk : k < 3)
    (hbox : box.WellFormed) (hfront : ray.axisFront box k) :
    box.nearly (ray.pointAt (ray.axisParam box k)) ↔
      box.nearlyOff (ray.pointAt (ray.axisParam box k)) k := by
  rw [nearly_iff]
  constructor
  · intro h j hj _
    exact h j hj
  · intro h j hj
    by_cases hjk : j = k
    · subst hjk
      have he : (0 : K) < Ray.epsilon := epsilon_pos
      have hb := wellFormed_comp box hbox j hj
      obtain ⟨_, hface, _⟩ := axisFront_param ray box j hj hfront
      rcases hface with ⟨_, hp, _⟩ | ⟨_, hp, _⟩
      · rw [hp]; constructor <;> linarith
      · rw [hp]; constructor <;> linarith
    · exact h j hj hjk

/-- The result of `intersectBox` when it returns true: the candidate of an axis the ray
faces, within the tolerance of the box. -/
theorem intersectBox_of_true (ray : Ray K) (box : Box3 K) (hit out : Hit K)
    (h : ray.intersectBox box hit = (true, out)) :
    ∃ k < 3, ray.axisFront box k ∧ box.nearly (ray.pointAt (ray.axisParam box k)) ∧
      (∀ j < k, ¬ (ray.axisFront box j ∧ box.nearly (ray.pointAt (ray.axisParam box j)))) ∧
      out = { hit with Origin := ray.pointAt (ray.axisParam box k),
                       Normal := ray.axisNormal k } := by
  rcases intersectBox_cases ray box hit with ⟨k, hk, hfront, hnear, hfirst, heq⟩ | ⟨_, heq⟩
  · rw [heq] at h
    exact ⟨k, hk, hfront, hnear, hfirst, (Prod.mk.inj h).2.symm⟩
  · rw [heq] at h
    exact absurd (Prod.mk.inj h).1 (by simp)

/-- C14 (amended): for a box with `min ≤ max`, `intersectBox` returns true if and only if
there is an axis which the ray faces from outside (its direction component is positive and
the origin lies below the minimum plane of the axis, or the component is negative and the
origin lies above the maximum plane) and whose candidate point (on that plane, the other
two coordinates by linear interpolation along the ray) lies within the box bounds on the
other two axes with tolerance `0.0001`; the point returned is the candidate of the first
such axis in x, y, z order. -/
theorem intersectBox_true_iff (ray : Ray K) (box : Box3 K) (hit : Hit K)
    (hbox : box.WellFormed) :
    ((ray.intersectBox box hit).1 = true ↔
      ∃ k < 3, ray.axisFront box k ∧
        box.nearlyOff (ray.pointAt (ray.axisParam box k)) k) ∧
    (∀ k < 3, ray.axisFront box k → box.nearlyOff (ray.pointAt (ray.axisParam box k)) k →
      (∀ j < k, ¬ (ray.axisFront box j ∧
        box.nearlyOff (ray.pointAt (ray.axisParam box j)) j)) →
      ray.intersectBox box hit = (true, { hit with
        Origin := ray.pointAt (ray.axisParam box k), Normal := ray.axisNormal k })) := by
  have hconv : ∀ j < 3,
      (ray.axisFront box j ∧ box.nearly (ray.pointAt (ray.axisParam box j))) ↔
      (ray.axisFront box j ∧ box.nearlyOff (ray.pointAt (ray.axisParam box j)) j) := by
    intro j hj
    constructor
    · rintro ⟨hf, hn⟩; exact ⟨hf, (nearly_iff_nearlyOff ray box j hj hbox hf).mp hn⟩
    · rintro ⟨hf, hn⟩; exact ⟨hf, (nearly_iff_nearlyOff ray box j hj hbox hf).mpr hn⟩
  constructor
  · constructor
    · intro htrue
      rcases intersectBox_cases ray box hit with ⟨k, hk, hfront, hnear, _, _⟩ | ⟨_, heq⟩
      · exact ⟨k, hk, ((hconv k hk).mp ⟨hfront, hnear⟩)⟩
      · rw [heq] at htrue; exact absurd htrue (by simp)
    · rintro ⟨k, hk, hfront, hoff⟩
      rcases intersectBox_cases ray box hit with ⟨_, _, _, _, _, heq⟩ | ⟨hnone, _⟩
      · rw [heq]
      · exact absurd ((hconv k hk).mpr ⟨hfront, hoff⟩) (hnone k hk)
  · intro k hk hfront hoff hfirst
    rcases intersectBox_cases ray box hit with ⟨k1, hk1, hf1, hn1, hfirst1, heq⟩ | ⟨hnone, _⟩
    · have hkk : k1 = k := by
        rcases lt_trichotomy k1 k with hlt | heq1 | hgt
        · exact absurd ((hconv k1 hk1).mp ⟨hf1, hn1⟩) (hfirst k1 hlt)
        · exact heq1
        · exact absurd ((hconv k hk).mpr ⟨hfront, hoff⟩) (hfirst1 k hgt)
      rw [heq, hkk]
    · exact absurd ((hconv k hk).mpr ⟨hfront, hoff⟩) (hnone k hk)

/-- C14 (amended) at a concrete input: the down ray faces the cube along `z` and its
candidate on the plane `z = 1` lies within the bounds on `x` and `y`. -/
theorem intersectBox_true_iff_witness :
    (Scenes.cube : Box3 ℚ).WellFormed ∧
    ((Scenes.downRay : Ray ℚ).intersectBox Scenes.cube Hit.fresh).1 = true :=
  have hbox : (Scenes.cube : Box3 ℚ).WellFormed := by
    simp [Box3.WellFormed, Scenes.cube]
  ⟨hbox, (intersectBox_true_iff Scenes.downRay Scenes.cube Hit.fresh hbox).1.mpr
    ⟨2, by norm_num, by
      right
      simp [Vector3.comp, Ray.sel, Scenes.downRay, Scenes.cube], by
      intro j hj hne
      interval_cases j
      · simp [Vector3.comp, Ray.sel, Ray.pointAt, Ray.axisParam, Ray.axisExtreme, Vector3.add,
          Vector3.scale, Scenes.downRay, Scenes.cube, Ray.epsilon]
        norm_num
      · simp [Vector3.comp, Ray.sel, Ray.pointAt, Ray.axisParam, Ray.axisExtreme, Vector3.add,
          Vector3.scale, Scenes.downRay, Scenes.cube, Ray.epsilon]
        norm_num
      · exact absurd rfl hne⟩⟩

/-- C14 as stated fails: for the ray that starts at the centre of the cube and runs along
`x`, the direction component of axis `x` is non-zero and the candidate point `(-1, 0, 0)` on
the minimum plane lies within the bounds on `y` and `z`, yet `intersectBox` returns
false, because the origin does not lie below that plane. -/
theorem intersectBox_true_iff_counterexample :
    (Scenes.cube : Box3 ℚ).WellFormed ∧
    (Scenes.insideRay : Ray ℚ).Direction.comp 0 ≠ 0 ∧
    (Scenes.insideRay : Ray ℚ).pointAt ((Scenes.insideRay : Ray ℚ).axisParam Scenes.cube 0)
      = ⟨-1, 0, 0⟩ ∧
    (Scenes.cube : Box3 ℚ).nearlyOff
      ((Scenes.insideRay : Ray ℚ).pointAt ((Scenes.insideRay : Ray ℚ).axisParam Scenes.cube 0))
      0 ∧
    ((Scenes.insideRay : Ray ℚ).intersectBox Scenes.cube Hit.fresh).1 = false := by
  have hpt : (Scenes.insideRay : Ray ℚ).pointAt
      ((Scenes.insideRay : Ray ℚ).axisParam Scenes.cube 0) = ⟨-1, 0, 0⟩ := by
    simp [Vector3.comp, Ray.sel, Ray.pointAt, Ray.axisParam, Ray.axisExtreme, Vector3.add,
      Vector3.scale, Scenes.insideRay, Scenes.cube]
  refine ⟨by simp [Box3.WellFormed, Scenes.cube], ?_, hpt, ?_, ?_⟩
  · simp [Vector3.comp, Ray.sel, Scenes.insideRay]
  · rw [hpt]
    intro j hj hne
    interval_cases j
    · exact absurd rfl hne
    · simp [Vector3.comp, Ray.sel, Scenes.cube, Ray.epsilon]
      norm_num
    · simp [Vector3.comp, Ray.sel, Scenes.cube, Ray.epsilon]
      norm_num
  · norm_num [Ray.intersectBox, Ray.intersectBoxAxis, Ray.sel, Scenes.insideRay, Scenes.cube]

/-- C15: whenever `intersectBox` returns true, with `k` the accepted axis and `e` the
extreme used (`min_k` if `Direction_k > 0`, `max_k` if `Direction_k < 0`), the returned
point is `Origin + t * Direction` for `t = (e - Origin_k) / Direction_k`, with `t > 0`, its
`k`-th coordinate is exactly `e`, and every coordinate lies in
`[min - 0.0001, max + 0.0001]` of its axis. -/
theorem intersectBox_point (ray : Ray K) (box : Box3 K) (hit out : Hit K)
    (h : ray.intersectBox box hit = (true, out)) :
    ∃ k e, k < 3 ∧
      ((0 < ray.Direction.comp k ∧ e = box.min.comp k) ∨
        (ray.Direction.comp k < 0 ∧ e = box.max.comp k)) ∧
      out.Origin = ray.pointAt ((e - ray.Origin.comp k) / ray.Direction.comp k) ∧
      0 < (e - ray.Origin.comp k) / ray.Direction.comp k ∧
      out.Origin.comp k = e ∧
      box.nearly out.Origin := by
  obtain ⟨k, hk, hfront, hnear, _, rfl⟩ := intersectBox_of_true ray box hit out h
  obtain ⟨hpos, hface, _⟩ := axisFront_param ray box k hk hfront
  refine ⟨k, ray.axisExtreme box k, hk, ?_, rfl, hpos, ?_, hnear⟩
  · rcases hface with ⟨hd, _, _⟩ | ⟨hd, _, _⟩
    · exact Or.inl ⟨hd, by simp only [Ray.axisExtreme, if_pos hd]⟩
    · exact Or.inr ⟨hd, by simp only [Ray.axisExtreme, if_neg (not_lt.mpr (le_of_lt hd))]⟩
  · rcases hface with ⟨hd, hp, _⟩ | ⟨hd, hp, _⟩
    · show (ray.pointAt (ray.axisParam box k)).comp k = _
      rw [hp]; simp only [Ray.axisExtreme, if_pos hd]
    · show (ray.pointAt (ray.axisParam box k)).comp k = _
      rw [hp]; simp only [Ray.axisExtreme, if_neg (not_lt.mpr (le_of_lt hd))]

/-- C15 at a concrete input: the down ray and the cube; the accepted axis is `z`, the
extreme `1`, the parameter `4` and the point `(1/5, 1/5, 1)`. -/
theorem intersectBox_point_witness :
    (Scenes.downRay : Ray ℚ).intersectBox Scenes.cube Hit.fresh
      = (true, { (Hit.fresh : Hit ℚ) with Origin := ⟨1 / 5, 1 / 5, 1⟩, Normal := ⟨0, 0, 1⟩ }) ∧
    ∃ k e, k < 3 ∧
      ((0 < (Scenes.downRay : Ray ℚ).Direction.comp k ∧ e = (Scenes.cube : Box3 ℚ).min.comp k) ∨
        ((Scenes.downRay : Ray ℚ).Direction.comp k < 0 ∧
          e = (Scenes.cube : Box3 ℚ).max.comp k)) ∧
      (⟨1 / 5, 1 / 5, 1⟩ : Point3 ℚ) = (Scenes.downRay : Ray ℚ).pointAt
        ((e - (Scenes.downRay : Ray ℚ).Origin.comp k)
          / (Scenes.downRay : Ray ℚ).Direction.comp k) ∧
      0 < (e - (Scenes.downRay : Ray ℚ).Origin.comp k)
          / (Scenes.downRay : Ray ℚ).Direction.comp k ∧
      (⟨1 / 5, 1 / 5, 1⟩ : Point3 ℚ).comp k = e ∧
      (Scenes.cube : Box3 ℚ).nearly ⟨1 / 5, 1 / 5, 1⟩ :=
  have heval : (Scenes.downRay : Ray ℚ).intersectBox Scenes.cube Hit.fresh
      = (true, { (Hit.fresh : Hit ℚ) with
          Origin := ⟨1 / 5, 1 / 5, 1⟩, Normal := ⟨0, 0, 1⟩ }) := by
    simp [Ray.intersectBox, Ray.intersectBoxAxis, Ray.sel, Ray.epsilon, Scenes.downRay,
      Scenes.cube, Hit.fresh]
    norm_num
  ⟨heval, intersectBox_point Scenes.downRay Scenes.cube Hit.fresh _ heval⟩

/-- The unit vector of an axis: its own coordinate is one, its length is one, and the dot
product with it reads off the coordinate. -/
theorem axis_spec (k : Nat) (hk : k < 3) (v : Vector3 K) :
    (Vector3.axis k : Vector3 K).comp k = 1 ∧
    Vector3.dot (Vector3.axis k : Vector3 K) (Vector3.axis k) = 1 ∧
    Vector3.dot (Vector3.axis k) v = v.comp k ∧
    (Vector3.scale (Vector3.axis k : Vector3 K) (-1)).comp k = -1 ∧
    Vector3.dot (Vector3.scale (Vector3.axis k : Vector3 K) (-1))
      (Vector3.scale (Vector3.axis k) (-1)) = 1 ∧
    Vector3.dot (Vector3.scale (Vector3.axis k) (-1)) v = -v.comp k := by
  interval_cases k <;>
    simp [Vector3.axis, Vector3.comp, Vector3.dot, Vector3.scale, sel_zero, sel_one, sel_two]

/-- C16 (amended): whenever `intersectBox` returns true, the returned normal is the
outward-facing unit normal of the face the returned point lies on.  When the accepted axis
`k` uses the minimum extreme (direction component positive) the normal is the negated unit
vector of the axis, which points out of the box along the negative axis; when it uses the
maximum extreme the normal is the unit vector of the axis, which points out of the box
along the positive axis.  In both cases the normal has length one and opposes the
direction of the ray. -/
theorem intersectBox_normal (ray : Ray K) (box : Box3 K) (hit out : Hit K)
    (h : ray.intersectBox box hit = (true, out)) :
    ∃ k < 3,
      ((0 < ray.Direction.comp k ∧ out.Origin.comp k = box.min.comp k ∧
          out.Normal = Vector3.scale (Vector3.axis k) (-1) ∧ out.Normal.comp k = -1) ∨
       (ray.Direction.comp k < 0 ∧ out.Origin.comp k = box.max.comp k ∧
          out.Normal = Vector3.axis k ∧ out.Normal.comp k = 1)) ∧
      Vector3.dot out.Normal out.Normal = 1 ∧
      Vector3.dot out.Normal ray.Direction < 0 := by
  obtain ⟨k, hk, hfront, _, _, rfl⟩ := intersectBox_of_true ray box hit out h
  obtain ⟨_, hface, _⟩ := axisFront_param ray box k hk hfront
  obtain ⟨a1, a2, a3, b1, b2, b3⟩ := axis_spec k hk ray.Direction
  refine ⟨k, hk, ?_⟩
  rcases hface with ⟨hd, hp, hn⟩ | ⟨hd, hp, hn⟩
  · refine ⟨Or.inl ⟨hd, hp, hn, ?_⟩, ?_, ?_⟩
    · show (ray.axisNormal k).comp k = -1
      rw [hn]; exact b1
    · show Vector3.dot (ray.axisNormal k) (ray.axisNormal k) = 1
      rw [hn]; exact b2
    · show Vector3.dot (ray.axisNormal k) ray.Direction < 0
      rw [hn, b3]; linarith
  · refine ⟨Or.inr ⟨hd, hp, hn, ?_⟩, ?_, ?_⟩
    · show (ray.axisNormal k).comp k = 1
      rw [hn]; exact a1
    · show Vector3.dot (ray.axisNormal k) (ray.axisNormal k) = 1
      rw [hn]; exact a2
    · show Vector3.dot (ray.axisNormal k) ray.Direction < 0
      rw [hn, a3]; exact hd

/-- The up ray enters the cube through the face `z = -1`, and the normal returned is
`(0, 0, -1)`. -/
theorem Scenes.intersectBox_up :
    (Scenes.upRay : Ray ℚ).intersectBox Scenes.cube Hit.fresh
      = (true, { (Hit.fresh : Hit ℚ) with Origin := ⟨0, 0, -1⟩, Normal := ⟨0, 0, -1⟩ }) := by
  simp [Ray.intersectBox, Ray.intersectBoxAxis, Ray.sel, Ray.epsilon, Scenes.upRay,
    Scenes.cube, Hit.fresh, Vector3.scale]
  norm_num

/-- C16 (amended) at a concrete input: the up ray and the cube. -/
theorem intersectBox_normal_witness :
    (Scenes.upRay : Ray ℚ).intersectBox Scenes.cube Hit.fresh
      = (true, { (Hit.fresh : Hit ℚ) with Origin := ⟨0, 0, -1⟩, Normal := ⟨0, 0, -1⟩ }) ∧
    ∃ k < 3,
      ((0 < (Scenes.upRay : Ray ℚ).Direction.comp k ∧
          (⟨0, 0, -1⟩ : Point3 ℚ).comp k = (Scenes.cube : Box3 ℚ).min.comp k ∧
          (⟨0, 0, -1⟩ : Vector3 ℚ) = Vector3.scale (Vector3.axis k) (-1) ∧
          (⟨0, 0, -1⟩ : Vector3 ℚ).comp k = -1) ∨
       ((Scenes.upRay : Ray ℚ).Direction.comp k < 0 ∧
          (⟨0, 0, -1⟩ : Point3 ℚ).comp k = (Scenes.cube : Box3 ℚ).max.comp k ∧
          (⟨0, 0, -1⟩ : Vector3 ℚ) = Vector3.axis k ∧
          (⟨0, 0, -1⟩ : Vector3 ℚ).comp k = 1)) ∧
      Vector3.dot (⟨0, 0, -1⟩ : Vector3 ℚ) ⟨0, 0, -1⟩ = 1 ∧
      Vector3.dot (⟨0, 0, -1⟩ : Vector3 ℚ) (Scenes.upRay : Ray ℚ).Direction < 0 :=
  ⟨Scenes.intersectBox_up,
    intersectBox_normal Scenes.upRay Scenes.cube Hit.fresh _ Scenes.intersectBox_up⟩

/-- C16 as stated fails: the up ray is accepted on axis `z` with the minimum extreme (the
returned point lies on the plane `z = -1`), and the normal returned is `(0, 0, -1)`, which
points out of the box along the negative axis, not into the box along the positive
axis. -/
theorem intersectBox_normal_counterexample :
    0 < (Scenes.upRay : Ray ℚ).Direction.z ∧
    ((Scenes.upRay : Ray ℚ).intersectBox Scenes.cube Hit.fresh).1 = true ∧
    ((Scenes.upRay : Ray ℚ).intersectBox Scenes.cube Hit.fresh).2.Origin.z
      = (Scenes.cube : Box3 ℚ).min.z ∧
    ((Scenes.upRay : Ray ℚ).intersectBox Scenes.cube Hit.fresh).2.Normal = ⟨0, 0, -1⟩ ∧
    ((Scenes.upRay : Ray ℚ).intersectBox Scenes.cube Hit.fresh).2.Normal
      ≠ (Vector3.axis 2 : Vector3 ℚ) := by
  rw [Scenes.intersectBox_up]
  simp [Scenes.upRay, Scenes.cube, Vector3.axis, Ray.sel]
  norm_num

/-- A ray whose origin lies in the box faces no axis. -/
theorem not_axisFront_of_contains (ray : Ray K) (box : Box3 K) (hin : box.contains ray.Origin)
    (k : Nat) (hk : k < 3) : ¬ ray.axisFront box k := by
  have h := (contains_iff box _).mp hin k hk
  rintro (⟨_, ho⟩ | ⟨_, ho⟩)
  · exact absurd h.1 (not_le.mpr ho)
  · exact absurd h.2 (not_le.mpr ho)

/-- C17: for every box and every ray whose origin lies inside or on the box,
`intersectBox` returns false, whatever the direction, and leaves the hit unchanged;
consequently the per-object overload of `castRay` appends no hit for an object whose
bounding box contains the local-space ray origin: it returns the collection it was given,
and true exactly when that collection is non-empty. -/
theorem intersectBox_origin_inside (sqrt : K → K) (invert : Matrix4x4 K → Matrix4x4 K) :
    (∀ (ray : Ray K) (box : Box3 K) (hit : Hit K), box.contains ray.Origin →
      ray.intersectBox box hit = (false, hit)) ∧
    (∀ (ray : Ray K) (mesh : Mesh K) (transform : Matrix4x4 K) (hits : List (Hit K))
      (hitID : Nat),
      mesh.boundingBox.contains (RayCaster.localRay invert ray transform).Origin →
      RayCaster.castRayObject sqrt invert ray mesh transform hits hitID
        = Except.ok (decide (hits.length > 0), hits)) := by
  have hbox : ∀ (ray : Ray K) (box : Box3 K) (hit : Hit K), box.contains ray.Origin →
      ray.intersectBox box hit = (false, hit) := by
    intro ray box hit hin
    rcases intersectBox_cases ray box hit with ⟨k, hk, hfront, _, _, _⟩ | ⟨_, heq⟩
    · exact absurd hfront (not_axisFront_of_contains ray box hin k hk)
    · exact heq
  refine ⟨hbox, fun ray mesh transform hits hitID hin => ?_⟩
  rw [castRayObject_eq]
  unfold RayCaster.objectHits
  rw [hbox _ _ _ hin]
  simp

/-- C17 at a concrete input: the ray that starts at the centre of the cube. -/
theorem intersectBox_origin_inside_witness :
    (Scenes.cube : Box3 ℝ).contains (Scenes.insideRay : Ray ℝ).Origin ∧
    (Scenes.insideRay : Ray ℝ).intersectBox Scenes.cube Hit.fresh = (false, Hit.fresh) :=
  have hin : (Scenes.cube : Box3 ℝ).contains (Scenes.insideRay : Ray ℝ).Origin := by
    simp [Box3.contains, Scenes.cube, Scenes.insideRay]
  ⟨hin, (intersectBox_origin_inside Real.sqrt (fun m => m⁻¹)).1 Scenes.insideRay Scenes.cube
    Hit.fresh hin⟩

/-- C18: for every box and every ray whose origin lies outside the box, if some point
`Origin + t * Direction` with `t > 0` lies in the box then `intersectBox` returns true. -/
theorem intersectBox_reaches (ray : Ray K) (box : Box3 K) (hit : Hit K) (t : K)
    (hout : ¬ box.contains ray.Origin) (ht : 0 < t) (hin : box.contains (ray.pointAt t)) :
    (ray.intersectBox box hit).1 = true := by
  obtain ⟨k, hk, hfront, hc⟩ := exists_entry_axis ray box t (le_of_lt ht) hout hin
  rcases intersectBox_cases ray box hit with ⟨_, _, _, _, _, heq⟩ | ⟨hnone, _⟩
  · rw [heq]
  · exact absurd ⟨hfront, nearly_of_contains _ _ hc⟩ (hnone k hk)

/-- C18 at a concrete input: the down ray starts outside the cube and is inside it at
`t = 5`. -/
theorem intersectBox_reaches_witness :
    ¬ (Scenes.cube : Box3 ℚ).contains (Scenes.downRay : Ray ℚ).Origin ∧
    (Scenes.cube : Box3 ℚ).contains ((Scenes.downRay : Ray ℚ).pointAt 5) ∧
    ((Scenes.downRay : Ray ℚ).intersectBox Scenes.cube Hit.fresh).1 = true :=
  have hout : ¬ (Scenes.cube : Box3 ℚ).contains (Scenes.downRay : Ray ℚ).Origin := by
    simp [Box3.contains, Scenes.downRay, Scenes.cube]
  have hin : (Scenes.cube : Box3 ℚ).contains ((Scenes.downRay : Ray ℚ).pointAt 5) := by
    simp [Box3.contains, Ray.pointAt, Vector3.add, Vector3.scale, Scenes.downRay, Scenes.cube]
    norm_num
  ⟨hout, hin, intersectBox_reaches Scenes.downRay Scenes.cube Hit.fresh 5 hout (by norm_num)
    hin⟩

end BoxClaims

/-! ## Hits lie in front of the ray origin -/

section ForwardClaims

variable {K : Type} [LinearOrderedField K]

/-- When `intersectTriangle` succeeds on a non-degenerate triangle, the hit position is a
point of the line of the ray and a combination of the vertices with non-negative weights
that sum to one. -/
theorem intersectTriangle_hit_point (sqrt : K → K)
    (hsqrt : ∀ x, 0 ≤ x → 0 ≤ sqrt x ∧ sqrt x * sqrt x = x)
    (ray : Ray K) (p0 p1 p2 : Point3 K) (hit : Hit K)
    (hnd : Vector3.cross (Vector3.sub p2 p0) (Vector3.sub p1 p0) ≠ ⟨0, 0, 0⟩)
    (htrue : (ray.intersectTriangle sqrt p0 p1 p2 hit none).1 = true) :
    ∃ t w0 w1 w2,
      (ray.intersectTriangle sqrt p0 p1 p2 hit none).2.Origin = ray.pointAt t ∧
      ray.pointAt t = Ray.combination p0 p1 p2 w0 w1 w2 ∧
      w0 + w1 + w2 = 1 ∧ 0 ≤ w0 ∧ 0 ≤ w1 ∧ 0 ≤ w2 := by
  have hcc := dot_self_pos _ hnd
  have hm := hsqrt _ (le_of_lt hcc)
  have hmne : Vector3.magnitude sqrt
      (Vector3.cross (Vector3.sub p2 p0) (Vector3.sub p1 p0)) ≠ 0 := by
    intro h0
    unfold Vector3.magnitude at h0
    rw [h0] at hm
    have := hm.2
    simp only [mul_zero] at this
    exact (ne_of_gt hcc) this.symm
  have hzero : ∀ v, Vector3.dot (Ray.triangleNormal sqrt p0 p1 p2) v = 0 →
      Vector3.dot (Vector3.cross (Vector3.sub p2 p0) (Vector3.sub p1 p0)) v = 0 := by
    intro v hv
    have hnv : Vector3.dot (Ray.triangleNormal sqrt p0 p1 p2) v
        = Vector3.dot (Vector3.cross (Vector3.sub p2 p0) (Vector3.sub p1 p0)) v
          / Vector3.magnitude sqrt (Vector3.cross (Vector3.sub p2 p0) (Vector3.sub p1 p0)) :=
      dot_normalize sqrt _ v
    rw [hnv, div_eq_zero_iff] at hv
    exact hv.resolve_right hmne
  rw [intersectTriangle_none] at htrue ⊢
  split_ifs at htrue with hcond
  obtain ⟨hd, a0, a1, a2, _, _, _⟩ := hcond
  have hpl := hzero _ (pointAt_plane ray (Ray.triangleNormal sqrt p0 p1 p2) p0 (ne_of_lt hd))
  have hcomb := triangleWeights_combination p0 p1 p2 _ hnd hpl
  have hw := (triangleWeights_eq p0 p1 p2
    (ray.pointAt (Vector3.dot (Ray.triangleNormal sqrt p0 p1 p2)
        (Vector3.sub p0 ray.Origin)
      / Vector3.dot (Ray.triangleNormal sqrt p0 p1 p2) ray.Direction)) hnd).2.2
  rw [if_pos ⟨hd, a0, a1, a2, by assumption, by assumption, by assumption⟩]
  exact ⟨_, _, _, _, rfl, hcomb, by rw [hw]; ring, a0, a1, a2⟩

/-- A box contains every combination, with non-negative weights that sum to one, of three
of its points. -/
theorem combination_contains (box : Box3 K) (p0 p1 p2 : Point3 K) (w0 w1 w2 : K)
    (h0 : box.contains p0) (h1 : box.contains p1) (h2 : box.contains p2)
    (hsum : w0 + w1 + w2 = 1) (a0 : 0 ≤ w0) (a1 : 0 ≤ w1) (a2 : 0 ≤ w2) :
    box.contains (Ray.combination p0 p1 p2 w0 w1 w2) := by
  have key : ∀ (lo hi x0 x1 x2 : K), lo ≤ x0 → x0 ≤ hi → lo ≤ x1 → x1 ≤ hi → lo ≤ x2 →
      x2 ≤ hi → lo ≤ x0 * w0 + x1 * w2 + x2 * w1 ∧ x0 * w0 + x1 * w2 + x2 * w1 ≤ hi := by
    intro lo hi x0 x1 x2 l0 u0 l1 u1 l2 u2
    have e0 := mul_le_mul_of_nonneg_right l0 a0
    have e1 := mul_le_mul_of_nonneg_right l1 a2
    have e2 := mul_le_mul_of_nonneg_right l2 a1
    have f0 := mul_le_mul_of_nonneg_right u0 a0
    have f1 := mul_le_mul_of_nonneg_right u1 a2
    have f2 := mul_le_mul_of_nonneg_right u2 a1
    have hlo : lo = lo * w0 + lo * w2 + lo * w1 := by
      linear_combination (-lo) * hsum
    have hhi : hi = hi * w0 + hi * w2 + hi * w1 := by
      linear_combination (-hi) * hsum
    constructor
    · rw [hlo]; linarith
    · rw [hhi]; linarith
  obtain ⟨b1, b2, b3, b4, b5, b6⟩ := h0
  obtain ⟨c1, c2, c3, c4, c5, c6⟩ := h1
  obtain ⟨d1, d2, d3, d4, d5, d6⟩ := h2
  have kx := key _ _ _ _ _ b1 b2 c1 c2 d1 d2
  have ky := key _ _ _ _ _ b3 b4 c3 c4 d3 d4
  have kz := key _ _ _ _ _ b5 b6 c5 c6 d5 d6
  exact ⟨kx.1, kx.2, ky.1, ky.2, kz.1, kz.2⟩

/-- A point of the box on the line of a ray that faces an axis of the box from outside has
a positive parameter. -/
theorem pointAt_pos_of_front (ray : Ray K) (box : Box3 K) (k : Nat) (hk : k < 3)
    (hfront : ray.axisFront box k) (t : K) (hin : box.contains (ray.pointAt t)) : 0 < t := by
  obtain ⟨hpos, _, hfirst⟩ := axisFront_param ray box k hk hfront
  exact lt_of_lt_of_le hpos (hfirst t hin)

/-- The forward-hit property for one triangle: when the ray is accepted by the box test
and hits a non-degenerate triangle whose vertices lie in the box, the hit lies at a
positive parameter of the ray. -/
theorem triangle_hit_forward (sqrt : K → K)
    (hsqrt : ∀ x, 0 ≤ x → 0 ≤ sqrt x ∧ sqrt x * sqrt x = x)
    (ray : Ray K) (box : Box3 K) (p0 p1 p2 : Point3 K) (hit hit1 : Hit K)
    (hnd : Vector3.cross (Vector3.sub p2 p0) (Vector3.sub p1 p0) ≠ ⟨0, 0, 0⟩)
    (h0 : box.contains p0) (h1 : box.contains p1) (h2 : box.contains p2)
    (hb : (ray.intersectBox box hit1).1 = true)
    (htri : (ray.intersectTriangle sqrt p0 p1 p2 hit none).1 = true) :
    ∃ t, 0 < t ∧ (ray.intersectTriangle sqrt p0 p1 p2 hit none).2.Origin = ray.pointAt t := by
  obtain ⟨t, w0, w1, w2, horigin, hcomb, hsum, a0, a1, a2⟩ :=
    intersectTriangle_hit_point sqrt hsqrt ray p0 p1 p2 hit hnd htri
  have hin : box.contains (ray.pointAt t) := by
    rw [hcomb]
    exact combination_contains box p0 p1 p2 w0 w1 w2 h0 h1 h2 hsum a0 a1 a2
  rcases intersectBox_cases ray box hit1 with ⟨k, hk, hfront, _, _, _⟩ | ⟨_, heq⟩
  · exact ⟨t, pointAt_pos_of_front ray box k hk hfront t hin, horigin⟩
  · rw [heq] at hb
    exact absurd hb (by simp)

/-- C19: over exact arithmetic with a true square root, for every ray, every box and every
non-degenerate triangle whose three vertices lie inside the box, if `intersectBox` returns
true for the box and `intersectTriangle` (no precomputed normal) returns true for the
triangle, then the reported hit point is `Origin + t * Direction` with `t > 0`.  Hence,
for a registry whose meshes are enclosed by their bounding boxes, every hit that `castRay`
appends is the world-space fill-in of a local-space hit that lies at a positive parameter
of the local ray. -/
theorem castRay_forward (sqrt : K → K) (invert : Matrix4x4 K → Matrix4x4 K)
    (hsqrt : ∀ x, 0 ≤ x → 0 ≤ sqrt x ∧ sqrt x * sqrt x = x) :
    (∀ (ray : Ray K) (box : Box3 K) (p0 p1 p2 : Point3 K) (hit hit1 : Hit K),
      Vector3.cross (Vector3.sub p2 p0) (Vector3.sub p1 p0) ≠ ⟨0, 0, 0⟩ →
      box.contains p0 → box.contains p1 → box.contains p2 →
      (ray.intersectBox box hit1).1 = true →
      (ray.intersectTriangle sqrt p0 p1 p2 hit none).1 = true →
      ∃ t, 0 < t ∧ (ray.intersectTriangle sqrt p0 p1 p2 hit none).2.Origin = ray.pointAt t) ∧
    (∀ (ray : Ray K) (rc : RayCaster K) (hits : List (Hit K)) (b : Bool) (out : List (Hit K)),
      (∀ m ∈ rc.meshes, m.Enclosed) →
      RayCaster.castRay sqrt invert rc ray hits = Except.ok (b, out) →
      ∃ new, List.Perm out (hits ++ new) ∧
        ∀ h ∈ new, ∃ i object mesh l t,
          rc.objects[i]? = some object ∧ rc.meshes[i]? = some mesh ∧ 0 < t ∧
          l.Origin = (RayCaster.localRay invert ray object.worldMatrix).pointAt t ∧
          h = RayCaster.toWorld sqrt ray object.worldMatrix
                (Matrix4x4.transpose (invert object.worldMatrix)) i l) := by
  refine ⟨fun ray box p0 p1 p2 hit hit1 hnd h0 h1 h2 hb htri =>
    triangle_hit_forward sqrt hsqrt ray box p0 p1 p2 hit hit1 hnd h0 h1 h2 hb htri, ?_⟩
  intro ray rc hits b out henc h
  obtain ⟨_, new, hs, _, _, rfl⟩ := castRay_ok sqrt invert rc ray hits b out h
  refine ⟨new, orderHits_perm _, fun h hh => ?_⟩
  obtain ⟨j, o, m, bm, locals, l, hz, _, hbb, hm, hl, he⟩ :=
    sceneHits_mem sqrt invert ray _ 0 new hs h hh
  have hz1 := List.getElem?_zip_eq_some.mp hz
  have hmem : m ∈ rc.meshes := List.getElem?_mem hz1.2
  rw [intersectMesh_eq] at hm
  cases htri : m.triangles with
  | none => simp [htri] at hm
  | some ts =>
    simp only [htri, List.nil_append, Except.ok.injEq, Prod.mk.injEq] at hm
    rw [← hm.2] at hl
    simp only [Ray.meshHits, List.mem_map, List.mem_filter] at hl
    obtain ⟨t, ⟨ht, hhit⟩, rfl⟩ := hl
    obtain ⟨hnd, c0, c1, c2⟩ := henc m hmem ts htri t ht
    obtain ⟨s, hs0, hpt⟩ := triangle_hit_forward sqrt hsqrt
      (RayCaster.localRay invert ray o.worldMatrix) m.boundingBox t.1 t.2.1 t.2.2
      Hit.fresh Hit.fresh hnd c0 c1 c2 hbb hhit
    refine ⟨j, o, m, Ray.triangleHit sqrt (RayCaster.localRay invert ray o.worldMatrix) m t,
      s, hz1.1, hz1.2, hs0, hpt, ?_⟩
    rw [he, Nat.zero_add]

/-- The down ray hits the triangle `(0,0,0), (0,1,0), (1,0,0)` at `(1/5, 1/5, 0)`. -/
theorem Scenes.intersectTriangle_flat :
    (Scenes.downRay : Ray ℝ).intersectTriangle Real.sqrt ⟨0, 0, 0⟩ ⟨0, 1, 0⟩ ⟨1, 0, 0⟩
      Hit.fresh none = (true, ⟨⟨1 / 5, 1 / 5, 0⟩, ⟨0, 0, 1⟩, 0, 0, none⟩) := by
  simp [Ray.intersectTriangle, Vector3.sub, Vector3.cross, Vector3.normalize,
    Vector3.magnitude, Vector3.dot, Scenes.downRay, Ray.intersectPlane, Vector4.dot,
    Ray.triangleWeights, Vector3.add, Vector3.scale, Hit.fresh]
  norm_num

/-- C19 at a concrete input: the down ray, the cube and the triangle
`(0,0,0), (0,1,0), (1,0,0)` inside it. -/
theorem castRay_forward_witness :
    ((Scenes.downRay : Ray ℝ).intersectBox Scenes.cube Hit.fresh).1 = true ∧
    ((Scenes.downRay : Ray ℝ).intersectTriangle Real.sqrt ⟨0, 0, 0⟩ ⟨0, 1, 0⟩ ⟨1, 0, 0⟩
      Hit.fresh none).1 = true ∧
    ∃ t, 0 < t ∧
      ((Scenes.downRay : Ray ℝ).intersectTriangle Real.sqrt ⟨0, 0, 0⟩ ⟨0, 1, 0⟩ ⟨1, 0, 0⟩
        Hit.fresh none).2.Origin = (Scenes.downRay : Ray ℝ).pointAt t :=
  have hb : ((Scenes.downRay : Ray ℝ).intersectBox Scenes.cube Hit.fresh).1 = true :=
    Scenes.intersectBox_cube
  have htri : ((Scenes.downRay : Ray ℝ).intersectTriangle Real.sqrt ⟨0, 0, 0⟩ ⟨0, 1, 0⟩
      ⟨1, 0, 0⟩ Hit.fresh none).1 = true := by
    rw [Scenes.intersectTriangle_flat]
  ⟨hb, htri, (castRay_forward Real.sqrt (fun m => m⁻¹)
      (fun x hx => ⟨Real.sqrt_nonneg x, Real.mul_self_sqrt hx⟩)).1
    Scenes.downRay Scenes.cube ⟨0, 0, 0⟩ ⟨0, 1, 0⟩ ⟨1, 0, 0⟩ Hit.fresh Hit.fresh
    (by simp [Vector3.cross, Vector3.sub])
    (by simp [Box3.contains, Scenes.cube])
    (by simp [Box3.contains, Scenes.cube])
    (by simp [Box3.contains, Scenes.cube])
    hb htri⟩

end ForwardClaims

/-! ## The registry: `RayCaster::addObject` and the size check of `castRay` -/

section RegistryClaims

variable {K : Type} [LinearOrderedField K]

/-- A sequence of `addObject` calls appends the objects and the meshes in call order and
returns, for each call, the number of objects registered before it reduced modulo
`2^32`. -/
theorem addAll_eq (ps : List (Object3D K × Mesh K)) :
    ∀ rc : RayCaster K,
      (rc.addAll ps).1
        = (List.range' rc.objects.length ps.length).map (fun n => n % 2 ^ 32) ∧
      (rc.addAll ps).2.objects = rc.objects ++ ps.map Prod.fst ∧
      (rc.addAll ps).2.meshes = rc.meshes ++ ps.map Prod.snd := by
  induction ps with
  | nil => intro rc; simp [RayCaster.addAll]
  | cons p ps ih =>
    intro rc
    obtain ⟨object, mesh⟩ := p
    obtain ⟨h1, h2, h3⟩ := ih (rc.addObject object mesh).2
    simp only [RayCaster.addAll, h1, h2, h3, List.length_cons, List.range'_succ, List.map_cons]
    simp [RayCaster.addObject]

/-- Reduction modulo `2^32` leaves the numbers below `2^32` as they are. -/
theorem map_mod_range (n : Nat) (hn : n ≤ 2 ^ 32) :
    (List.range n).map (fun k => k % 2 ^ 32) = List.range n := by
  conv_rhs => rw [← List.map_id (List.range n)]
  refine List.map_congr_left (fun k hk => ?_)
  exact Nat.mod_eq_of_lt (lt_of_lt_of_le (List.mem_range.mp hk) hn)

/-- The only fault the contributions of a registry can end in is a read outside the arrays
of a mesh. -/
theorem sceneHits_error (sqrt : K → K) (invert : Matrix4x4 K → Matrix4x4 K) (ray : Ray K)
    (es : List (Object3D K × Mesh K)) :
    ∀ (i : Nat) (e : Fault), RayCaster.sceneHits sqrt invert ray es i = Except.error e →
      e = Fault.outOfBounds := by
  induction es with
  | nil => intro i e h; simp [RayCaster.sceneHits] at h
  | cons p es ih =>
    intro i e h
    obtain ⟨object, mesh⟩ := p
    simp only [RayCaster.sceneHits] at h
    split_ifs at h with hact
    · cases hobj : RayCaster.objectHits sqrt invert ray mesh object.worldMatrix i with
      | error e1 =>
        simp only [hobj, Except.error.injEq] at h
        subst h
        unfold RayCaster.objectHits at hobj
        split_ifs at hobj with hbb
        · rw [intersectMesh_eq] at hobj
          cases htri : mesh.triangles with
          | none => simp only [htri, Except.error.injEq] at hobj; exact hobj.symm
          | some ts => simp [htri] at hobj
      | ok first =>
        simp only [hobj] at h
        cases hrest : RayCaster.sceneHits sqrt invert ray es (i + 1) with
        | error e1 =>
          simp only [hrest, Except.error.injEq] at h
          subst h
          exact ih _ _ hrest
        | ok more => simp [hrest] at h
    · exact ih _ _ h

/-- C11: starting from an empty `RayCaster`, after every finite sequence of `addObject`
calls the object list and the mesh list have the same length; `castRay` raises the
size-mismatch exception exactly when the two lengths differ (whatever the ray, the
collection and the contents of the lists, so before any other work), and therefore never
on a registry reached from the empty one. -/
theorem castRay_size_check (sqrt : K → K) (invert : Matrix4x4 K → Matrix4x4 K) :
    (∀ ps : List (Object3D K × Mesh K),
      ((RayCaster.empty : RayCaster K).addAll ps).2.objects.length
        = ((RayCaster.empty : RayCaster K).addAll ps).2.meshes.length) ∧
    (∀ (rc : RayCaster K) (ray : Ray K) (hits : List (Hit K)),
      RayCaster.castRay sqrt invert rc ray hits = Except.error Fault.sizeMismatch ↔
        rc.objects.length ≠ rc.meshes.length) ∧
    (∀ (ps : List (Object3D K × Mesh K)) (ray : Ray K) (hits : List (Hit K)),
      RayCaster.castRay sqrt invert ((RayCaster.empty : RayCaster K).addAll ps).2 ray hits
        ≠ Except.error Fault.sizeMismatch) := by
  have hreach : ∀ ps : List (Object3D K × Mesh K),
      ((RayCaster.empty : RayCaster K).addAll ps).2.objects.length
        = ((RayCaster.empty : RayCaster K).addAll ps).2.meshes.length := by
    intro ps
    obtain ⟨_, h2, h3⟩ := addAll_eq ps (RayCaster.empty : RayCaster K)
    rw [h2, h3]
    simp [RayCaster.empty]
  have hiff : ∀ (rc : RayCaster K) (ray : Ray K) (hits : List (Hit K)),
      RayCaster.castRay sqrt invert rc ray hits = Except.error Fault.sizeMismatch ↔
        rc.objects.length ≠ rc.meshes.length := by
    intro rc ray hits
    constructor
    · intro h hlen
      rw [castRay_eq, if_neg (not_not.mpr hlen)] at h
      cases hs : RayCaster.sceneHits sqrt invert ray (rc.objects.zip rc.meshes) 0 with
      | error e =>
        have he := sceneHits_error sqrt invert ray _ 0 e hs
        simp only [hs, Except.error.injEq] at h
        rw [he] at h
        exact absurd h (by decide)
      | ok new =>
        simp only [hs, RayCaster.sortHits] at h
        split_ifs at h
        simp at h
    · intro hlen
      simp only [RayCaster.castRay, if_pos hlen]
  exact ⟨hreach, hiff, fun ps ray hits h => (hiff _ ray hits).mp h (hreach ps)⟩

/-- C12 (amended): `addObject` returns the number of pairs registered before the call
reduced modulo `2^32` (the id is a `UInt32`), so the calls of a sequence of at most `2^32`
calls that starts on an empty `RayCaster` return `0, 1, 2, ...` (strictly increasing, never
reused); whatever the number of calls, the objects and meshes are stored in call order.  On
a registry whose lists have the same length the object and the mesh passed in are stored at
the end of their lists, which is the returned index while fewer than `2^32` pairs are
registered; every earlier entry keeps its index and value, and the lists still have the
same length. -/
theorem addObject_spec :
    (∀ ps : List (Object3D K × Mesh K),
      ((RayCaster.empty : RayCaster K).addAll ps).1
        = (List.range ps.length).map (fun n => n % 2 ^ 32) ∧
      ((RayCaster.empty : RayCaster K).addAll ps).2.objects = ps.map Prod.fst ∧
      ((RayCaster.empty : RayCaster K).addAll ps).2.meshes = ps.map Prod.snd ∧
      (ps.length ≤ 2 ^ 32 →
        ((RayCaster.empty : RayCaster K).addAll ps).1 = List.range ps.length ∧
        List.Pairwise (fun a b => a < b) ((RayCaster.empty : RayCaster K).addAll ps).1)) ∧
    (∀ (rc : RayCaster K) (object : Object3D K) (mesh : Mesh K),
      rc.objects.length = rc.meshes.length →
      (rc.addObject object mesh).1 = rc.objects.length % 2 ^ 32 ∧
      (rc.addObject object mesh).2.objects[rc.objects.length]? = some object ∧
      (rc.addObject object mesh).2.meshes[rc.objects.length]? = some mesh ∧
      (rc.objects.length < 2 ^ 32 →
        (rc.addObject object mesh).1 = rc.objects.length ∧
        (rc.addObject object mesh).2.objects[(rc.addObject object mesh).1]? = some object ∧
        (rc.addObject object mesh).2.meshes[(rc.addObject object mesh).1]? = some mesh) ∧
      (∀ j, j < rc.objects.length →
        (rc.addObject object mesh).2.objects[j]? = rc.objects[j]? ∧
        (rc.addObject object mesh).2.meshes[j]? = rc.meshes[j]?) ∧
      (rc.addObject object mesh).2.objects.length
        = (rc.addObject object mesh).2.meshes.length) := by
  constructor
  · intro ps
    obtain ⟨h1, h2, h3⟩ := addAll_eq ps (RayCaster.empty : RayCaster K)
    have hr : ((RayCaster.empty : RayCaster K).addAll ps).1
        = (List.range ps.length).map (fun n => n % 2 ^ 32) := by
      rw [h1, List.range_eq_range']; rfl
    refine ⟨hr, ?_, ?_, fun hn => ?_⟩
    · rw [h2]; simp [RayCaster.empty]
    · rw [h3]; simp [RayCaster.empty]
    · rw [hr, map_mod_range _ hn]
      exact ⟨rfl, List.pairwise_lt_range ps.length⟩
  · intro rc object mesh hlen
    have hobj : (rc.addObject object mesh).2.objects[rc.objects.length]? = some object := by
      simp [RayCaster.addObject]
    have hmesh : (rc.addObject object mesh).2.meshes[rc.objects.length]? = some mesh := by
      simp [RayCaster.addObject, hlen]
    refine ⟨rfl, hobj, hmesh, fun hlt => ?_, fun j hj => ⟨?_, ?_⟩, ?_⟩
    · have hid : (rc.addObject object mesh).1 = rc.objects.length :=
        Nat.mod_eq_of_lt hlt
      rw [hid]
      exact ⟨rfl, hobj, hmesh⟩
    · simp only [RayCaster.addObject]
      exact List.getElem?_append_left hj
    · simp only [RayCaster.addObject]
      exact List.getElem?_append_left (hlen ▸ hj)
    · simp [RayCaster.addObject, hlen]

/-- C12 as stated fails: in a sequence of `2^32 + 1` calls that starts on an empty
`RayCaster`, call number `2^32` (counting from 0) returns the id 0, which call number 0
returned already. -/
theorem addObject_counterexample :
    ((RayCaster.empty : RayCaster ℚ).addAll
        (List.replicate (2 ^ 32 + 1) (⟨true, 1⟩, Scenes.flatMesh))).1[0]? = some 0 ∧
    ((RayCaster.empty : RayCaster ℚ).addAll
        (List.replicate (2 ^ 32 + 1) (⟨true, 1⟩, Scenes.flatMesh))).1[2 ^ 32]? = some 0 := by
  have h1 := (addAll_eq (List.replicate (2 ^ 32 + 1)
    ((⟨true, 1⟩ : Object3D ℚ), (Scenes.flatMesh : Mesh ℚ))) RayCaster.empty).1
  rw [List.length_replicate] at h1
  have h0 : (RayCaster.empty : RayCaster ℚ).objects.length = 0 := rfl
  rw [h0] at h1
  rw [h1, List.getElem?_map, List.getElem?_map,
    List.getElem?_range' 0 1 (Nat.succ_pos (2 ^ 32)),
    List.getElem?_range' 0 1 (Nat.lt_succ_self (2 ^ 32))]
  constructor
  · rfl
  · simp only [Option.map_some', Nat.zero_add, Nat.one_mul, Nat.mod_self]

end RegistryClaims

end Core
